import Mathlib

/-!
# hhuOS thread scheduler: embedding of `src/os/kernel/threads/Scheduler.cpp`

The scheduler is embedded as a state-passing program.  A `Scheduler σ` value
holds the members of the C++ class (`priority`, `readyQueues`,
`currentThread`, `initialized`, `lock`) together with the `Thread` objects its
pointers refer to.  Every member function becomes a function from the state
before the call to an `Outcome`: the state at the normal end of the call (a
return, or the hand-over of the CPU inside `startThread`/`switchContext`), the
state at the moment `Cpu::throwException` is entered, or no end at all.

After the scheduler the file embeds, in the same way, the interrupt numbers of
`src/os/kernel/interrupts/IntDispatcher.h`, the ELF header validation of
`src/os/lib/elf`, the panic screen of `src/os/kernel/interrupts/BlueScreen.cc`
and `init`/`alloc` of `src/os/kernel/memory/manager/IOMemoryManager.cpp`.
-/

namespace HhuOS

/-- Address of a `Thread` object.  The ready queues and `currentThread` hold
such pointers. -/
abbrev ThreadRef := Nat

/-- The members of `Cpu::Exception` the scheduler paths can raise:
`ILLEGAL_STATE` is thrown by the scheduler itself, `OUT_OF_BOUNDS` stands for
an access `readyQueues[i]` with `i` outside the array (`Util::Array` is not
part of the sources). -/
inductive Exception where
  | ILLEGAL_STATE
  | OUT_OF_BOUNDS
  deriving DecidableEq, Repr

/-- Modelled from the spec: the class `Thread` (kernel/threads/Thread.h is not
part of the sources).  Section 3 of the specification gives its fields: an
identifier, a priority class (`getPriority()`, an 8-bit value) and the two
lifecycle flags `started` and `finished` which the scheduler writes. -/
structure Thread where
  id : Nat
  priority : Nat
  started : Bool
  finished : Bool
  deriving DecidableEq, Repr

/-- Modelled from the spec: the abstract class `ThreadPriority`
(kernel/threads/priority is not part of the sources).  A policy is a stateful
selector: `getPriorityCount()` is the fixed number of classes and
`getNextPriority()` answers a class index and advances the rotation state
`σ`. -/
structure ThreadPriority (σ : Type) where
  getPriorityCount : Nat
  getNextPriority : σ → Nat × σ

/-- State of `class Scheduler`: the rotation state of its priority policy, the
array of ready queues (one FIFO of thread pointers per class), the pointer to
the running thread, the `initialized` flag and the spinlock (`true` = held),
plus the `Thread` objects in memory. -/
structure Scheduler (σ : Type) where
  priority : σ
  readyQueues : List (List ThreadRef)
  currentThread : ThreadRef
  initialized : Bool
  lock : Bool
  threads : ThreadRef → Thread

/-- How a call of a member function ends.
* `done a s`: the call reached its end with value `a` in state `s` (for
  `startUp`, `exit`, `block` and a yielding `yield` the end is the context
  switch, where the CPU is handed to the next thread);
* `fatal e s`: `Cpu::throwException(e, ..)` was entered in state `s`; it does
  not return;
* `deadlock`: a blocking `lock.acquire()` met a held lock and spins;
* `outOfFuel`: the selection loop of `getNextThread` did not find a non-empty
  queue within the given number of `getNextPriority` calls. -/
inductive Outcome (σ α : Type) where
  | done (a : α) (s : Scheduler σ)
  | fatal (e : Exception) (s : Scheduler σ)
  | deadlock
  | outOfFuel

/-- Sequencing of a call with the code that follows it. -/
def Outcome.bind {σ α β : Type} (o : Outcome σ α)
    (f : α → Scheduler σ → Outcome σ β) : Outcome σ β :=
  match o with
  | .done a s => f a s
  | .fatal e s => .fatal e s
  | .deadlock => .deadlock
  | .outOfFuel => .outOfFuel

/-- Modelled from the spec: `readyQueues[i].push(t)` on the array of FIFO
queues (`Util::Array`, `Util::ArrayBlockingQueue` are not part of the
sources): the element is appended at the tail of queue `i`; `none` when `i` is
not an index of the array. -/
def push (qs : List (List ThreadRef)) (i : Nat) (t : ThreadRef) :
    Option (List (List ThreadRef)) :=
  match qs[i]? with
  | none => none
  | some q => some (qs.set i (q ++ [t]))

/-- Modelled from the spec: `readyQueues[i].remove(t)`, which takes the
element out of queue `i` if it is queued there (its first occurrence) and
keeps the order of the others; `none` when `i` is not an index of the
array. -/
def remove (qs : List (List ThreadRef)) (i : Nat) (t : ThreadRef) :
    Option (List (List ThreadRef)) :=
  match qs[i]? with
  | none => none
  | some q => some (qs.set i (q.erase t))

namespace Scheduler

variable {σ : Type}

/-- Modelled from the spec: the state the constructor `Scheduler(priority)`
leaves (Scheduler.h is not part of the sources): one empty queue per class of
the policy, no current thread (null pointer, address 0), not initialized,
lock free. -/
def create (P : ThreadPriority σ) (p0 : σ) (threads : ThreadRef → Thread) :
    Scheduler σ :=
  { priority := p0
    readyQueues := List.replicate P.getPriorityCount []
    currentThread := 0
    initialized := false
    lock := false
    threads := threads }

/-- Member function `Scheduler::isInitialized`. -/
def isInitialized (s : Scheduler σ) : Bool :=
  s.initialized

/-- Member function `Scheduler::isThreadWaiting`: some ready queue is not empty. -/
def isThreadWaiting (s : Scheduler σ) : Bool :=
  s.readyQueues.any (fun queue => !queue.isEmpty)

/-- Member function `Scheduler::getThreadCount`: the `uint32_t` sum of the queue sizes. -/
def getThreadCount (s : Scheduler σ) : Nat :=
  s.readyQueues.foldl (fun count queue => (count + queue.length % 2 ^ 32) % 2 ^ 32) 0

/-- Member function `Scheduler::getMaxPriority`: `static_cast<uint8_t>(readyQueues.length() - 1)`
with `length()` a `uint32_t`. -/
def getMaxPriority (s : Scheduler σ) : Nat :=
  ((s.readyQueues.length % 2 ^ 32 + (2 ^ 32 - 1)) % 2 ^ 32) % 2 ^ 8

/-- The selection loop of `Scheduler::getNextThread` (lines 209-217): ask the
policy for a class, again while that class's queue is empty, then pop the
head.  `fuel` bounds the number of `getNextPriority` calls. -/
def getNextThreadLoop (P : ThreadPriority σ) : Nat → Scheduler σ → Outcome σ ThreadRef
  | 0, _ => .outOfFuel
  | fuel + 1, s =>
    let s1 : Scheduler σ := { s with priority := (P.getNextPriority s.priority).2 }
    match s1.readyQueues[(P.getNextPriority s.priority).1]? with
    | none => .fatal .OUT_OF_BOUNDS s1
    | some [] => getNextThreadLoop P fuel s1
    | some (ret :: rest) =>
      .done ret { s1 with readyQueues := s1.readyQueues.set (P.getNextPriority s.priority).1 rest }

/-- Member function `Scheduler::getNextThread`. -/
def getNextThread (P : ThreadPriority σ) (fuel : Nat) (s : Scheduler σ) :
    Outcome σ ThreadRef :=
  if !isThreadWaiting s then .fatal .ILLEGAL_STATE s
  else getNextThreadLoop P fuel s

/-- Member function `Scheduler::dispatch`: `switchContext` hands the CPU to `next`; the lock
stays as it is until the resumed thread calls `releaseSchedulerLock`. -/
def dispatch (s : Scheduler σ) (next : ThreadRef) : Outcome σ Unit :=
  if !s.initialized then .fatal .ILLEGAL_STATE s
  else .done () { s with currentThread := next }

/-- The C function `releaseSchedulerLock`. -/
def releaseSchedulerLock (s : Scheduler σ) : Scheduler σ :=
  { s with lock := false }

/-- Member function `Scheduler::startUp`. -/
def startUp (P : ThreadPriority σ) (fuel : Nat) (s : Scheduler σ) : Outcome σ Unit :=
  if s.lock then .deadlock
  else
    let s0 : Scheduler σ := { s with lock := true }
    if !isThreadWaiting s0 then .fatal .ILLEGAL_STATE s0
    else
      (getNextThread P fuel s0).bind fun next s1 =>
        .done () { s1 with currentThread := next, initialized := true }

/-- Member function `Scheduler::ready`. -/
def ready (s : Scheduler σ) (that : ThreadRef) : Outcome σ Unit :=
  if (s.threads that).started then .fatal .ILLEGAL_STATE s
  else if s.lock then .deadlock
  else
    let s0 : Scheduler σ := { s with lock := true }
    match push s0.readyQueues (s0.threads that).priority that with
    | none => .fatal .OUT_OF_BOUNDS s0
    | some qs =>
      .done () { s0 with
        readyQueues := qs
        threads := Function.update s0.threads that { s0.threads that with started := true }
        lock := false }

/-- Member function `Scheduler::exit`. -/
def exit (P : ThreadPriority σ) (fuel : Nat) (s : Scheduler σ) : Outcome σ Unit :=
  if s.lock then .deadlock
  else
    let s0 : Scheduler σ := { s with lock := true }
    if !s0.initialized then .fatal .ILLEGAL_STATE s0
    else if !isThreadWaiting s0 then .fatal .ILLEGAL_STATE s0
    else
      (getNextThread P fuel s0).bind fun next s1 =>
        dispatch { s1 with
          threads := Function.update s1.threads s1.currentThread
            { s1.threads s1.currentThread with finished := true } } next

/-- Member function `Scheduler::kill`. -/
def kill (s : Scheduler σ) (that : ThreadRef) : Outcome σ Unit :=
  if s.lock then .deadlock
  else
    let s0 : Scheduler σ := { s with lock := true }
    if !s0.initialized then .fatal .ILLEGAL_STATE s0
    else if (s0.threads that).id = (s0.threads s0.currentThread).id then
      .fatal .ILLEGAL_STATE s0
    else
      match remove s0.readyQueues (s0.threads that).priority that with
      | none => .fatal .OUT_OF_BOUNDS s0
      | some qs =>
        .done () { s0 with
          readyQueues := qs
          threads := Function.update s0.threads that { s0.threads that with finished := true }
          lock := false }

/-- Member function `Scheduler::yield`: `lock.tryAcquire()` fails on a held lock. -/
def yield (P : ThreadPriority σ) (fuel : Nat) (s : Scheduler σ) : Outcome σ Unit :=
  if !isThreadWaiting s then .done () s
  else if s.lock then .done () s
  else
    (getNextThread P fuel { s with lock := true }).bind fun next s1 =>
      match push s1.readyQueues (s1.threads s1.currentThread).priority s1.currentThread with
      | none => .fatal .OUT_OF_BOUNDS s1
      | some qs => dispatch { s1 with readyQueues := qs } next

/-- Member function `Scheduler::block`. -/
def block (P : ThreadPriority σ) (fuel : Nat) (s : Scheduler σ) : Outcome σ Unit :=
  if !isThreadWaiting s then .fatal .ILLEGAL_STATE s
  else if s.lock then .deadlock
  else
    (getNextThread P fuel { s with lock := true }).bind fun next s1 =>
      dispatch s1 next

/-- Member function `Scheduler::deblock`. -/
def deblock (s : Scheduler σ) (that : ThreadRef) : Outcome σ Unit :=
  if s.lock then .deadlock
  else
    let s0 : Scheduler σ := { s with lock := true }
    if !s0.initialized then .fatal .ILLEGAL_STATE s0
    else
      match push s0.readyQueues (s0.threads that).priority that with
      | none => .fatal .OUT_OF_BOUNDS s0
      | some qs => .done () { s0 with readyQueues := qs, lock := false }

/-- Member function `Scheduler::changePriority`; the parameter `priority` is a `uint8_t`. -/
def changePriority (s : Scheduler σ) (thread : ThreadRef) (priority : Nat) :
    Outcome σ Nat :=
  let priority := priority % 2 ^ 8
  let priority := (if priority > getMaxPriority s then getMaxPriority s else priority) % 2 ^ 8
  if s.lock then .deadlock
  else
    let s0 : Scheduler σ := { s with lock := true }
    if thread = s0.currentThread then .done priority { s0 with lock := false }
    else
      match remove s0.readyQueues (s0.threads thread).priority thread with
      | none => .fatal .OUT_OF_BOUNDS s0
      | some qs =>
        match push qs priority thread with
        | none => .fatal .OUT_OF_BOUNDS { s0 with readyQueues := qs }
        | some qs1 => .done priority { s0 with readyQueues := qs1, lock := false }

/-- The handler the constructor registers for `SystemCall::SCHEDULER_YIELD`. -/
def sysYield (P : ThreadPriority σ) (fuel : Nat) (s : Scheduler σ) : Outcome σ Unit :=
  if isInitialized s then yield P fuel s else .done () s

/-- The handler the constructor registers for `SystemCall::SCHEDULER_BLOCK`. -/
def sysBlock (P : ThreadPriority σ) (fuel : Nat) (s : Scheduler σ) : Outcome σ Unit :=
  if isInitialized s then block P fuel s else .done () s

/-- Number of queued thread pointers, as a natural number (the value
`getThreadCount` computes in 32-bit arithmetic). -/
def queuedTotal (s : Scheduler σ) : Nat :=
  (s.readyQueues.map List.length).sum

/-- Thread `t` occurs in some ready queue. -/
def isQueued (s : Scheduler σ) (t : ThreadRef) : Bool :=
  s.readyQueues.any (fun queue => queue.contains t)

end Scheduler

/-! ## A concrete scheduler for evaluation

Three classes served in rotation and the three threads of the scenario of the
specification: `A` (class 0), `B` (class 1), `C` (class 0), at the addresses
1, 2 and 3. -/

/-- Rotation over `n` classes: the state is the class answered next. -/
def roundRobin (n : Nat) : ThreadPriority Nat :=
  { getPriorityCount := n
    getNextPriority := fun k => (k % n, (k + 1) % n) }

/-- Thread objects of the scenario before any `ready`: the thread at address
`r` has id `r`; address 2 (`B`) is of class 1, every other thread of class 0;
no thread is started or finished. -/
def bootThreads : ThreadRef → Thread :=
  fun r => { id := r, priority := if r = 2 then 1 else 0, started := false, finished := false }

/-- The freshly constructed scheduler of the scenario. -/
def demoBoot : Scheduler Nat :=
  Scheduler.create (roundRobin 3) 0 bootThreads

/-- Thread objects of the scenario once `A`, `B` and `C` (addresses 1, 2, 3)
were passed to `ready`. -/
def demoThreads : ThreadRef → Thread :=
  fun r =>
    { id := r, priority := if r = 2 then 1 else 0,
      started := decide (r = 1 ∨ r = 2 ∨ r = 3), finished := false }

/-- The scenario after `A` was dispatched: `A` runs, `B` and `C` wait. -/
def demoRunning : Scheduler Nat :=
  { priority := 1
    readyQueues := [[3], [2], []]
    currentThread := 1
    initialized := true
    lock := false
    threads := demoThreads }

/-- The scenario after `getNextThread` popped `B`: the policy has moved on to
class 2. -/
def demoSelected : Scheduler Nat :=
  { demoRunning with priority := 2, readyQueues := [[3], [], []] }

/-- The scenario with no thread waiting. -/
def demoIdle : Scheduler Nat :=
  { demoRunning with readyQueues := [[], [], []] }

/-- The scenario after the running thread `A` passed itself to `deblock`. -/
def demoSelfDeblocked : Scheduler Nat :=
  { demoRunning with readyQueues := [[3, 1], [2], []] }

namespace Scheduler

variable {σ : Type}

/-- Number of entries thread `t` has in the ready queues, all classes taken
together. -/
def occurrences (s : Scheduler σ) (t : ThreadRef) : Nat :=
  (s.readyQueues.map (List.count t)).sum

/-- The threads `n` successive calls of `getNextThread` return, each call with
`fuel` policy answers at its disposal; the list ends early at the first call
that does not return a thread. -/
def drain (P : ThreadPriority σ) (fuel : Nat) : Nat → Scheduler σ → List ThreadRef
  | 0, _ => []
  | n + 1, s =>
    match getNextThread P fuel s with
    | .done t s1 => t :: drain P fuel n s1
    | _ => []

end Scheduler

/-- The scenario after `A` called `block`: `B` runs, `C` waits, `A` is in no
queue. -/
def demoBlocked : Scheduler Nat :=
  { demoSelected with currentThread := 2 }

/-- Rotation state of the policy after `k` calls of `getNextPriority`, from
state `p`. -/
def ThreadPriority.stateAfter {σ : Type} (P : ThreadPriority σ) (p : σ) : Nat → σ
  | 0 => p
  | k + 1 => P.stateAfter (P.getNextPriority p).2 k

/-- The answer of call number `k` (counted from 0) in a row of
`getNextPriority` calls that starts in rotation state `p`. -/
def ThreadPriority.answer {σ : Type} (P : ThreadPriority σ) (p : σ) (k : Nat) : Nat :=
  (P.getNextPriority (P.stateAfter p k)).1

/-- In class `c` an entry of thread `a` stands in front of every entry of
thread `b`, and `b` has no entry in another class. -/
def queuedAhead (qs : List (List ThreadRef)) (c : Nat) (a b : ThreadRef) : Prop :=
  (∃ l1 l2 : List ThreadRef, qs[c]? = some (l1 ++ a :: l2) ∧ b ∉ l1) ∧
    ∀ (i : Nat) (q : List ThreadRef), i ≠ c → qs[i]? = some q → b ∉ q

/-- The scenario before `startUp`: `A`, `B`, `C` were passed to `ready` in
that order. -/
def demoReadied : Scheduler Nat :=
  { demoBoot with readyQueues := [[1, 3], [2], []], threads := demoThreads }

/-- A call of one of the public operations of the scheduler. -/
inductive Op where
  | ready (that : ThreadRef)
  | startUp
  | yield
  | block
  | deblock (that : ThreadRef)
  | exit
  | kill (that : ThreadRef)
  | changePriority (thread : ThreadRef) (priority : Nat)
  deriving DecidableEq, Repr

namespace Scheduler

variable {σ : Type}

/-- One call in a run, followed up to the next point at which a thread
executes outside of the scheduler: after an operation that hands over the CPU
(`startUp`, `block`, `exit`, and `yield` when it dispatches, that is when a
thread waits and `tryAcquire` succeeds) the resumed thread calls
`releaseSchedulerLock`. -/
def perform (P : ThreadPriority σ) (fuel : Nat) (s : Scheduler σ) : Op → Outcome σ Unit
  | .ready that => ready s that
  | .startUp => (startUp P fuel s).bind fun _ s1 => .done () (releaseSchedulerLock s1)
  | .yield =>
    if isThreadWaiting s && !s.lock then
      (yield P fuel s).bind fun _ s1 => .done () (releaseSchedulerLock s1)
    else yield P fuel s
  | .block => (block P fuel s).bind fun _ s1 => .done () (releaseSchedulerLock s1)
  | .deblock that => deblock s that
  | .exit => (exit P fuel s).bind fun _ s1 => .done () (releaseSchedulerLock s1)
  | .kill that => kill s that
  | .changePriority thread priority =>
    (changePriority s thread priority).bind fun _ s1 => .done () s1

/-- A run: the calls of the list one after the other; `none` as soon as a
call does not reach its end (fatal path, spinning). -/
def run (P : ThreadPriority σ) (fuel : Nat) : List Op → Scheduler σ → Option (Scheduler σ)
  | [], s => some s
  | op :: ops, s =>
    match perform P fuel s op with
    | .done _ s1 => run P fuel ops s1
    | _ => none

/-- Every call of the run is admitted by `ok` in the state it is made in. -/
def follows (ok : Scheduler σ → Op → Bool) (P : ThreadPriority σ) (fuel : Nat) :
    List Op → Scheduler σ → Bool
  | [], _ => true
  | op :: ops, s =>
    ok s op &&
      match perform P fuel s op with
      | .done _ s1 => follows ok P fuel ops s1
      | _ => true

/-- Thread `t` has no entry outside the queue of its own priority class. -/
def onlyInOwnClass (s : Scheduler σ) (t : ThreadRef) : Bool :=
  occurrences s t = List.count t ((s.readyQueues[(s.threads t).priority]?).getD [])

/-- The calling discipline under which the queue invariants hold: `deblock`
is applied to a blocked thread (started, not running, in no queue), and
`changePriority` to the running thread or to a started thread that has no
entry outside the queue of its priority class.  The other operations are not
restricted. -/
def orderly (s : Scheduler σ) : Op → Bool
  | .deblock that =>
    (s.threads that).started && that != s.currentThread && occurrences s that == 0
  | .changePriority thread _ =>
    thread == s.currentThread || ((s.threads thread).started && onlyInOwnClass s thread)
  | _ => true

/-- The discipline `orderly` and in addition: no finished thread is handed
back to the scheduler by `ready`, `deblock` or `changePriority`, and `kill`
is applied to a thread that has no entry outside the queue of its priority
class. -/
def careful (s : Scheduler σ) (op : Op) : Bool :=
  orderly s op &&
    match op with
    | .ready that => !(s.threads that).finished
    | .deblock that => !(s.threads that).finished
    | .changePriority thread _ => thread == s.currentThread || !(s.threads thread).finished
    | .kill that => onlyInOwnClass s that
    | _ => true

/-- The queue invariants: no thread has two entries, the running thread has
none (once initialized), and every queued thread and the running thread were
started. -/
structure Orderly (s : Scheduler σ) : Prop where
  once : ∀ t, occurrences s t ≤ 1
  currentOut : s.initialized = true → occurrences s s.currentThread = 0
  queuedStarted : ∀ t, 0 < occurrences s t → (s.threads t).started = true
  currentStarted : s.initialized = true → (s.threads s.currentThread).started = true

/-- No finished thread is queued, and the running thread is not finished. -/
structure FinishedOut (s : Scheduler σ) : Prop where
  queuedLive : ∀ t, 0 < occurrences s t → (s.threads t).finished = false
  currentLive : s.initialized = true → (s.threads s.currentThread).finished = false

/-- The operations the thread-count accounting is about. -/
def counted : Op → Bool
  | .deblock _ => false
  | .changePriority _ _ => false
  | _ => true

/-- Calls of `ready`. -/
def isReadyCall : Op → Bool
  | .ready _ => true
  | _ => false

/-- Calls that dispatch a thread without re-enqueuing the caller: `startUp`,
`block`, `exit`. -/
def isHandOver : Op → Bool
  | .startUp => true
  | .block => true
  | .exit => true
  | _ => false

/-- Calls of `kill`. -/
def isKillCall : Op → Bool
  | .kill _ => true
  | _ => false

/-- Number of `kill` calls of the run that find their target in the queue of
its priority class (the calls whose `remove` takes an entry out). -/
def killHits (P : ThreadPriority σ) (fuel : Nat) : List Op → Scheduler σ → Nat
  | [], _ => 0
  | op :: ops, s =>
    (match op with
      | .kill that =>
        if that ∈ (s.readyQueues[(s.threads that).priority]?).getD [] then 1 else 0
      | _ => 0) +
      match perform P fuel s op with
      | .done _ s1 => killHits P fuel ops s1
      | _ => 0

end Scheduler

/-- The state in which a call ended, when it ended (returned, handed over the
CPU, or entered `Cpu::throwException`). -/
def Outcome.state? {σ α : Type} : Outcome σ α → Option (Scheduler σ)
  | .done _ s => some s
  | .fatal _ s => some s
  | .deadlock => none
  | .outOfFuel => none

/-- State `s1` agrees with `s` in the ready queues, the current thread, the
thread objects and the rotation state of the policy (the lock and
`initialized` are not compared). -/
def Scheduler.sameSchedule {σ : Type} (s s1 : Scheduler σ) : Prop :=
  s1.readyQueues = s.readyQueues ∧ s1.currentThread = s.currentThread ∧
    s1.threads = s.threads ∧ s1.priority = s.priority

/-- The default instance of `Scheduler::getInstance`, built over a policy with
five classes (the policy class `AccessArrayThreadPriority` itself is not part
of the sources; rotation stands in for it). -/
def demoDefault : Scheduler Nat :=
  Scheduler.create (roundRobin 5) 0 bootThreads

/-! ## The interrupt numbers of `src/os/kernel/interrupts/IntDispatcher.h` -/

namespace IntDispatcher

/-- Enumerator `PAGEFAULT = 14`. -/
def PAGEFAULT : Nat := 14
/-- Enumerator `PIT = 32`. -/
def PIT : Nat := 32
/-- Enumerator `KEYBOARD = 33`. -/
def KEYBOARD : Nat := 33
/-- Enumerator `COM2 = 35`. -/
def COM2 : Nat := 35
/-- Enumerator `COM1 = 36`. -/
def COM1 : Nat := 36
/-- Enumerator `LPT2 = 37`. -/
def LPT2 : Nat := 37
/-- Enumerator `FLOPPY = 38`. -/
def FLOPPY : Nat := 38
/-- Enumerator `LPT1 = 39`. -/
def LPT1 : Nat := 39
/-- Enumerator `RTC = 40`. -/
def RTC : Nat := 40
/-- Enumerator `FREE1 = 41`. -/
def FREE1 : Nat := 41
/-- Enumerator `FREE2 = 42`. -/
def FREE2 : Nat := 42
/-- Enumerator `FREE3 = 43`. -/
def FREE3 : Nat := 43
/-- Enumerator `MOUSE = 44`. -/
def MOUSE : Nat := 44
/-- Enumerator `FPU = 45`. -/
def FPU : Nat := 45
/-- Enumerator `PRIMARY_ATA = 46`. -/
def PRIMARY_ATA : Nat := 46
/-- Enumerator `SECONDARY_ATA = 47`. -/
def SECONDARY_ATA : Nat := 47

/-- The sixteen enumerators of the anonymous `enum` of `IntDispatcher`, in
the order of their declaration. -/
def interruptNumbers : List Nat :=
  [PAGEFAULT, PIT, KEYBOARD, COM2, COM1, LPT2, FLOPPY, LPT1, RTC, FREE1, FREE2,
    FREE3, MOUSE, FPU, PRIMARY_ATA, SECONDARY_ATA]

/-- Conversion of an interrupt number to the parameter `uint8_t slot` of
`assign`, `assignDebug`, `report` and `reportDebug`. -/
def slot (n : Nat) : Nat := n % 2 ^ 8

end IntDispatcher

/-! ## ELF header validation: `src/os/lib/elf/ElfConstants.cpp`, `ElfModule.cpp` -/

/-- The enumerators `Architecture::BIT_32`, `ByteOrder::LITTLE_ENDIAN`,
`MachineType::X86`, `ElfType::RELOCATABLE` and `ElfType::EXECUTABLE` which the
validation compares against.  `ElfConstants.h` is not part of the sources, so
their numeric values are parameters. -/
structure ElfConstants where
  BIT_32 : Nat
  LITTLE_ENDIAN : Nat
  X86 : Nat
  RELOCATABLE : Nat
  EXECUTABLE : Nat

/-- The members of `ElfConstants::FileHeader` read by `isValid`: the array
`magic` (its first four bytes), `architecture`, `byteOrder`, `machine` and
`type`. -/
structure FileHeader where
  magic : Fin 4 → Nat
  architecture : Nat
  byteOrder : Nat
  machine : Nat
  type : Nat

/-- Translation of `FileHeader::isValid`. -/
def FileHeader.isValid (K : ElfConstants) (h : FileHeader) : Bool :=
  if h.magic 0 ≠ 0x7F ∨ h.magic 1 ≠ 'E'.toNat ∨ h.magic 2 ≠ 'L'.toNat ∨
      h.magic 3 ≠ 'F'.toNat then
    false
  else if h.architecture ≠ K.BIT_32 ∨ h.byteOrder ≠ K.LITTLE_ENDIAN ∨
      h.machine ≠ K.X86 then
    false
  else
    !(decide (h.type ≠ K.RELOCATABLE) && decide (h.type ≠ K.EXECUTABLE))

/-- The member of `ElfModule` read by `isValid`: the header `fileHeader`
points to. -/
structure ElfModule where
  fileHeader : FileHeader

/-- Translation of `ElfModule::isValid`. -/
def ElfModule.isValid (K : ElfConstants) (m : ElfModule) : Bool :=
  if !(m.fileHeader.isValid K) then
    false
  else
    decide (m.fileHeader.type = K.RELOCATABLE)

/-- The values the ELF format gives the five enumerators (`ELFCLASS32 = 1`,
`ELFDATA2LSB = 1`, `EM_386 = 3`, `ET_REL = 1`, `ET_EXEC = 2`), for
evaluation. -/
def demoElfConstants : ElfConstants :=
  { BIT_32 := 1, LITTLE_ENDIAN := 1, X86 := 3, RELOCATABLE := 1, EXECUTABLE := 2 }

/-- A header of a relocatable 32-bit little-endian x86 file. -/
def demoRelocatable : FileHeader :=
  { magic := ![0x7F, 0x45, 0x4C, 0x46], architecture := 1, byteOrder := 1,
    machine := 3, type := 1 }

/-! ## The panic screen: `src/os/kernel/interrupts/BlueScreen.cc` -/

/-- The constants `ROWS`, `COLUMNS` and `ATTRIBUTE` of `BlueScreen.h`, which
is not part of the sources; their values are parameters. -/
structure BlueScreenConstants where
  ROWS : Nat
  COLUMNS : Nat
  ATTRIBUTE : Nat

/-- State of `class BlueScreen`: the cursor members `x` and `y` (of the type
`uint16_t` of the parameters of `show`) and the bytes of the text buffer, `cga
a` being the byte at address `CGA_START + a`. -/
structure BlueScreen where
  x : Nat
  y : Nat
  cga : Nat → Nat

/-- Translation of `BlueScreen::show`.  The offset `pos` is computed in `int`
and converted to `uint16_t`; the character is stored as `uint8_t`. -/
def BlueScreen.show (K : BlueScreenConstants) (s : BlueScreen) (x y c : Nat) :
    BlueScreen :=
  if x < 0 ∨ x ≥ K.COLUMNS ∨ y < 0 ∨ y > K.ROWS then
    s
  else
    let pos := ((y * K.COLUMNS + x) * 2) % 2 ^ 16
    { s with
      cga := Function.update (Function.update s.cga pos (c % 2 ^ 8)) (pos + 1)
        K.ATTRIBUTE }

/-- Translation of `BlueScreen::putc`; the line feed `'\n'` is the character
code 10, and `x++`, `y++` are increments of `uint16_t` values. -/
def BlueScreen.putc (K : BlueScreenConstants) (s : BlueScreen) (c : Nat) :
    BlueScreen :=
  if s.y ≥ K.ROWS then
    s
  else
    let s1 : BlueScreen :=
      if c = 10 then
        { s with x := 0, y := (s.y + 1) % 2 ^ 16 }
      else
        { BlueScreen.show K s s.x s.y c with x := (s.x + 1) % 2 ^ 16 }
    if s1.x ≥ K.COLUMNS then
      { s1 with x := 0, y := (s1.y + 1) % 2 ^ 16 }
    else
      s1

/-- Translation of `BlueScreen::puts`: `putc` for the characters `str 0`, ...,
`str (n - 1)`, in this order. -/
def BlueScreen.puts (K : BlueScreenConstants) (s : BlueScreen) (str : Nat → Nat)
    (n : Nat) : BlueScreen :=
  (List.range n).foldl (fun st i => BlueScreen.putc K st (str i)) s

/-- The text mode of `BlueScreen::initialize` (80 columns, 25 rows), with the
attribute byte `0x10` of its fill pattern, for evaluation. -/
def demoScreenConstants : BlueScreenConstants :=
  { ROWS := 25, COLUMNS := 80, ATTRIBUTE := 0x10 }

/-- A screen with the cursor at the last cell of the first row. -/
def demoScreen : BlueScreen :=
  { x := 79, y := 0, cga := fun _ => 0 }

/-! ## The I/O memory manager: `src/os/kernel/memory/manager/IOMemoryManager.cpp` -/

/-- The members of `struct IOMemFreeHeader` used by `init` and `alloc`
(`IOMemoryManager.h` is not part of the sources): the pointers `prev` and
`next` to the neighbouring free blocks and the size `pageCount` of the block in
pages.  A pointer is an address, `0` is `nullptr`. -/
structure IOMemFreeHeader where
  prev : Nat
  next : Nat
  pageCount : Nat
  deriving DecidableEq, Repr

/-- State of `class IOMemoryManager`: the bounds of the managed area, the
counter `freeMemory`, the pointer `anchor` to the first free block, the map
`ioMemoryMap` from the start address of an allocated block to its page count,
the spinlock (`true` = held), and the free-block headers in memory, `memory a`
being the header object at address `a`. -/
structure IOMemoryManager where
  memoryStartAddress : Nat
  memoryEndAddress : Nat
  freeMemory : Nat
  anchor : Nat
  ioMemoryMap : Nat → Option Nat
  lock : Bool
  memory : Nat → IOMemFreeHeader

/-- How a call of a member function of `IOMemoryManager` ends: it returns
`value` in state `m`; or it writes a member of the header at `nullptr`, `m`
being the state at that access; or it spins on the held lock; or the walk of
the free list has not ended within the given number of steps. -/
inductive MemOutcome (α : Type) where
  | done (value : α) (m : IOMemoryManager)
  | nullAccess (m : IOMemoryManager)
  | deadlock
  | outOfFuel

/-- An assignment `p->member = ...`: the header at address `p` is replaced by
`f` of it; with `p = nullptr` there is no such header and the state at the
access is the error value. -/
def IOMemoryManager.write (m : IOMemoryManager) (p : Nat)
    (f : IOMemFreeHeader → IOMemFreeHeader) : Except IOMemoryManager IOMemoryManager :=
  if p = 0 then
    .error m
  else
    .ok { m with memory := Function.update m.memory p (f (m.memory p)) }

/-- Translation of `IOMemoryManager::init`, for the page size `PAGESIZE`
(`Paging.h` is not part of the sources); the difference of the two `uint32_t`
bounds is taken modulo `2 ^ 32`. -/
def IOMemoryManager.init (PAGESIZE : Nat) (m : IOMemoryManager) : MemOutcome Unit :=
  let m1 : IOMemoryManager :=
    { m with
      freeMemory := (m.memoryEndAddress + 2 ^ 32 - m.memoryStartAddress) % 2 ^ 32 }
  let m2 : IOMemoryManager := { m1 with anchor := m1.memoryStartAddress }
  let r : Except IOMemoryManager IOMemoryManager := do
    let m3 ← m2.write m2.anchor (fun h => { h with next := 0 })
    let m4 ← m3.write m3.anchor (fun h => { h with prev := 0 })
    m4.write m4.anchor (fun h => { h with pageCount := m4.freeMemory / PAGESIZE })
  match r with
  | .error e => .nullAccess e
  | .ok m5 => .done () m5

/-- The local variable `pageCnt` of `alloc`: the number of pages needed for
`size` bytes. -/
def IOMemoryManager.pageCnt (PAGESIZE size : Nat) : Nat :=
  size / PAGESIZE + (if size % PAGESIZE = 0 then 0 else 1)

/-- The body of the branch `if(tmp->pageCount >= pageCnt)` of `alloc` up to
the last update of the free list, for a block `tmp` other than `nullptr`: the
block is unlinked when it fits exactly and split otherwise.  Every member is
read from the memory as it is at that statement. -/
def IOMemoryManager.takeBlock (PAGESIZE pageCnt tmp : Nat) (m : IOMemoryManager) :
    Except IOMemoryManager IOMemoryManager :=
  if (m.memory tmp).pageCount = pageCnt then
    if tmp = m.anchor then
      -- anchor = tmp->next; anchor->prev = nullptr;
      let m1 : IOMemoryManager := { m with anchor := (m.memory tmp).next }
      m1.write m1.anchor (fun h => { h with prev := 0 })
    else do
      -- if(tmp->next) tmp->next->prev = tmp->prev;
      let m1 ←
        if (m.memory tmp).next ≠ 0 then
          m.write (m.memory tmp).next (fun h => { h with prev := (m.memory tmp).prev })
        else
          pure m
      -- tmp->prev->next = tmp->next;
      m1.write (m1.memory tmp).prev (fun h => { h with next := (m1.memory tmp).next })
  else do
    let newHeader := (tmp + (pageCnt * PAGESIZE) % 2 ^ 32) % 2 ^ 32
    let m1 ←
      if (m.memory tmp).prev = 0 then
        -- anchor = newHeader; anchor->prev = nullptr;
        let m0 : IOMemoryManager := { m with anchor := newHeader }
        m0.write m0.anchor (fun h => { h with prev := 0 })
      else do
        -- newHeader->prev = tmp->prev; tmp->prev->next = newHeader;
        let m0 ← m.write newHeader (fun h => { h with prev := (m.memory tmp).prev })
        m0.write (m0.memory tmp).prev (fun h => { h with next := newHeader })
    -- newHeader->next = tmp->next;
    let m2 ← m1.write newHeader (fun h => { h with next := (m1.memory tmp).next })
    -- newHeader->pageCount = tmp->pageCount - pageCnt;
    let m3 ← m2.write newHeader
      (fun h => { h with pageCount := ((m2.memory tmp).pageCount + 2 ^ 32 - pageCnt) % 2 ^ 32 })
    -- if(tmp->next) tmp->next->prev = newHeader;
    if (m3.memory tmp).next ≠ 0 then
      m3.write (m3.memory tmp).next (fun h => { h with prev := newHeader })
    else
      pure m3

/-- The loop `while(tmp)` of `alloc`, with `fuel` bounding the number of
evaluations of its condition. -/
def IOMemoryManager.allocLoop (PAGESIZE pageCnt : Nat) :
    Nat → Nat → IOMemoryManager → MemOutcome Nat
  | 0, _, _ => .outOfFuel
  | fuel + 1, tmp, m =>
    if tmp = 0 then
      .done 0 { m with lock := false }
    else if (m.memory tmp).pageCount ≥ pageCnt then
      match m.takeBlock PAGESIZE pageCnt tmp with
      | .error e => .nullAccess e
      | .ok m1 =>
        .done tmp
          { m1 with
            ioMemoryMap := Function.update m1.ioMemoryMap tmp (some pageCnt)
            freeMemory := (m1.freeMemory + 2 ^ 32 - (pageCnt * PAGESIZE) % 2 ^ 32) % 2 ^ 32
            lock := false }
    else
      IOMemoryManager.allocLoop PAGESIZE pageCnt fuel (m.memory tmp).next m

/-- Translation of `IOMemoryManager::alloc`: the returned value is the
address of the block, `0` for `nullptr`. -/
def IOMemoryManager.alloc (PAGESIZE fuel size : Nat) (m : IOMemoryManager) :
    MemOutcome Nat :=
  if m.lock then
    .deadlock
  else
    IOMemoryManager.allocLoop PAGESIZE (IOMemoryManager.pageCnt PAGESIZE size) fuel
      m.anchor { m with lock := true }

/-- The blocks of the free list in the order of the `next` pointers, from
`anchor` on; `none` when the list does not end within `fuel` blocks. -/
def IOMemoryManager.freeBlocks (m : IOMemoryManager) : Nat → Nat → Option (List Nat)
  | 0, _ => none
  | fuel + 1, p =>
    if p = 0 then some []
    else (IOMemoryManager.freeBlocks m fuel (m.memory p).next).map (fun bs => p :: bs)

/-- An area of four pages of 4096 bytes at address `0x40000`, before `init`,
for evaluation. -/
def demoIOMemory : IOMemoryManager :=
  { memoryStartAddress := 0x40000, memoryEndAddress := 0x44000, freeMemory := 0,
    anchor := 0, ioMemoryMap := fun _ => none, lock := false,
    memory := fun _ => { prev := 0, next := 0, pageCount := 0 } }

/-- The area of `demoIOMemory` after `init`: one free block of four pages at
the start of the area, which is the anchor. -/
def demoIOReady : IOMemoryManager :=
  { demoIOMemory with
    freeMemory := 0x4000, anchor := 0x40000,
    memory := Function.update
      (Function.update
        (Function.update demoIOMemory.memory 0x40000 { prev := 0, next := 0, pageCount := 0 })
        0x40000 { prev := 0, next := 0, pageCount := 0 })
      0x40000 { prev := 0, next := 0, pageCount := 4 } }

/-! ## Auxiliary facts about the queues and the selection loop -/

namespace Scheduler

variable {σ : Type}

theorem foldl_count (qs : List (List ThreadRef)) (a : Nat) (ha : a < 2 ^ 32) :
    qs.foldl (fun count queue => (count + queue.length % 2 ^ 32) % 2 ^ 32) a
      = (a + (qs.map List.length).sum) % 2 ^ 32 := by
  induction qs generalizing a with
  | nil => simp; omega
  | cons q qs ih =>
    simp only [List.foldl_cons, List.map_cons, List.sum_cons]
    rw [ih _ (by omega)]
    omega

theorem getThreadCount_eq (s : Scheduler σ) :
    getThreadCount s = queuedTotal s % 2 ^ 32 := by
  unfold getThreadCount queuedTotal
  rw [foldl_count _ _ (by norm_num)]; simp

theorem sum_set_pop (qs : List (List ThreadRef)) (c : Nat) (t : ThreadRef) (rest : List ThreadRef)
    (h : qs[c]? = some (t :: rest)) :
    ((qs.set c rest).map List.length).sum + 1 = (qs.map List.length).sum := by
  induction qs generalizing c with
  | nil => simp at h
  | cons q qs ih =>
    cases c with
    | zero =>
      simp at h
      subst h
      simp; omega
    | succ c =>
      simp at h
      have := ih c h
      simp only [List.set_cons_succ, List.map_cons, List.sum_cons]; omega

theorem sum_set_push (qs : List (List ThreadRef)) (c : Nat) (t : ThreadRef) (q : List ThreadRef)
    (h : qs[c]? = some q) :
    ((qs.set c (q ++ [t])).map List.length).sum = (qs.map List.length).sum + 1 := by
  induction qs generalizing c with
  | nil => simp at h
  | cons q0 qs ih =>
    cases c with
    | zero =>
      simp at h
      subst h
      simp; omega
    | succ c =>
      simp at h
      have := ih c h
      simp only [List.set_cons_succ, List.map_cons, List.sum_cons]; omega

theorem lt_length_of_le_getMaxPriority (s : Scheduler σ) (p : Nat)
    (hn : s.readyQueues ≠ []) (hp : p ≤ getMaxPriority s) : p < s.readyQueues.length := by
  have h0 : 0 < s.readyQueues.length := List.length_pos.mpr hn
  unfold getMaxPriority at hp
  omega

theorem isThreadWaiting_false_iff (s : Scheduler σ) :
    isThreadWaiting s = false ↔ ∀ q ∈ s.readyQueues, q = [] := by
  unfold isThreadWaiting
  simp [List.any_eq_false]

theorem isThreadWaiting_true_iff (s : Scheduler σ) :
    isThreadWaiting s = true ↔ ∃ q ∈ s.readyQueues, q ≠ [] := by
  unfold isThreadWaiting
  simp [List.any_eq_true]

theorem isThreadWaiting_lock (s : Scheduler σ) (b : Bool) :
    isThreadWaiting { s with lock := b } = isThreadWaiting s := rfl

theorem getNextThreadLoop_done (P : ThreadPriority σ) (fuel : Nat) :
    ∀ (s s1 : Scheduler σ) (t : ThreadRef), getNextThreadLoop P fuel s = .done t s1 →
      ∃ c rest, s.readyQueues[c]? = some (t :: rest) ∧
        s1.readyQueues = s.readyQueues.set c rest ∧
        s1.currentThread = s.currentThread ∧ s1.initialized = s.initialized ∧
        s1.lock = s.lock ∧ s1.threads = s.threads := by
  induction fuel with
  | zero => intro s s1 t h; simp [getNextThreadLoop] at h
  | succ fuel ih =>
    intro s s1 t h
    simp only [getNextThreadLoop] at h
    split at h
    · simp at h
    · obtain ⟨c, rest, h1, h2, h3, h4, h5, h6⟩ := ih _ _ _ h
      exact ⟨c, rest, h1, h2, h3, h4, h5, h6⟩
    · rename_i ret rest hq
      simp only [Outcome.done.injEq] at h
      obtain ⟨rfl, rfl⟩ := h
      exact ⟨_, rest, hq, rfl, rfl, rfl, rfl, rfl⟩

theorem getNextThreadLoop_lock (P : ThreadPriority σ) (b : Bool) (fuel : Nat) :
    ∀ (s s1 : Scheduler σ) (t : ThreadRef), getNextThreadLoop P fuel s = .done t s1 →
      getNextThreadLoop P fuel { s with lock := b } = .done t { s1 with lock := b } := by
  induction fuel with
  | zero => intro s s1 t h; simp [getNextThreadLoop] at h
  | succ fuel ih =>
    intro s s1 t h
    simp only [getNextThreadLoop] at h ⊢
    split at h
    · simp at h
    · exact ih _ _ _ h
    · simp only [Outcome.done.injEq] at h
      obtain ⟨rfl, rfl⟩ := h
      rfl

theorem getNextThread_done (P : ThreadPriority σ) (fuel : Nat) (s s1 : Scheduler σ)
    (t : ThreadRef) (h : getNextThread P fuel s = .done t s1) :
    ∃ c rest, s.readyQueues[c]? = some (t :: rest) ∧
      s1.readyQueues = s.readyQueues.set c rest ∧
      s1.currentThread = s.currentThread ∧ s1.initialized = s.initialized ∧
      s1.lock = s.lock ∧ s1.threads = s.threads := by
  unfold getNextThread at h
  split at h
  · simp at h
  · exact getNextThreadLoop_done P fuel s s1 t h

theorem getNextThread_lock (P : ThreadPriority σ) (b : Bool) (fuel : Nat) (s s1 : Scheduler σ)
    (t : ThreadRef) (h : getNextThread P fuel s = .done t s1) :
    getNextThread P fuel { s with lock := b } = .done t { s1 with lock := b } := by
  unfold getNextThread at h ⊢
  rw [isThreadWaiting_lock]
  split at h
  · simp at h
  · rename_i hw
    rw [if_neg hw]
    exact getNextThreadLoop_lock P b fuel s s1 t h

theorem isQueued_of_head (s : Scheduler σ) (c : Nat) (t : ThreadRef) (rest : List ThreadRef)
    (h : s.readyQueues[c]? = some (t :: rest)) : isQueued s t = true := by
  unfold isQueued
  rw [List.any_eq_true]
  exact ⟨t :: rest, List.getElem?_mem h, by simp⟩

theorem isQueued_pop (s s2 : Scheduler σ) (c : Nat) (x t : ThreadRef) (rest : List ThreadRef)
    (hc : s.readyQueues[c]? = some (x :: rest))
    (h2 : s2.readyQueues = s.readyQueues.set c rest)
    (ht : isQueued s t = false) : isQueued s2 t = false := by
  unfold isQueued at ht ⊢
  rw [List.any_eq_false] at ht ⊢
  intro q hq
  rw [h2] at hq
  rcases List.mem_or_eq_of_mem_set hq with hmem | heq
  · exact ht q hmem
  · have hx := ht (x :: rest) (List.getElem?_mem hc)
    subst heq
    simp only [List.contains_eq_any_beq, List.any_eq_true, not_exists, not_and] at hx ⊢
    intro y hy
    exact hx y (List.mem_cons_of_mem x hy)

theorem getThreadCount_pop (s s2 : Scheduler σ) (c : Nat) (x : ThreadRef) (rest : List ThreadRef)
    (hc : s.readyQueues[c]? = some (x :: rest))
    (h2 : s2.readyQueues = s.readyQueues.set c rest)
    (hfit : queuedTotal s < 2 ^ 32) : getThreadCount s2 + 1 = getThreadCount s := by
  have hsum := sum_set_pop s.readyQueues c x rest hc
  rw [getThreadCount_eq, getThreadCount_eq]
  unfold queuedTotal at hfit ⊢
  rw [h2]
  omega

theorem getThreadCount_push (s s2 : Scheduler σ) (c : Nat) (t : ThreadRef) (q : List ThreadRef)
    (hc : s.readyQueues[c]? = some q)
    (h2 : s2.readyQueues = s.readyQueues.set c (q ++ [t]))
    (hfit : queuedTotal s + 1 < 2 ^ 32) : getThreadCount s2 = getThreadCount s + 1 := by
  have hsum := sum_set_push s.readyQueues c t q hc
  rw [getThreadCount_eq, getThreadCount_eq]
  unfold queuedTotal at hfit ⊢
  rw [h2]
  omega

theorem ready_done_started (s0 s : Scheduler σ) (that : ThreadRef)
    (h : ready s0 that = .done () s) : (s.threads that).started = true := by
  unfold ready at h
  split at h
  · simp at h
  · split at h
    · simp at h
    · dsimp only at h
      split at h
      · simp at h
      · simp only [Outcome.done.injEq, true_and] at h
        subst h
        simp

theorem sum_map_set (f : List ThreadRef → Nat) (qs : List (List ThreadRef)) (c : Nat)
    (q q' : List ThreadRef) (h : qs[c]? = some q) :
    ((qs.set c q').map f).sum + f q = (qs.map f).sum + f q' := by
  induction qs generalizing c with
  | nil => simp at h
  | cons q0 qs ih =>
    cases c with
    | zero =>
      simp at h
      subst h
      simp only [List.set_cons_zero, List.map_cons, List.sum_cons]; omega
    | succ c =>
      simp at h
      have := ih c h
      simp only [List.set_cons_succ, List.map_cons, List.sum_cons]; omega

theorem map_set_same {β : Type} (f : List ThreadRef → β) (qs : List (List ThreadRef)) (c : Nat)
    (q q' : List ThreadRef) (h : qs[c]? = some q) (hf : f q' = f q) :
    (qs.set c q').map f = qs.map f := by
  induction qs generalizing c with
  | nil => simp at h
  | cons q0 qs ih =>
    cases c with
    | zero =>
      simp at h
      subst h
      simp [hf]
    | succ c =>
      simp at h
      simp [ih c h]

theorem isQueued_eq_false_iff (s : Scheduler σ) (t : ThreadRef) :
    isQueued s t = false ↔ occurrences s t = 0 := by
  unfold isQueued occurrences
  rw [List.any_eq_false, List.sum_eq_zero_iff]
  constructor
  · intro h n hn
    rw [List.mem_map] at hn
    obtain ⟨q, hq, rfl⟩ := hn
    have := h q hq
    simp only [List.contains_eq_any_beq, List.any_eq_true, beq_iff_eq, not_exists, not_and] at this
    exact List.count_eq_zero.mpr (fun hm => this t hm rfl)
  · intro h q hq
    have h0 := h (List.count t q) (List.mem_map.mpr ⟨q, hq, rfl⟩)
    have hnm : t ∉ q := List.count_eq_zero.mp h0
    simpa using hnm

theorem occurrences_pos_of_mem (s : Scheduler σ) (t : ThreadRef) (c : Nat) (q : List ThreadRef)
    (hc : s.readyQueues[c]? = some q) (ht : t ∈ q) : 0 < occurrences s t := by
  rcases Nat.eq_zero_or_pos (occurrences s t) with h0 | hpos
  · exfalso
    unfold occurrences at h0
    rw [List.sum_eq_zero_iff] at h0
    have := h0 (List.count t q) (List.mem_map.mpr ⟨q, List.getElem?_mem hc, rfl⟩)
    exact (List.count_eq_zero.mp this) ht
  · exact hpos

theorem exists_queue_of_occurrences_pos (s : Scheduler σ) (t : ThreadRef)
    (h : 0 < occurrences s t) :
    ∃ (i : Nat) (q : List ThreadRef), s.readyQueues[i]? = some q ∧ t ∈ q := by
  have hq : isQueued s t ≠ false := fun hf => by
    rw [isQueued_eq_false_iff] at hf; omega
  unfold isQueued at hq
  simp only [ne_eq, Bool.not_eq_false, List.any_eq_true] at hq
  obtain ⟨q, hmem, hc⟩ := hq
  obtain ⟨i, hi⟩ := List.getElem?_of_mem hmem
  exact ⟨i, q, hi, by simpa using hc⟩

theorem occurrences_set (s s2 : Scheduler σ) (t : ThreadRef) (c : Nat) (q q' : List ThreadRef)
    (hc : s.readyQueues[c]? = some q) (h2 : s2.readyQueues = s.readyQueues.set c q') :
    occurrences s2 t + List.count t q = occurrences s t + List.count t q' := by
  unfold occurrences
  rw [h2]
  exact sum_map_set (List.count t) s.readyQueues c q q' hc

theorem queuedTotal_set (s s2 : Scheduler σ) (c : Nat) (q q' : List ThreadRef)
    (hc : s.readyQueues[c]? = some q) (h2 : s2.readyQueues = s.readyQueues.set c q') :
    queuedTotal s2 + q.length = queuedTotal s + q'.length := by
  unfold queuedTotal
  rw [h2]
  exact sum_map_set List.length s.readyQueues c q q' hc

theorem filter_erase_ne (q : List ThreadRef) (t : ThreadRef) :
    (q.erase t).filter (fun x => x != t) = q.filter (fun x => x != t) := by
  induction q with
  | nil => rfl
  | cons x q ih =>
    by_cases hx : x = t
    · subst hx
      simp
    · rw [List.erase_cons_tail (by simpa using hx)]
      simp [List.filter_cons, hx, ih]

theorem not_mem_drain (P : ThreadPriority σ) (fuel : Nat) (t : ThreadRef) (n : Nat) :
    ∀ s : Scheduler σ, occurrences s t = 0 → t ∉ drain P fuel n s := by
  induction n with
  | zero => intro s _; simp [drain]
  | succ n ih =>
    intro s h0
    unfold drain
    split
    · rename_i x s1 hx
      obtain ⟨c, rest, hc, hq1, _⟩ := getNextThread_done P fuel s s1 x hx
      have hpos := occurrences_pos_of_mem s x c (x :: rest) hc (List.mem_cons_self x rest)
      have hne : t ≠ x := fun e => by subst e; omega
      have hocc := occurrences_set s s1 t c (x :: rest) rest hc hq1
      rw [List.count_cons] at hocc
      have h1 : occurrences s1 t = 0 := by omega
      simp only [List.mem_cons, not_or]
      exact ⟨hne, ih s1 h1⟩
    · simp


theorem occurrences_eq_count_own (s : Scheduler σ) (t : ThreadRef) (p : Nat) (q : List ThreadRef)
    (hq : s.readyQueues[p]? = some q)
    (honce : occurrences s t ≤ 1)
    (hclass : ∀ (i : Nat) (q : List ThreadRef), s.readyQueues[i]? = some q → t ∈ q → i = p) :
    occurrences s t = List.count t q ∧ occurrences s t = if t ∈ q then 1 else 0 := by
  by_cases hm : t ∈ q
  · have hc1 := List.count_pos_iff.mpr hm
    have hle : List.count t q ≤ occurrences s t := by
      unfold occurrences
      exact List.single_le_sum (by simp) _ (List.mem_map.mpr ⟨_, List.getElem?_mem hq, rfl⟩)
    simp only [hm, if_true]
    omega
  · have h0 : occurrences s t = 0 := by
      rcases Nat.eq_zero_or_pos (occurrences s t) with h | h
      · exact h
      · exfalso
        obtain ⟨i, q1, hi, hmem⟩ := exists_queue_of_occurrences_pos s t h
        have := hclass i q1 hi hmem
        subst this
        rw [hq] at hi
        exact hm (by rw [Option.some.inj hi]; exact hmem)
    have hc0 := List.count_eq_zero.mpr hm
    simp only [hm, if_false]
    omega

theorem occurrences_after_erase (s s2 : Scheduler σ) (t : ThreadRef) (p : Nat)
    (q : List ThreadRef) (hq : s.readyQueues[p]? = some q)
    (h2 : s2.readyQueues = s.readyQueues.set p (q.erase t))
    (honce : occurrences s t ≤ 1)
    (hclass : ∀ (i : Nat) (q : List ThreadRef), s.readyQueues[i]? = some q → t ∈ q → i = p) :
    occurrences s2 t = 0 := by
  have hocc := occurrences_set s s2 t p q (q.erase t) hq h2
  rw [List.count_erase_self] at hocc
  have h := (occurrences_eq_count_own s t p q hq honce hclass).1
  omega

theorem getThreadCount_after_erase (s s2 : Scheduler σ) (t : ThreadRef) (p : Nat)
    (q : List ThreadRef) (hq : s.readyQueues[p]? = some q)
    (h2 : s2.readyQueues = s.readyQueues.set p (q.erase t))
    (honce : occurrences s t ≤ 1)
    (hclass : ∀ (i : Nat) (q : List ThreadRef), s.readyQueues[i]? = some q → t ∈ q → i = p)
    (hfit : queuedTotal s < 2 ^ 32) :
    getThreadCount s2 + occurrences s t = getThreadCount s := by
  have htot := queuedTotal_set s s2 p q (q.erase t) hq h2
  rw [List.length_erase] at htot
  have h := (occurrences_eq_count_own s t p q hq honce hclass).2
  rw [getThreadCount_eq, getThreadCount_eq, h]
  by_cases hm : t ∈ q
  · have hlen := List.length_pos_of_mem hm
    simp only [hm, if_true] at htot ⊢
    omega
  · simp only [hm, if_false] at htot ⊢
    omega

theorem getNextThreadLoop_first_nonempty (P : ThreadPriority σ) (k : Nat) :
    ∀ (s : Scheduler σ) (fuel : Nat) (ret : ThreadRef) (rest : List ThreadRef),
      (∀ j, j < k → s.readyQueues[P.answer s.priority j]? = some []) →
      s.readyQueues[P.answer s.priority k]? = some (ret :: rest) →
      k < fuel →
      getNextThreadLoop P fuel s = .done ret
        { s with
          priority := P.stateAfter s.priority (k + 1)
          readyQueues := s.readyQueues.set (P.answer s.priority k) rest } := by
  induction k with
  | zero =>
    intro s fuel ret rest _ hhit hfuel
    obtain ⟨f, rfl⟩ : ∃ f, fuel = f + 1 := ⟨fuel - 1, by omega⟩
    have hhit0 : s.readyQueues[(P.getNextPriority s.priority).1]? = some (ret :: rest) := hhit
    simp only [getNextThreadLoop, hhit0]
    rfl
  | succ k ih =>
    intro s fuel ret rest hskip hhit hfuel
    obtain ⟨f, rfl⟩ : ∃ f, fuel = f + 1 := ⟨fuel - 1, by omega⟩
    have h0 : s.readyQueues[(P.getNextPriority s.priority).1]? = some [] := hskip 0 (by omega)
    simp only [getNextThreadLoop, h0]
    exact ih { s with priority := (P.getNextPriority s.priority).2 } f ret rest
      (fun j hj => hskip (j + 1) (by omega)) hhit (by omega)

theorem queuedAhead_step (P : ThreadPriority σ) (fuel : Nat) (s s1 : Scheduler σ)
    (c : Nat) (a b t : ThreadRef) (hab : a ≠ b)
    (h : queuedAhead s.readyQueues c a b)
    (hnext : getNextThread P fuel s = .done t s1) :
    t ≠ b ∧ (t = a ∨ queuedAhead s1.readyQueues c a b) := by
  obtain ⟨c1, rest, hc1, hq1, _⟩ := getNextThread_done P fuel s s1 t hnext
  obtain ⟨⟨l1, l2, hq, hb⟩, hoth⟩ := h
  by_cases hcc : c1 = c
  · subst hcc
    rw [hq] at hc1
    have heq : l1 ++ a :: l2 = t :: rest := Option.some.inj hc1
    cases l1 with
    | nil =>
      simp only [List.nil_append, List.cons.injEq] at heq
      exact ⟨fun e => hab (by rw [heq.1, e]), Or.inl heq.1.symm⟩
    | cons x l1 =>
      simp only [List.cons_append, List.cons.injEq] at heq
      obtain ⟨hx, hrest⟩ := heq
      subst hx
      have hlen : c1 < s.readyQueues.length := by
        rcases List.getElem?_eq_some_iff.mp hq with ⟨hl, _⟩
        exact hl
      refine ⟨fun e => hb (by rw [e]; exact List.mem_cons_self _ _), Or.inr ⟨⟨l1, l2, ?_, ?_⟩, ?_⟩⟩
      · rw [hq1, List.getElem?_set_self hlen, hrest]
      · exact fun hm => hb (List.mem_cons_of_mem _ hm)
      · intro i q hi hiq
        rw [hq1, List.getElem?_set_ne (Ne.symm hi)] at hiq
        exact hoth i q hi hiq
  · have hbt : b ∉ t :: rest := hoth c1 (t :: rest) hcc hc1
    refine ⟨fun e => hbt (by rw [e]; exact List.mem_cons_self _ _), Or.inr ⟨⟨l1, l2, ?_, hb⟩, ?_⟩⟩
    · rw [hq1, List.getElem?_set_ne hcc]
      exact hq
    · intro i q hi hiq
      rw [hq1] at hiq
      by_cases hic : i = c1
      · subst hic
        have hlen : i < s.readyQueues.length := by
          rcases List.getElem?_eq_some_iff.mp hc1 with ⟨hl, _⟩
          exact hl
        rw [List.getElem?_set_self hlen] at hiq
        have : q = rest := (Option.some.inj hiq).symm
        subst this
        exact fun hm => hbt (List.mem_cons_of_mem _ hm)
      · rw [List.getElem?_set_ne (Ne.symm hic)] at hiq
        exact hoth i q hi hiq

theorem drain_order (P : ThreadPriority σ) (fuel : Nat) (c : Nat) (a b : ThreadRef)
    (hab : a ≠ b) (n : Nat) :
    ∀ (s : Scheduler σ), queuedAhead s.readyQueues c a b →
      ∀ k : Nat, (drain P fuel n s)[k]? = some b →
        ∃ j : Nat, j < k ∧ (drain P fuel n s)[j]? = some a := by
  induction n with
  | zero => intro s _ k hk; simp [drain] at hk
  | succ n ih =>
    intro s h k hk
    unfold drain at hk ⊢
    split at hk
    · rename_i t s1 hnext
      obtain ⟨htb, hor⟩ := queuedAhead_step P fuel s s1 c a b t hab h hnext
      cases k with
      | zero =>
        simp only [List.getElem?_cons_zero, Option.some.injEq] at hk
        exact absurd hk htb
      | succ k =>
        simp only [List.getElem?_cons_succ] at hk
        rcases hor with hta | hahead
        · exact ⟨0, by omega, by simp [hta]⟩
        · obtain ⟨j, hj, hja⟩ := ih s1 hahead k hk
          exact ⟨j + 1, by omega, by simpa using hja⟩
    · simp at hk

theorem queuedAhead_push (qs qs1 : List (List ThreadRef)) (c : Nat) (a b : ThreadRef)
    (q : List ThreadRef) (hq : qs[c]? = some q) (ha : a ∈ q)
    (hb : ∀ (i : Nat) (q1 : List ThreadRef), qs[i]? = some q1 → b ∉ q1)
    (hpush : push qs c b = some qs1) : queuedAhead qs1 c a b := by
  unfold push at hpush
  rw [hq] at hpush
  have h1 : qs1 = qs.set c (q ++ [b]) := (Option.some.inj hpush).symm
  subst h1
  have hlen : c < qs.length := by
    rcases List.getElem?_eq_some_iff.mp hq with ⟨hl, _⟩
    exact hl
  obtain ⟨l1, l2, hsplit⟩ := List.append_of_mem ha
  refine ⟨⟨l1, l2 ++ [b], ?_, ?_⟩, ?_⟩
  · rw [List.getElem?_set_self hlen, hsplit]
    simp
  · intro hm
    exact hb c q hq (by rw [hsplit]; exact List.mem_append_left _ hm)
  · intro i q1 hi hiq
    rw [List.getElem?_set_ne (Ne.symm hi)] at hiq
    exact hb i q1 hiq

/-! ### What a completed call has done -/

theorem perform_ready_done (P : ThreadPriority σ) (fuel : Nat) (s s1 : Scheduler σ)
    (t : ThreadRef) (h : perform P fuel s (.ready t) = .done () s1) :
    (s.threads t).started = false ∧
      ∃ q, s.readyQueues[(s.threads t).priority]? = some q ∧
        s1.readyQueues = s.readyQueues.set (s.threads t).priority (q ++ [t]) ∧
        s1.currentThread = s.currentThread ∧ s1.initialized = s.initialized ∧
        s1.threads = Function.update s.threads t { s.threads t with started := true } := by
  simp only [perform, ready] at h
  split at h
  · simp at h
  · rename_i hst
    split at h
    · simp at h
    · simp only [push] at h
      cases hq : s.readyQueues[(s.threads t).priority]? with
      | none => simp [hq] at h
      | some q =>
        simp only [hq, Outcome.done.injEq, true_and] at h
        subst h
        exact ⟨by simpa using hst, q, rfl, rfl, rfl, rfl, rfl⟩

theorem perform_deblock_done (P : ThreadPriority σ) (fuel : Nat) (s s1 : Scheduler σ)
    (t : ThreadRef) (h : perform P fuel s (.deblock t) = .done () s1) :
    s.initialized = true ∧
      ∃ q, s.readyQueues[(s.threads t).priority]? = some q ∧
        s1.readyQueues = s.readyQueues.set (s.threads t).priority (q ++ [t]) ∧
        s1.currentThread = s.currentThread ∧ s1.initialized = s.initialized ∧
        s1.threads = s.threads := by
  simp only [perform, deblock] at h
  split at h
  · simp at h
  · split at h
    · simp at h
    · rename_i hin
      simp only [push] at h
      cases hq : s.readyQueues[(s.threads t).priority]? with
      | none => simp [hq] at h
      | some q =>
        simp only [hq, Outcome.done.injEq, true_and] at h
        subst h
        exact ⟨by simpa using hin, q, rfl, rfl, rfl, rfl, rfl⟩

theorem perform_kill_done (P : ThreadPriority σ) (fuel : Nat) (s s1 : Scheduler σ)
    (t : ThreadRef) (h : perform P fuel s (.kill t) = .done () s1) :
    s.initialized = true ∧ t ≠ s.currentThread ∧
      ∃ q, s.readyQueues[(s.threads t).priority]? = some q ∧
        s1.readyQueues = s.readyQueues.set (s.threads t).priority (q.erase t) ∧
        s1.currentThread = s.currentThread ∧ s1.initialized = s.initialized ∧
        s1.threads = Function.update s.threads t { s.threads t with finished := true } := by
  simp only [perform, kill] at h
  split at h
  · simp at h
  · split at h
    · simp at h
    · rename_i hin
      split at h
      · simp at h
      · rename_i hid
        simp only [remove] at h
        cases hq : s.readyQueues[(s.threads t).priority]? with
        | none => simp [hq] at h
        | some q =>
          simp only [hq, Outcome.done.injEq, true_and] at h
          subst h
          refine ⟨by simpa using hin, ?_, q, rfl, rfl, rfl, rfl, rfl⟩
          intro e
          exact hid (by rw [e])

theorem perform_startUp_done (P : ThreadPriority σ) (fuel : Nat) (s s1 : Scheduler σ)
    (h : perform P fuel s .startUp = .done () s1) :
    ∃ next c rest, s.readyQueues[c]? = some (next :: rest) ∧
      s1.readyQueues = s.readyQueues.set c rest ∧
      s1.currentThread = next ∧ s1.initialized = true ∧ s1.threads = s.threads := by
  simp only [perform, startUp] at h
  split at h
  · simp [Outcome.bind] at h
  · split at h
    · simp [Outcome.bind] at h
    · cases hg : getNextThread P fuel { s with lock := true } with
      | done next sx =>
        obtain ⟨c, rest, hc, hq1, _, _, _, hthr⟩ := getNextThread_done P fuel _ sx next hg
        simp only [hg, Outcome.bind, releaseSchedulerLock, Outcome.done.injEq, true_and] at h
        subst h
        exact ⟨next, c, rest, hc, hq1, rfl, rfl, hthr⟩
      | fatal e sx => simp [hg, Outcome.bind] at h
      | deadlock => simp [hg, Outcome.bind] at h
      | outOfFuel => simp [hg, Outcome.bind] at h

theorem perform_block_done (P : ThreadPriority σ) (fuel : Nat) (s s1 : Scheduler σ)
    (h : perform P fuel s .block = .done () s1) :
    s.initialized = true ∧
      ∃ next c rest, s.readyQueues[c]? = some (next :: rest) ∧
        s1.readyQueues = s.readyQueues.set c rest ∧
        s1.currentThread = next ∧ s1.initialized = true ∧ s1.threads = s.threads := by
  simp only [perform, block] at h
  split at h
  · simp [Outcome.bind] at h
  · split at h
    · simp [Outcome.bind] at h
    · cases hg : getNextThread P fuel { s with lock := true } with
      | done next sx =>
        obtain ⟨c, rest, hc, hq1, _, hini, _, hthr⟩ := getNextThread_done P fuel _ sx next hg
        cases hsx : sx.initialized with
        | false => simp [hg, Outcome.bind, dispatch, hsx] at h
        | true =>
          simp only [hg, Outcome.bind, dispatch, hsx, releaseSchedulerLock, Bool.not_true,
            Bool.false_eq_true, if_false, Outcome.done.injEq, true_and] at h
          subst h
          exact ⟨by rw [← hini]; exact hsx, next, c, rest, hc, hq1, rfl, rfl, hthr⟩
      | fatal e sx => simp [hg, Outcome.bind] at h
      | deadlock => simp [hg, Outcome.bind] at h
      | outOfFuel => simp [hg, Outcome.bind] at h

theorem perform_exit_done (P : ThreadPriority σ) (fuel : Nat) (s s1 : Scheduler σ)
    (h : perform P fuel s .exit = .done () s1) :
    s.initialized = true ∧
      ∃ next c rest, s.readyQueues[c]? = some (next :: rest) ∧
        s1.readyQueues = s.readyQueues.set c rest ∧
        s1.currentThread = next ∧ s1.initialized = true ∧
        s1.threads = Function.update s.threads s.currentThread
          { s.threads s.currentThread with finished := true } := by
  simp only [perform, exit] at h
  split at h
  · simp [Outcome.bind] at h
  · split at h
    · simp [Outcome.bind] at h
    · split at h
      · simp [Outcome.bind] at h
      · cases hg : getNextThread P fuel { s with lock := true } with
        | done next sx =>
          obtain ⟨c, rest, hc, hq1, hcur, hini, _, hthr⟩ :=
            getNextThread_done P fuel _ sx next hg
          cases hsx : sx.initialized with
          | false => simp [hg, Outcome.bind, dispatch, hsx] at h
          | true =>
            simp only [hg, Outcome.bind, dispatch, hsx, releaseSchedulerLock, Bool.not_true,
              Bool.false_eq_true, if_false, Outcome.done.injEq, true_and] at h
            subst h
            refine ⟨by rw [← hini]; exact hsx, next, c, rest, hc, hq1, rfl, rfl, ?_⟩
            simp only [hthr, hcur]
        | fatal e sx => simp [hg, Outcome.bind] at h
        | deadlock => simp [hg, Outcome.bind] at h
        | outOfFuel => simp [hg, Outcome.bind] at h

theorem perform_yield_done (P : ThreadPriority σ) (fuel : Nat) (s s1 : Scheduler σ)
    (h : perform P fuel s .yield = .done () s1) :
    s1 = s ∨
      (s.initialized = true ∧
        ∃ (next : ThreadRef) (c : Nat) (rest q : List ThreadRef) (sx : Scheduler σ),
          s.readyQueues[c]? = some (next :: rest) ∧
          sx.readyQueues = s.readyQueues.set c rest ∧
          sx.threads = s.threads ∧
          sx.readyQueues[(s.threads s.currentThread).priority]? = some q ∧
          s1.readyQueues
            = sx.readyQueues.set (s.threads s.currentThread).priority (q ++ [s.currentThread]) ∧
          s1.currentThread = next ∧ s1.initialized = true ∧ s1.threads = s.threads) := by
  simp only [perform] at h
  split at h
  · rename_i hcond
    simp only [Bool.and_eq_true, Bool.not_eq_true'] at hcond
    simp only [yield, hcond.1, hcond.2] at h
    right
    cases hg : getNextThread P fuel { s with lock := true } with
    | done next sx =>
      obtain ⟨c, rest, hc, hq1, hcur, hini, _, hthr⟩ := getNextThread_done P fuel _ sx next hg
      simp only [Bool.not_true, Bool.false_eq_true, if_false, hg, Outcome.bind, push] at h
      cases hq : sx.readyQueues[(sx.threads sx.currentThread).priority]? with
      | none => simp [hq] at h
      | some q =>
        cases hsx : sx.initialized with
        | false => simp [hq, dispatch, hsx] at h
        | true =>
          simp only [hq, dispatch, hsx, releaseSchedulerLock, Bool.not_true,
            Bool.false_eq_true, if_false, Outcome.done.injEq, true_and] at h
          subst h
          rw [hthr, hcur] at hq
          refine ⟨by rw [← hini]; exact hsx, next, c, rest, q, sx, hc, hq1, hthr, hq, ?_, rfl,
            rfl, hthr⟩
          simp only [hthr, hcur]
    | fatal e sx => simp [hg, Outcome.bind] at h
    | deadlock => simp [hg, Outcome.bind] at h
    | outOfFuel => simp [hg, Outcome.bind] at h
  · rename_i hcond
    left
    simp only [Bool.and_eq_true, Bool.not_eq_true', not_and, Bool.not_eq_false] at hcond
    unfold yield at h
    split at h
    · simp only [Outcome.done.injEq, true_and] at h
      exact h.symm
    · rename_i hw
      have hw1 : isThreadWaiting s = true := by simpa using hw
      rw [if_pos (hcond hw1)] at h
      simp only [Outcome.done.injEq, true_and] at h
      exact h.symm

theorem perform_changePriority_done (P : ThreadPriority σ) (fuel : Nat) (s s1 : Scheduler σ)
    (t : ThreadRef) (p : Nat) (h : perform P fuel s (.changePriority t p) = .done () s1) :
    s1.currentThread = s.currentThread ∧ s1.initialized = s.initialized ∧
      s1.threads = s.threads ∧
      ((t = s.currentThread ∧ s1.readyQueues = s.readyQueues) ∨
        (t ≠ s.currentThread ∧
          ∃ (q q1 : List ThreadRef) (c : Nat) (sx : Scheduler σ),
            s.readyQueues[(s.threads t).priority]? = some q ∧
            sx.readyQueues = s.readyQueues.set (s.threads t).priority (q.erase t) ∧
            sx.threads = s.threads ∧
            sx.readyQueues[c]? = some q1 ∧
            s1.readyQueues = sx.readyQueues.set c (q1 ++ [t]))) := by
  simp only [perform, changePriority] at h
  split at h
  · simp [Outcome.bind] at h
  · split at h
    · rename_i ht
      simp only [Outcome.bind, Outcome.done.injEq, true_and] at h
      subst h
      exact ⟨rfl, rfl, rfl, Or.inl ⟨ht, rfl⟩⟩
    · rename_i ht
      simp only [remove] at h
      cases hq : s.readyQueues[(s.threads t).priority]? with
      | none => simp [hq, Outcome.bind] at h
      | some q =>
        simp only [hq, push] at h
        generalize hc : (if p % 2 ^ 8 > getMaxPriority s then getMaxPriority s
          else p % 2 ^ 8) % 2 ^ 8 = c at h
        cases hq1 : (s.readyQueues.set (s.threads t).priority (q.erase t))[c]? with
        | none => simp [hq1, Outcome.bind] at h
        | some q1 =>
          simp only [hq1, Outcome.bind, Outcome.done.injEq, true_and] at h
          subst h
          exact ⟨rfl, rfl, rfl, Or.inr ⟨ht, q, q1, c,
            { s with readyQueues := s.readyQueues.set (s.threads t).priority (q.erase t) },
            rfl, rfl, rfl, hq1, rfl⟩⟩

/-! ### Entries of a thread under the three queue updates -/

theorem occurrences_pop (s s1 : Scheduler σ) (c : Nat) (x : ThreadRef) (rest : List ThreadRef)
    (hc : s.readyQueues[c]? = some (x :: rest))
    (h2 : s1.readyQueues = s.readyQueues.set c rest) (u : ThreadRef) :
    occurrences s1 u + (if x = u then 1 else 0) = occurrences s u := by
  have h := occurrences_set s s1 u c (x :: rest) rest hc h2
  rw [List.count_cons] at h
  by_cases hx : x = u
  · simp only [hx, beq_self_eq_true, if_true] at h ⊢
    omega
  · have hb : (x == u) = false := by simpa using hx
    simp only [hb, Bool.false_eq_true, if_false, hx] at h ⊢
    omega

theorem occurrences_push (s s1 : Scheduler σ) (c : Nat) (t : ThreadRef) (q : List ThreadRef)
    (hc : s.readyQueues[c]? = some q)
    (h2 : s1.readyQueues = s.readyQueues.set c (q ++ [t])) (u : ThreadRef) :
    occurrences s1 u = occurrences s u + (if t = u then 1 else 0) := by
  have h := occurrences_set s s1 u c q (q ++ [t]) hc h2
  rw [List.count_append, List.count_singleton] at h
  by_cases hx : t = u
  · simp only [hx, beq_self_eq_true, if_true] at h ⊢
    omega
  · have hb : (t == u) = false := by simpa using hx
    simp only [hb, Bool.false_eq_true, if_false, hx] at h ⊢
    omega

theorem occurrences_erase_ne (s s1 : Scheduler σ) (c : Nat) (t : ThreadRef) (q : List ThreadRef)
    (hc : s.readyQueues[c]? = some q)
    (h2 : s1.readyQueues = s.readyQueues.set c (q.erase t)) (u : ThreadRef) (hu : u ≠ t) :
    occurrences s1 u = occurrences s u := by
  have h := occurrences_set s s1 u c q (q.erase t) hc h2
  rw [List.count_erase_of_ne hu] at h
  omega

theorem occurrences_erase_le (s s1 : Scheduler σ) (c : Nat) (t : ThreadRef) (q : List ThreadRef)
    (hc : s.readyQueues[c]? = some q)
    (h2 : s1.readyQueues = s.readyQueues.set c (q.erase t)) (u : ThreadRef) :
    occurrences s1 u ≤ occurrences s u := by
  have h := occurrences_set s s1 u c q (q.erase t) hc h2
  by_cases hu : u = t
  · subst hu
    rw [List.count_erase_self] at h
    omega
  · rw [List.count_erase_of_ne hu] at h
    omega

theorem occurrences_erase_own (s s1 : Scheduler σ) (t : ThreadRef) (q : List ThreadRef)
    (hc : s.readyQueues[(s.threads t).priority]? = some q)
    (h2 : s1.readyQueues = s.readyQueues.set (s.threads t).priority (q.erase t))
    (honce : occurrences s t ≤ 1) (hown : onlyInOwnClass s t = true) :
    occurrences s1 t = 0 := by
  have h := occurrences_set s s1 t _ q (q.erase t) hc h2
  rw [List.count_erase_self] at h
  unfold onlyInOwnClass at hown
  simp only [hc, Option.getD_some, decide_eq_true_eq] at hown
  omega

/-! ### The queue invariants are kept by every admitted call -/

theorem orderly_after_pop (s s1 : Scheduler σ) (c : Nat) (next : ThreadRef)
    (rest : List ThreadRef) (h : Orderly s)
    (hc : s.readyQueues[c]? = some (next :: rest))
    (h2 : s1.readyQueues = s.readyQueues.set c rest)
    (hcur : s1.currentThread = next)
    (hst : ∀ r, (s1.threads r).started = (s.threads r).started) : Orderly s1 := by
  have hpop := occurrences_pop s s1 c next rest hc h2
  have hpos := occurrences_pos_of_mem s next c (next :: rest) hc (List.mem_cons_self _ _)
  refine ⟨?_, ?_, ?_, ?_⟩
  · intro u
    have := hpop u
    have := h.once u
    omega
  · intro _
    rw [hcur]
    have := hpop next
    have := h.once next
    simp only [if_true] at *
    omega
  · intro u hu
    rw [hst]
    apply h.queuedStarted
    have := hpop u
    omega
  · intro _
    rw [hcur, hst]
    exact h.queuedStarted next hpos

theorem orderly_after_push (s s1 : Scheduler σ) (c : Nat) (t : ThreadRef)
    (q : List ThreadRef) (h : Orderly s)
    (hc : s.readyQueues[c]? = some q)
    (h2 : s1.readyQueues = s.readyQueues.set c (q ++ [t]))
    (hcur : s1.currentThread = s.currentThread)
    (hini : s1.initialized = s.initialized)
    (hfree : occurrences s t = 0)
    (hnot : s.initialized = true → t ≠ s.currentThread)
    (hts : (s1.threads t).started = true)
    (hst : ∀ r, (s.threads r).started = true → (s1.threads r).started = true) :
    Orderly s1 := by
  have hpush := occurrences_push s s1 c t q hc h2
  refine ⟨?_, ?_, ?_, ?_⟩
  · intro u
    have := hpush u
    have := h.once u
    by_cases hu : t = u
    · subst hu
      simp only [if_true] at *
      omega
    · simp only [hu, if_false] at *
      omega
  · intro hi
    rw [hini] at hi
    rw [hcur]
    have := hpush s.currentThread
    have := h.currentOut hi
    have hne := hnot hi
    simp only [hne, if_false] at *
    omega
  · intro u hu
    by_cases htu : t = u
    · subst htu
      exact hts
    · apply hst
      apply h.queuedStarted
      have := hpush u
      simp only [htu, if_false] at *
      omega
  · intro hi
    rw [hini] at hi
    rw [hcur]
    exact hst _ (h.currentStarted hi)

theorem perform_orderly (P : ThreadPriority σ) (fuel : Nat) (s s1 : Scheduler σ) (op : Op)
    (h : Orderly s) (hok : orderly s op = true)
    (hp : perform P fuel s op = .done () s1) : Orderly s1 := by
  cases op with
  | ready t =>
    obtain ⟨hns, q, hq, h2, hcur, hini, hthr⟩ := perform_ready_done P fuel s s1 t hp
    have hfree : occurrences s t = 0 := by
      rcases Nat.eq_zero_or_pos (occurrences s t) with h0 | hpos
      · exact h0
      · have := h.queuedStarted t hpos
        rw [hns] at this
        exact Bool.noConfusion this
    refine orderly_after_push s s1 _ t q h hq h2 hcur hini hfree ?_ ?_ ?_
    · intro hi e
      have := h.currentStarted hi
      rw [← e, hns] at this
      exact Bool.noConfusion this
    · rw [hthr]; simp
    · intro r hr
      rw [hthr]
      by_cases hrt : r = t
      · subst hrt; simp
      · rw [Function.update_noteq hrt]; exact hr
  | startUp =>
    obtain ⟨next, c, rest, hc, h2, hcur, _, hthr⟩ := perform_startUp_done P fuel s s1 hp
    exact orderly_after_pop s s1 c next rest h hc h2 hcur (fun r => by rw [hthr])
  | block =>
    obtain ⟨_, next, c, rest, hc, h2, hcur, _, hthr⟩ := perform_block_done P fuel s s1 hp
    exact orderly_after_pop s s1 c next rest h hc h2 hcur (fun r => by rw [hthr])
  | exit =>
    obtain ⟨_, next, c, rest, hc, h2, hcur, _, hthr⟩ := perform_exit_done P fuel s s1 hp
    refine orderly_after_pop s s1 c next rest h hc h2 hcur (fun r => ?_)
    rw [hthr]
    by_cases hr : r = s.currentThread
    · subst hr; simp
    · rw [Function.update_noteq hr]
  | yield =>
    rcases perform_yield_done P fuel s s1 hp with rfl | ⟨hi, next, c, rest, q, sx, hc, hx2, hxthr,
      hq, h2, hcur, hini1, hthr⟩
    · exact h
    · have hpop := occurrences_pop s sx c next rest hc hx2
      have hpush := occurrences_push sx s1 _ s.currentThread q hq h2
      have hpos := occurrences_pos_of_mem s next c (next :: rest) hc (List.mem_cons_self _ _)
      have hc0 := h.currentOut hi
      have hne : next ≠ s.currentThread := fun e => by rw [e] at hpos; omega
      refine ⟨?_, ?_, ?_, ?_⟩
      · intro u
        have h1 := hpop u
        have h3 := hpush u
        have h4 := h.once u
        by_cases hu : s.currentThread = u
        · subst hu
          simp only [hne, if_false, if_true] at *
          omega
        · simp only [hu, if_false] at *
          omega
      · intro _
        rw [hcur]
        have h1 := hpop next
        have h3 := hpush next
        have h4 := h.once next
        simp only [if_true, Ne.symm hne, if_false] at *
        omega
      · intro u hu
        rw [hthr]
        by_cases hcu : s.currentThread = u
        · subst hcu
          exact h.currentStarted hi
        · apply h.queuedStarted
          have h1 := hpop u
          have h3 := hpush u
          simp only [hcu, if_false] at *
          omega
      · intro _
        rw [hcur, hthr]
        exact h.queuedStarted next hpos
  | deblock t =>
    obtain ⟨hi, q, hq, h2, hcur, hini, hthr⟩ := perform_deblock_done P fuel s s1 t hp
    simp only [orderly, Bool.and_eq_true, bne_iff_ne, ne_eq, beq_iff_eq] at hok
    obtain ⟨⟨hts, hne⟩, hfree⟩ := hok
    refine orderly_after_push s s1 _ t q h hq h2 hcur hini hfree (fun _ => hne) ?_ ?_
    · rw [hthr]; exact hts
    · intro r hr; rw [hthr]; exact hr
  | kill t =>
    obtain ⟨_, _, q, hq, h2, hcur, hini, hthr⟩ := perform_kill_done P fuel s s1 t hp
    have hle := occurrences_erase_le s s1 _ t q hq h2
    have hst : ∀ r, (s1.threads r).started = (s.threads r).started := by
      intro r
      rw [hthr]
      by_cases hr : r = t
      · subst hr; simp
      · rw [Function.update_noteq hr]
    refine ⟨?_, ?_, ?_, ?_⟩
    · intro u
      have := hle u
      have := h.once u
      omega
    · intro hi
      rw [hini] at hi
      rw [hcur]
      have := hle s.currentThread
      have := h.currentOut hi
      omega
    · intro u hu
      rw [hst]
      apply h.queuedStarted
      have := hle u
      omega
    · intro hi
      rw [hini] at hi
      rw [hcur, hst]
      exact h.currentStarted hi
  | changePriority t p =>
    obtain ⟨hcur, hini, hthr, hcase⟩ := perform_changePriority_done P fuel s s1 t p hp
    rcases hcase with ⟨_, hq⟩ | ⟨hne, q, q1, c, sx, hq, hx2, hxthr, hq1, h2⟩
    · have hocc : ∀ u, occurrences s1 u = occurrences s u := by
        intro u; unfold occurrences; rw [hq]
      refine ⟨?_, ?_, ?_, ?_⟩
      · intro u; rw [hocc]; exact h.once u
      · intro hi; rw [hini] at hi; rw [hcur, hocc]; exact h.currentOut hi
      · intro u hu; rw [hocc] at hu; rw [hthr]; exact h.queuedStarted u hu
      · intro hi; rw [hini] at hi; rw [hcur, hthr]; exact h.currentStarted hi
    · simp only [orderly, Bool.or_eq_true, beq_iff_eq, Bool.and_eq_true] at hok
      rcases hok with e | ⟨hts, hown⟩
      · exact absurd e hne
      · have hzero := occurrences_erase_own s sx t q hq hx2 (h.once t) hown
        have hsame := occurrences_erase_ne s sx _ t q hq hx2
        have hpush := occurrences_push sx s1 c t q1 hq1 h2
        refine ⟨?_, ?_, ?_, ?_⟩
        · intro u
          have h3 := hpush u
          by_cases hu : t = u
          · subst hu
            simp only [if_true] at h3
            omega
          · have := hsame u (Ne.symm hu)
            have := h.once u
            simp only [hu, if_false] at h3
            omega
        · intro hi
          rw [hini] at hi
          rw [hcur]
          have h3 := hpush s.currentThread
          have := hsame s.currentThread (Ne.symm hne)
          have := h.currentOut hi
          simp only [hne, if_false] at h3
          omega
        · intro u hu
          rw [hthr]
          by_cases htu : t = u
          · subst htu; exact hts
          · apply h.queuedStarted
            have h3 := hpush u
            have := hsame u (Ne.symm htu)
            simp only [htu, if_false] at h3
            omega
        · intro hi
          rw [hini] at hi
          rw [hcur, hthr]
          exact h.currentStarted hi

theorem careful_orderly (s : Scheduler σ) (op : Op) (h : careful s op = true) :
    orderly s op = true := by
  unfold careful at h
  simp only [Bool.and_eq_true] at h
  exact h.1

theorem perform_finishedOut (P : ThreadPriority σ) (fuel : Nat) (s s1 : Scheduler σ) (op : Op)
    (h : Orderly s) (hf : FinishedOut s) (hok : careful s op = true)
    (hp : perform P fuel s op = .done () s1) : FinishedOut s1 := by
  cases op with
  | ready t =>
    obtain ⟨_, q, hq, h2, hcur, hini, hthr⟩ := perform_ready_done P fuel s s1 t hp
    have hpush := occurrences_push s s1 _ t q hq h2
    simp only [careful, orderly, Bool.true_and, Bool.not_eq_true'] at hok
    have hfin : ∀ r, (s1.threads r).finished = (s.threads r).finished := by
      intro r
      rw [hthr]
      by_cases hr : r = t
      · subst hr; simp
      · rw [Function.update_noteq hr]
    refine ⟨?_, ?_⟩
    · intro u hu
      rw [hfin]
      by_cases htu : t = u
      · subst htu; exact hok
      · apply hf.queuedLive
        have h3 := hpush u
        simp only [htu, if_false] at h3
        omega
    · intro hi
      rw [hini] at hi
      rw [hcur, hfin]
      exact hf.currentLive hi
  | startUp =>
    obtain ⟨next, c, rest, hc, h2, hcur, _, hthr⟩ := perform_startUp_done P fuel s s1 hp
    have hpop := occurrences_pop s s1 c next rest hc h2
    have hpos := occurrences_pos_of_mem s next c (next :: rest) hc (List.mem_cons_self _ _)
    refine ⟨?_, ?_⟩
    · intro u hu
      rw [hthr]
      apply hf.queuedLive
      have := hpop u
      omega
    · intro _
      rw [hcur, hthr]
      exact hf.queuedLive next hpos
  | block =>
    obtain ⟨_, next, c, rest, hc, h2, hcur, _, hthr⟩ := perform_block_done P fuel s s1 hp
    have hpop := occurrences_pop s s1 c next rest hc h2
    have hpos := occurrences_pos_of_mem s next c (next :: rest) hc (List.mem_cons_self _ _)
    refine ⟨?_, ?_⟩
    · intro u hu
      rw [hthr]
      apply hf.queuedLive
      have := hpop u
      omega
    · intro _
      rw [hcur, hthr]
      exact hf.queuedLive next hpos
  | exit =>
    obtain ⟨hi, next, c, rest, hc, h2, hcur, _, hthr⟩ := perform_exit_done P fuel s s1 hp
    have hpop := occurrences_pop s s1 c next rest hc h2
    have hpos := occurrences_pos_of_mem s next c (next :: rest) hc (List.mem_cons_self _ _)
    have hc0 := h.currentOut hi
    have hfin : ∀ r, 0 < occurrences s r → (s1.threads r).finished = false := by
      intro r hr
      have hne : r ≠ s.currentThread := fun e => by rw [e] at hr; omega
      rw [hthr, Function.update_noteq hne]
      exact hf.queuedLive r hr
    refine ⟨?_, ?_⟩
    · intro u hu
      apply hfin
      have := hpop u
      omega
    · intro _
      rw [hcur]
      exact hfin next hpos
  | yield =>
    rcases perform_yield_done P fuel s s1 hp with rfl | ⟨hi, next, c, rest, q, sx, hc, hx2, hxthr,
      hq, h2, hcur, hini1, hthr⟩
    · exact hf
    · have hpop := occurrences_pop s sx c next rest hc hx2
      have hpush := occurrences_push sx s1 _ s.currentThread q hq h2
      have hpos := occurrences_pos_of_mem s next c (next :: rest) hc (List.mem_cons_self _ _)
      refine ⟨?_, ?_⟩
      · intro u hu
        rw [hthr]
        by_cases hcu : s.currentThread = u
        · subst hcu
          exact hf.currentLive hi
        · apply hf.queuedLive
          have h1 := hpop u
          have h3 := hpush u
          simp only [hcu, if_false] at *
          omega
      · intro _
        rw [hcur, hthr]
        exact hf.queuedLive next hpos
  | deblock t =>
    obtain ⟨hi, q, hq, h2, hcur, hini, hthr⟩ := perform_deblock_done P fuel s s1 t hp
    have hpush := occurrences_push s s1 _ t q hq h2
    simp only [careful, Bool.and_eq_true, Bool.not_eq_true'] at hok
    obtain ⟨_, hlive⟩ := hok
    refine ⟨?_, ?_⟩
    · intro u hu
      rw [hthr]
      by_cases htu : t = u
      · subst htu; exact hlive
      · apply hf.queuedLive
        have h3 := hpush u
        simp only [htu, if_false] at h3
        omega
    · intro hi1
      rw [hini] at hi1
      rw [hcur, hthr]
      exact hf.currentLive hi1
  | kill t =>
    obtain ⟨_, hne, q, hq, h2, hcur, hini, hthr⟩ := perform_kill_done P fuel s s1 t hp
    simp only [careful, orderly, Bool.true_and] at hok
    have hzero := occurrences_erase_own s s1 t q hq h2 (h.once t) hok
    have hsame := occurrences_erase_ne s s1 _ t q hq h2
    refine ⟨?_, ?_⟩
    · intro u hu
      have hut : u ≠ t := fun e => by rw [e] at hu; omega
      rw [hthr, Function.update_noteq hut]
      apply hf.queuedLive
      rw [← hsame u hut]
      exact hu
    · intro hi1
      rw [hini] at hi1
      rw [hcur, hthr, Function.update_noteq (Ne.symm hne)]
      exact hf.currentLive hi1
  | changePriority t p =>
    obtain ⟨hcur, hini, hthr, hcase⟩ := perform_changePriority_done P fuel s s1 t p hp
    rcases hcase with ⟨_, hq⟩ | ⟨hne, q, q1, c, sx, hq, hx2, hxthr, hq1, h2⟩
    · have hocc : ∀ u, occurrences s1 u = occurrences s u := by
        intro u; unfold occurrences; rw [hq]
      refine ⟨?_, ?_⟩
      · intro u hu; rw [hocc] at hu; rw [hthr]; exact hf.queuedLive u hu
      · intro hi; rw [hini] at hi; rw [hcur, hthr]; exact hf.currentLive hi
    · simp only [careful, Bool.and_eq_true, Bool.or_eq_true, beq_iff_eq,
        Bool.not_eq_true'] at hok
      obtain ⟨_, hl⟩ := hok
      have hlive : (s.threads t).finished = false := by
        rcases hl with e | hl
        · exact absurd e hne
        · exact hl
      have hsame := occurrences_erase_ne s sx _ t q hq hx2
      have hpush := occurrences_push sx s1 c t q1 hq1 h2
      refine ⟨?_, ?_⟩
      · intro u hu
        rw [hthr]
        by_cases htu : t = u
        · subst htu; exact hlive
        · apply hf.queuedLive
          have h3 := hpush u
          have := hsame u (Ne.symm htu)
          simp only [htu, if_false] at h3
          omega
      · intro hi
        rw [hini] at hi
        rw [hcur, hthr]
        exact hf.currentLive hi

theorem perform_finished_stays (P : ThreadPriority σ) (fuel : Nat) (s s1 : Scheduler σ) (op : Op)
    (t : ThreadRef) (hp : perform P fuel s op = .done () s1)
    (ht : (s.threads t).finished = true) : (s1.threads t).finished = true := by
  have hupd : ∀ (r : ThreadRef) (th : Thread), th.finished = true ∨ (r ≠ t) ∨
      th.finished = (s.threads r).finished →
      (Function.update s.threads r th t).finished = true := by
    intro r th hth
    by_cases hr : t = r
    · subst hr
      rcases hth with h | h | h
      · simpa using h
      · exact absurd rfl h
      · simp only [Function.update_same, h]; exact ht
    · rw [Function.update_noteq hr]; exact ht
  cases op with
  | ready r =>
    obtain ⟨_, _, _, _, _, _, hthr⟩ := perform_ready_done P fuel s s1 r hp
    rw [hthr]; exact hupd r _ (Or.inr (Or.inr rfl))
  | startUp =>
    obtain ⟨_, _, _, _, _, _, _, hthr⟩ := perform_startUp_done P fuel s s1 hp
    rw [hthr]; exact ht
  | block =>
    obtain ⟨_, _, _, _, _, _, _, _, hthr⟩ := perform_block_done P fuel s s1 hp
    rw [hthr]; exact ht
  | exit =>
    obtain ⟨_, _, _, _, _, _, _, _, hthr⟩ := perform_exit_done P fuel s s1 hp
    rw [hthr]; exact hupd _ _ (Or.inl rfl)
  | yield =>
    rcases perform_yield_done P fuel s s1 hp with rfl | ⟨_, _, _, _, _, _, _, _, _, _, _, _, _,
      hthr⟩
    · exact ht
    · rw [hthr]; exact ht
  | deblock r =>
    obtain ⟨_, _, _, _, _, _, hthr⟩ := perform_deblock_done P fuel s s1 r hp
    rw [hthr]; exact ht
  | kill r =>
    obtain ⟨_, _, _, _, _, _, _, hthr⟩ := perform_kill_done P fuel s s1 r hp
    rw [hthr]; exact hupd r _ (Or.inl rfl)
  | changePriority r p =>
    obtain ⟨_, _, hthr, _⟩ := perform_changePriority_done P fuel s s1 r p hp
    rw [hthr]; exact ht

/-! ### Whole runs -/

theorem run_orderly (P : ThreadPriority σ) (fuel : Nat) (ops : List Op) :
    ∀ (s s1 : Scheduler σ), Orderly s → run P fuel ops s = some s1 →
      follows orderly P fuel ops s = true → Orderly s1 := by
  induction ops with
  | nil =>
    intro s s1 h hr _
    simp only [run, Option.some.injEq] at hr
    subst hr
    exact h
  | cons op ops ih =>
    intro s s1 h hr hok
    simp only [run] at hr
    simp only [follows, Bool.and_eq_true] at hok
    cases hp : perform P fuel s op with
    | done u sx =>
      simp only [hp] at hr hok
      exact ih sx s1 (perform_orderly P fuel s sx op h hok.1 hp) hr hok.2
    | fatal e sx => simp [hp] at hr
    | deadlock => simp [hp] at hr
    | outOfFuel => simp [hp] at hr

theorem run_careful (P : ThreadPriority σ) (fuel : Nat) (ops : List Op) (t : ThreadRef) :
    ∀ (s s1 : Scheduler σ), Orderly s → FinishedOut s → run P fuel ops s = some s1 →
      follows careful P fuel ops s = true →
      Orderly s1 ∧ FinishedOut s1 ∧
        ((s.threads t).finished = true → (s1.threads t).finished = true) := by
  induction ops with
  | nil =>
    intro s s1 h hf hr _
    simp only [run, Option.some.injEq] at hr
    subst hr
    exact ⟨h, hf, id⟩
  | cons op ops ih =>
    intro s s1 h hf hr hok
    simp only [run] at hr
    simp only [follows, Bool.and_eq_true] at hok
    cases hp : perform P fuel s op with
    | done u sx =>
      simp only [hp] at hr hok
      obtain ⟨h1, h2, h3⟩ := ih sx s1
        (perform_orderly P fuel s sx op h (careful_orderly s op hok.1) hp)
        (perform_finishedOut P fuel s sx op h hf hok.1 hp) hr hok.2
      exact ⟨h1, h2, fun ht => h3 (perform_finished_stays P fuel s sx op t hp ht)⟩
    | fatal e sx => simp [hp] at hr
    | deadlock => simp [hp] at hr
    | outOfFuel => simp [hp] at hr

theorem occurrences_create (P : ThreadPriority σ) (p0 : σ) (threads : ThreadRef → Thread)
    (t : ThreadRef) : occurrences (create P p0 threads) t = 0 := by
  unfold occurrences create
  rw [List.sum_eq_zero_iff]
  intro n hn
  simp only [List.map_replicate, List.count_nil] at hn
  exact (List.eq_of_mem_replicate hn)

theorem orderly_create (P : ThreadPriority σ) (p0 : σ) (threads : ThreadRef → Thread) :
    Orderly (create P p0 threads) ∧ FinishedOut (create P p0 threads) := by
  refine ⟨⟨?_, ?_, ?_, ?_⟩, ⟨?_, ?_⟩⟩
  · intro t; rw [occurrences_create]; omega
  · intro hi; exact absurd hi (by simp [create])
  · intro t ht; rw [occurrences_create] at ht; omega
  · intro hi; exact absurd hi (by simp [create])
  · intro t ht; rw [occurrences_create] at ht; omega
  · intro hi; exact absurd hi (by simp [create])

theorem run_tally (P : ThreadPriority σ) (fuel : Nat) (ops : List Op) :
    ∀ (s s1 : Scheduler σ), (∀ op ∈ ops, counted op = true) → run P fuel ops s = some s1 →
      queuedTotal s1 + ops.countP isHandOver + killHits P fuel ops s
        = queuedTotal s + ops.countP isReadyCall := by
  induction ops with
  | nil =>
    intro s s1 _ hr
    simp only [run, Option.some.injEq] at hr
    subst hr
    simp [killHits]
  | cons op ops ih =>
    intro s s1 hall hr
    simp only [run] at hr
    cases hp : perform P fuel s op with
    | fatal e sx => simp [hp] at hr
    | deadlock => simp [hp] at hr
    | outOfFuel => simp [hp] at hr
    | done u sx =>
      simp only [hp] at hr
      have hrec := ih sx s1 (fun o ho => hall o (List.mem_cons_of_mem _ ho)) hr
      have hop := hall op (List.mem_cons_self _ _)
      simp only [List.countP_cons, killHits, hp]
      cases op with
      | ready t =>
        obtain ⟨_, q, hq, h2, _⟩ := perform_ready_done P fuel s sx t hp
        have := queuedTotal_set s sx _ q (q ++ [t]) hq h2
        simp only [List.length_append, List.length_singleton] at this
        simp only [isHandOver, isReadyCall, Bool.false_eq_true, if_false, if_true]
        omega
      | startUp =>
        obtain ⟨next, c, rest, hc, h2, _⟩ := perform_startUp_done P fuel s sx hp
        have := queuedTotal_set s sx c (next :: rest) rest hc h2
        simp only [List.length_cons] at this
        simp only [isHandOver, isReadyCall, Bool.false_eq_true, if_false, if_true]
        omega
      | block =>
        obtain ⟨_, next, c, rest, hc, h2, _⟩ := perform_block_done P fuel s sx hp
        have := queuedTotal_set s sx c (next :: rest) rest hc h2
        simp only [List.length_cons] at this
        simp only [isHandOver, isReadyCall, Bool.false_eq_true, if_false, if_true]
        omega
      | exit =>
        obtain ⟨_, next, c, rest, hc, h2, _⟩ := perform_exit_done P fuel s sx hp
        have := queuedTotal_set s sx c (next :: rest) rest hc h2
        simp only [List.length_cons] at this
        simp only [isHandOver, isReadyCall, Bool.false_eq_true, if_false, if_true]
        omega
      | yield =>
        simp only [isHandOver, isReadyCall, Bool.false_eq_true, if_false]
        rcases perform_yield_done P fuel s sx hp with rfl | ⟨_, next, c, rest, q, sy, hc, hx2, _,
          hq, h2, _⟩
        · omega
        · have h1 := queuedTotal_set s sy c (next :: rest) rest hc hx2
          have h3 := queuedTotal_set sy sx _ q (q ++ [s.currentThread]) hq h2
          simp only [List.length_cons, List.length_append, List.length_nil] at h1 h3
          omega
      | kill t =>
        obtain ⟨_, _, q, hq, h2, _⟩ := perform_kill_done P fuel s sx t hp
        have := queuedTotal_set s sx _ q (q.erase t) hq h2
        rw [List.length_erase] at this
        simp only [isHandOver, isReadyCall, Bool.false_eq_true, if_false, hq, Option.getD_some]
        by_cases hm : t ∈ q
        · have := List.length_pos_of_mem hm
          simp only [hm, if_true] at *
          omega
        · simp only [hm, if_false] at *
          omega
      | deblock t => simp [counted] at hop
      | changePriority t p => simp [counted] at hop

theorem queuedTotal_of_empty (s : Scheduler σ) (h : ∀ q ∈ s.readyQueues, q = []) :
    queuedTotal s = 0 := by
  unfold queuedTotal
  rw [List.sum_eq_zero_iff]
  intro n hn
  rw [List.mem_map] at hn
  obtain ⟨q, hq, rfl⟩ := hn
  rw [h q hq]
  rfl

theorem getThreadCount_move (s sx s1 : Scheduler σ) (c c1 : Nat) (t : ThreadRef)
    (q q1 : List ThreadRef)
    (hq : s.readyQueues[c]? = some q)
    (hx : sx.readyQueues = s.readyQueues.set c (q.erase t))
    (hq1 : sx.readyQueues[c1]? = some q1)
    (h1 : s1.readyQueues = sx.readyQueues.set c1 (q1 ++ [t]))
    (hmem : t ∈ q) :
    getThreadCount s1 = getThreadCount s := by
  have e1 := queuedTotal_set s sx c q (q.erase t) hq hx
  have e2 := queuedTotal_set sx s1 c1 q1 (q1 ++ [t]) hq1 h1
  rw [List.length_erase, if_pos hmem] at e1
  have hlen := List.length_pos_of_mem hmem
  simp only [List.length_append, List.length_cons, List.length_nil] at e2
  rw [getThreadCount_eq, getThreadCount_eq]
  omega

theorem changePriority_moves (s : Scheduler σ) (t : ThreadRef) (p : Nat)
    (hne : t ≠ s.currentThread) (hp : p < 2 ^ 8) (hlock : s.lock = false)
    (hclass : s.readyQueues ≠ [])
    (hprio : (s.threads t).priority < s.readyQueues.length) :
    ∃ q q1, s.readyQueues[(s.threads t).priority]? = some q ∧
      (s.readyQueues.set (s.threads t).priority (q.erase t))[min p (getMaxPriority s)]?
        = some q1 ∧
      changePriority s t p = .done (min p (getMaxPriority s))
        { s with
          readyQueues := (s.readyQueues.set (s.threads t).priority (q.erase t)).set
            (min p (getMaxPriority s)) (q1 ++ [t])
          lock := false } ∧
      (t ∈ q →
        getThreadCount ({ s with
          readyQueues := (s.readyQueues.set (s.threads t).priority (q.erase t)).set
            (min p (getMaxPriority s)) (q1 ++ [t])
          lock := false } : Scheduler σ) = getThreadCount s) := by
  have hmax : getMaxPriority s < 2 ^ 8 := by
    unfold getMaxPriority
    exact Nat.mod_lt _ (by norm_num)
  have hval : (if p % 2 ^ 8 > getMaxPriority s then getMaxPriority s else p % 2 ^ 8) % 2 ^ 8
      = min p (getMaxPriority s) := by
    rw [Nat.mod_eq_of_lt hp]
    split
    · rw [Nat.mod_eq_of_lt hmax]; omega
    · rw [Nat.mod_eq_of_lt hp]; omega
  obtain ⟨q, hq⟩ : ∃ q, s.readyQueues[(s.threads t).priority]? = some q :=
    ⟨_, List.getElem?_eq_getElem hprio⟩
  have hnew : min p (getMaxPriority s)
      < (s.readyQueues.set (s.threads t).priority (q.erase t)).length := by
    rw [List.length_set]
    exact lt_length_of_le_getMaxPriority s _ hclass (Nat.min_le_right _ _)
  obtain ⟨q1, hq1⟩ : ∃ q1, (s.readyQueues.set (s.threads t).priority
      (q.erase t))[min p (getMaxPriority s)]? = some q1 :=
    ⟨_, List.getElem?_eq_getElem hnew⟩
  refine ⟨q, q1, hq, hq1, ?_, ?_⟩
  · unfold changePriority
    simp only [hval, hlock, remove, hq, push, hq1]
    simp [hne]
  · intro hmem
    exact getThreadCount_move s
      ⟨s.priority, s.readyQueues.set (s.threads t).priority (q.erase t), s.currentThread,
        s.initialized, s.lock, s.threads⟩ _ _ _ t q q1 hq rfl hq1 rfl hmem

/-! ### The selection loop: what it leaves alone, and its fatal exits -/

theorem getNextThreadLoop_frame (P : ThreadPriority σ) (fuel : Nat) :
    ∀ (s s1 : Scheduler σ), (getNextThreadLoop P fuel s).state? = some s1 →
      s1.lock = s.lock ∧ s1.currentThread = s.currentThread ∧
        s1.initialized = s.initialized ∧ s1.threads = s.threads := by
  induction fuel with
  | zero => intro s s1 h; simp [getNextThreadLoop, Outcome.state?] at h
  | succ fuel ih =>
    intro s s1 h
    simp only [getNextThreadLoop] at h
    split at h
    · simp only [Outcome.state?, Option.some.injEq] at h
      subst h
      exact ⟨rfl, rfl, rfl, rfl⟩
    · exact ih { s with priority := (P.getNextPriority s.priority).2 } s1 h
    · simp only [Outcome.state?, Option.some.injEq] at h
      subst h
      exact ⟨rfl, rfl, rfl, rfl⟩

theorem getNextThread_frame (P : ThreadPriority σ) (fuel : Nat) (s s1 : Scheduler σ)
    (h : (getNextThread P fuel s).state? = some s1) :
    s1.lock = s.lock ∧ s1.currentThread = s.currentThread ∧
      s1.initialized = s.initialized ∧ s1.threads = s.threads := by
  unfold getNextThread at h
  split at h
  · simp only [Outcome.state?, Option.some.injEq] at h
    subst h
    exact ⟨rfl, rfl, rfl, rfl⟩
  · exact getNextThreadLoop_frame P fuel s s1 h

theorem getNextThreadLoop_not_illegal (P : ThreadPriority σ) (fuel : Nat) :
    ∀ (s s1 : Scheduler σ), getNextThreadLoop P fuel s ≠ .fatal .ILLEGAL_STATE s1 := by
  induction fuel with
  | zero => intro s s1 h; simp [getNextThreadLoop] at h
  | succ fuel ih =>
    intro s s1 h
    simp only [getNextThreadLoop] at h
    split at h
    · simp at h
    · exact ih { s with priority := (P.getNextPriority s.priority).2 } s1 h
    · simp at h

theorem getNextThread_illegal (P : ThreadPriority σ) (fuel : Nat) (s s1 : Scheduler σ)
    (h : getNextThread P fuel s = .fatal .ILLEGAL_STATE s1) :
    isThreadWaiting s = false ∧ s1 = s := by
  unfold getNextThread at h
  split at h
  · rename_i hw
    simp only [Outcome.fatal.injEq, true_and] at h
    exact ⟨by simpa using hw, h.symm⟩
  · exact absurd h (getNextThreadLoop_not_illegal P fuel s s1)

theorem getNextThread_empty (P : ThreadPriority σ) (fuel : Nat) (s : Scheduler σ)
    (h : isThreadWaiting s = false) : getNextThread P fuel s = .fatal .ILLEGAL_STATE s := by
  simp [getNextThread, h]

/-! ### The lock and the current thread across single calls -/

theorem ready_state (s s1 : Scheduler σ) (t : ThreadRef)
    (h : (ready s t).state? = some s1) :
    s1.currentThread = s.currentThread ∧ (s.lock = true → s1.lock = true) := by
  unfold ready at h
  split at h
  · simp only [Outcome.state?, Option.some.injEq] at h
    subst h
    exact ⟨rfl, id⟩
  · split at h
    · simp [Outcome.state?] at h
    · rename_i hl
      dsimp only at h
      split at h
      · simp only [Outcome.state?, Option.some.injEq] at h
        subst h
        exact ⟨rfl, fun _ => rfl⟩
      · simp only [Outcome.state?, Option.some.injEq] at h
        subst h
        exact ⟨rfl, fun h => absurd h hl⟩

theorem deblock_state (s s1 : Scheduler σ) (t : ThreadRef)
    (h : (deblock s t).state? = some s1) :
    s1.currentThread = s.currentThread ∧ (s.lock = true → s1.lock = true) := by
  unfold deblock at h
  split at h
  · simp [Outcome.state?] at h
  · rename_i hl
    dsimp only at h
    split at h
    · simp only [Outcome.state?, Option.some.injEq] at h
      subst h
      exact ⟨rfl, fun _ => rfl⟩
    · split at h
      · simp only [Outcome.state?, Option.some.injEq] at h
        subst h
        exact ⟨rfl, fun _ => rfl⟩
      · simp only [Outcome.state?, Option.some.injEq] at h
        subst h
        exact ⟨rfl, fun h => absurd h hl⟩

theorem kill_state (s s1 : Scheduler σ) (t : ThreadRef)
    (h : (kill s t).state? = some s1) :
    s1.currentThread = s.currentThread ∧ (s.lock = true → s1.lock = true) := by
  unfold kill at h
  split at h
  · simp [Outcome.state?] at h
  · rename_i hl
    dsimp only at h
    split at h
    · simp only [Outcome.state?, Option.some.injEq] at h
      subst h
      exact ⟨rfl, fun _ => rfl⟩
    · split at h
      · simp only [Outcome.state?, Option.some.injEq] at h
        subst h
        exact ⟨rfl, fun _ => rfl⟩
      · split at h
        · simp only [Outcome.state?, Option.some.injEq] at h
          subst h
          exact ⟨rfl, fun _ => rfl⟩
        · simp only [Outcome.state?, Option.some.injEq] at h
          subst h
          exact ⟨rfl, fun h => absurd h hl⟩

theorem changePriority_state (s s1 : Scheduler σ) (t : ThreadRef) (p : Nat)
    (h : (changePriority s t p).state? = some s1) :
    s1.currentThread = s.currentThread ∧ (s.lock = true → s1.lock = true) := by
  unfold changePriority at h
  dsimp only at h
  split at h
  · simp [Outcome.state?] at h
  · rename_i hl
    split at h
    · simp only [Outcome.state?, Option.some.injEq] at h
      subst h
      exact ⟨rfl, fun h => absurd h hl⟩
    · split at h
      · simp only [Outcome.state?, Option.some.injEq] at h
        subst h
        exact ⟨rfl, fun _ => rfl⟩
      · split at h
        · simp only [Outcome.state?, Option.some.injEq] at h
          subst h
          exact ⟨rfl, fun _ => rfl⟩
        · simp only [Outcome.state?, Option.some.injEq] at h
          subst h
          exact ⟨rfl, fun h => absurd h hl⟩

theorem startUp_state (P : ThreadPriority σ) (fuel : Nat) (s s1 : Scheduler σ)
    (h : (startUp P fuel s).state? = some s1) : s1.lock = true := by
  unfold startUp at h
  split at h
  · simp [Outcome.state?] at h
  · dsimp only at h
    split at h
    · simp only [Outcome.state?, Option.some.injEq] at h
      subst h
      rfl
    · cases hg : getNextThread P fuel { s with lock := true } with
      | done next sx =>
        have hf := (getNextThread_frame P fuel _ sx (by rw [hg]; rfl)).1
        simp only [hg, Outcome.bind, Outcome.state?, Option.some.injEq] at h
        subst h
        exact hf
      | fatal e sx =>
        have hf := (getNextThread_frame P fuel _ sx (by rw [hg]; rfl)).1
        simp only [hg, Outcome.bind, Outcome.state?, Option.some.injEq] at h
        subst h
        exact hf
      | deadlock => simp [hg, Outcome.bind, Outcome.state?] at h
      | outOfFuel => simp [hg, Outcome.bind, Outcome.state?] at h

theorem dispatch_state (s s1 : Scheduler σ) (next : ThreadRef)
    (h : (dispatch s next).state? = some s1) : s1.lock = s.lock := by
  unfold dispatch at h
  split at h
  · simp only [Outcome.state?, Option.some.injEq] at h
    subst h
    rfl
  · simp only [Outcome.state?, Option.some.injEq] at h
    subst h
    rfl

theorem exit_state (P : ThreadPriority σ) (fuel : Nat) (s s1 : Scheduler σ)
    (h : (exit P fuel s).state? = some s1) : s1.lock = true := by
  unfold exit at h
  split at h
  · simp [Outcome.state?] at h
  · dsimp only at h
    split at h
    · simp only [Outcome.state?, Option.some.injEq] at h
      subst h
      rfl
    · split at h
      · simp only [Outcome.state?, Option.some.injEq] at h
        subst h
        rfl
      · cases hg : getNextThread P fuel { s with lock := true } with
        | done next sx =>
          have hf := (getNextThread_frame P fuel _ sx (by rw [hg]; rfl)).1
          simp only [hg, Outcome.bind] at h
          rw [dispatch_state _ s1 next h]
          exact hf
        | fatal e sx =>
          have hf := (getNextThread_frame P fuel _ sx (by rw [hg]; rfl)).1
          simp only [hg, Outcome.bind, Outcome.state?, Option.some.injEq] at h
          subst h
          exact hf
        | deadlock => simp [hg, Outcome.bind, Outcome.state?] at h
        | outOfFuel => simp [hg, Outcome.bind, Outcome.state?] at h

theorem block_state (P : ThreadPriority σ) (fuel : Nat) (s s1 : Scheduler σ)
    (h : (block P fuel s).state? = some s1) :
    (s.lock = true → s1.lock = true) ∧ (isThreadWaiting s = true → s1.lock = true) := by
  unfold block at h
  split at h
  · simp only [Outcome.state?, Option.some.injEq] at h
    subst h
    rename_i hw
    exact ⟨id, fun hw1 => by rw [hw1] at hw; simp at hw⟩
  · split at h
    · simp [Outcome.state?] at h
    · have hl : s1.lock = true := by
        cases hg : getNextThread P fuel { s with lock := true } with
        | done next sx =>
          have hf := (getNextThread_frame P fuel _ sx (by rw [hg]; rfl)).1
          simp only [hg, Outcome.bind] at h
          rw [dispatch_state _ s1 next h]
          exact hf
        | fatal e sx =>
          have hf := (getNextThread_frame P fuel _ sx (by rw [hg]; rfl)).1
          simp only [hg, Outcome.bind, Outcome.state?, Option.some.injEq] at h
          subst h
          exact hf
        | deadlock => simp [hg, Outcome.bind, Outcome.state?] at h
        | outOfFuel => simp [hg, Outcome.bind, Outcome.state?] at h
      exact ⟨fun _ => hl, fun _ => hl⟩

theorem yield_state (P : ThreadPriority σ) (fuel : Nat) (s s1 : Scheduler σ)
    (h : (yield P fuel s).state? = some s1) :
    (s.lock = true → s1.lock = true) ∧
      (s.lock = false → isThreadWaiting s = true → s1.lock = true) := by
  unfold yield at h
  split at h
  · rename_i hw
    simp only [Outcome.state?, Option.some.injEq] at h
    subst h
    exact ⟨id, fun _ hw1 => by rw [hw1] at hw; simp at hw⟩
  · split at h
    · rename_i hl
      simp only [Outcome.state?, Option.some.injEq] at h
      subst h
      exact ⟨id, fun hf => by rw [hf] at hl; simp at hl⟩
    · have hl : s1.lock = true := by
        cases hg : getNextThread P fuel { s with lock := true } with
        | done next sx =>
          have hf := (getNextThread_frame P fuel _ sx (by rw [hg]; rfl)).1
          simp only [hg, Outcome.bind] at h
          split at h
          · simp only [Outcome.state?, Option.some.injEq] at h
            subst h
            exact hf
          · rw [dispatch_state _ s1 next h]
            exact hf
        | fatal e sx =>
          have hf := (getNextThread_frame P fuel _ sx (by rw [hg]; rfl)).1
          simp only [hg, Outcome.bind, Outcome.state?, Option.some.injEq] at h
          subst h
          exact hf
        | deadlock => simp [hg, Outcome.bind, Outcome.state?] at h
        | outOfFuel => simp [hg, Outcome.bind, Outcome.state?] at h
      exact ⟨fun _ => hl, fun _ _ => hl⟩


theorem ready_done_lock (s s1 : Scheduler σ) (t : ThreadRef)
    (h : ready s t = .done () s1) : s1.lock = false := by
  unfold ready at h
  split at h
  · simp at h
  · split at h
    · simp at h
    · dsimp only at h
      split at h
      · simp at h
      · simp only [Outcome.done.injEq, true_and] at h
        subst h
        rfl

theorem deblock_done_lock (s s1 : Scheduler σ) (t : ThreadRef)
    (h : deblock s t = .done () s1) : s1.lock = false := by
  unfold deblock at h
  split at h
  · simp at h
  · dsimp only at h
    split at h
    · simp at h
    · split at h
      · simp at h
      · simp only [Outcome.done.injEq, true_and] at h
        subst h
        rfl

theorem kill_done_lock (s s1 : Scheduler σ) (t : ThreadRef)
    (h : kill s t = .done () s1) : s1.lock = false := by
  unfold kill at h
  split at h
  · simp at h
  · dsimp only at h
    split at h
    · simp at h
    · split at h
      · simp at h
      · split at h
        · simp at h
        · simp only [Outcome.done.injEq, true_and] at h
          subst h
          rfl

theorem changePriority_done_lock (s s1 : Scheduler σ) (t : ThreadRef) (p v : Nat)
    (h : changePriority s t p = .done v s1) : s1.lock = false := by
  unfold changePriority at h
  dsimp only at h
  split at h
  · simp at h
  · split at h
    · simp only [Outcome.done.injEq] at h
      rw [← h.2]
    · split at h
      · simp at h
      · split at h
        · simp at h
        · simp only [Outcome.done.injEq] at h
          rw [← h.2]

theorem block_done_waiting (P : ThreadPriority σ) (fuel : Nat) (s s1 : Scheduler σ)
    (h : block P fuel s = .done () s1) : isThreadWaiting s = true := by
  unfold block at h
  split at h
  · simp at h
  · rename_i hw
    simpa using hw

/-! ### Termination of the selection, fatal exits, the clamped priority -/

theorem getNextThreadLoop_hits (P : ThreadPriority σ) (B : Nat) (s : Scheduler σ)
    (hrange : ∀ j, j < B → P.answer s.priority j < s.readyQueues.length)
    (hhit : ∃ j, j < B ∧ ∃ q, s.readyQueues[P.answer s.priority j]? = some q ∧ q ≠ []) :
    ∃ (k : Nat) (ret : ThreadRef) (rest : List ThreadRef), k < B ∧
      (∀ j, j < k → s.readyQueues[P.answer s.priority j]? = some []) ∧
      s.readyQueues[P.answer s.priority k]? = some (ret :: rest) := by
  classical
  have hex : ∃ j, j < B ∧ ∃ q, s.readyQueues[P.answer s.priority j]? = some q ∧ q ≠ [] := hhit
  obtain ⟨hkB, q, hq, hne⟩ := Nat.find_spec hex
  cases q with
  | nil => exact absurd rfl hne
  | cons ret rest =>
    refine ⟨Nat.find hex, ret, rest, hkB, ?_, hq⟩
    intro j hj
    have hjB : j < B := Nat.lt_trans hj hkB
    obtain ⟨qj, hqj⟩ : ∃ qj, s.readyQueues[P.answer s.priority j]? = some qj :=
      ⟨_, List.getElem?_eq_getElem (hrange j hjB)⟩
    cases qj with
    | nil => exact hqj
    | cons x xs =>
      exact absurd ⟨hjB, x :: xs, hqj, by simp⟩ (Nat.find_min hex hj)

theorem changePriority_done_value (s s1 : Scheduler σ) (t : ThreadRef) (p v : Nat)
    (h : changePriority s t p = .done v s1) :
    v = (if p % 2 ^ 8 > getMaxPriority s then getMaxPriority s else p % 2 ^ 8) % 2 ^ 8 := by
  unfold changePriority at h
  dsimp only at h
  split at h
  · simp at h
  · split at h
    · simp only [Outcome.done.injEq] at h
      exact h.1.symm
    · split at h
      · simp at h
      · split at h
        · simp at h
        · simp only [Outcome.done.injEq] at h
          exact h.1.symm

theorem clamp_eq_min (s : Scheduler σ) (p : Nat) (hp : p < 2 ^ 8) :
    (if p % 2 ^ 8 > getMaxPriority s then getMaxPriority s else p % 2 ^ 8) % 2 ^ 8
      = min p (getMaxPriority s) := by
  have hmax : getMaxPriority s < 2 ^ 8 := by
    unfold getMaxPriority
    exact Nat.mod_lt _ (by norm_num)
  rw [Nat.mod_eq_of_lt hp]
  split
  · rw [Nat.mod_eq_of_lt hmax]; omega
  · rw [Nat.mod_eq_of_lt hp]; omega

theorem startUp_illegal (P : ThreadPriority σ) (fuel : Nat) (s s1 : Scheduler σ)
    (h : startUp P fuel s = .fatal .ILLEGAL_STATE s1) : s1 = { s with lock := true } := by
  unfold startUp at h
  split at h
  · simp at h
  · dsimp only at h
    split at h
    · simp only [Outcome.fatal.injEq, true_and] at h
      exact h.symm
    · cases hg : getNextThread P fuel { s with lock := true } with
      | done next sx => simp [hg, Outcome.bind] at h
      | fatal e sx =>
        simp only [hg, Outcome.bind, Outcome.fatal.injEq] at h
        obtain ⟨rfl, rfl⟩ := h
        exact (getNextThread_illegal P fuel _ sx hg).2
      | deadlock => simp [hg, Outcome.bind] at h
      | outOfFuel => simp [hg, Outcome.bind] at h

theorem ready_illegal (s s1 : Scheduler σ) (t : ThreadRef)
    (h : ready s t = .fatal .ILLEGAL_STATE s1) : s1 = s := by
  unfold ready at h
  split at h
  · simp only [Outcome.fatal.injEq, true_and] at h
    exact h.symm
  · split at h
    · simp at h
    · dsimp only at h
      split at h
      · simp at h
      · simp at h

theorem deblock_illegal (s s1 : Scheduler σ) (t : ThreadRef)
    (h : deblock s t = .fatal .ILLEGAL_STATE s1) : s1 = { s with lock := true } := by
  unfold deblock at h
  split at h
  · simp at h
  · dsimp only at h
    split at h
    · simp only [Outcome.fatal.injEq, true_and] at h
      exact h.symm
    · split at h
      · simp at h
      · simp at h

theorem kill_illegal (s s1 : Scheduler σ) (t : ThreadRef)
    (h : kill s t = .fatal .ILLEGAL_STATE s1) : s1 = { s with lock := true } := by
  unfold kill at h
  split at h
  · simp at h
  · dsimp only at h
    split at h
    · simp only [Outcome.fatal.injEq, true_and] at h
      exact h.symm
    · split at h
      · simp only [Outcome.fatal.injEq, true_and] at h
        exact h.symm
      · split at h
        · simp at h
        · simp at h

theorem dispatch_illegal (s s1 : Scheduler σ) (next : ThreadRef)
    (h : dispatch s next = .fatal .ILLEGAL_STATE s1) : s.initialized = false ∧ s1 = s := by
  unfold dispatch at h
  split at h
  · rename_i hi
    simp only [Outcome.fatal.injEq, true_and] at h
    exact ⟨by simpa using hi, h.symm⟩
  · simp at h

theorem exit_illegal (P : ThreadPriority σ) (fuel : Nat) (s s1 : Scheduler σ)
    (h : exit P fuel s = .fatal .ILLEGAL_STATE s1) : s1 = { s with lock := true } := by
  unfold exit at h
  split at h
  · simp at h
  · dsimp only at h
    split at h
    · simp only [Outcome.fatal.injEq, true_and] at h
      exact h.symm
    · rename_i hi
      split at h
      · simp only [Outcome.fatal.injEq, true_and] at h
        exact h.symm
      · cases hg : getNextThread P fuel { s with lock := true } with
        | done next sx =>
          have hf := (getNextThread_frame P fuel _ sx (by rw [hg]; rfl)).2.2.1
          simp only [hg, Outcome.bind] at h
          have hd := (dispatch_illegal _ s1 next h).1
          exfalso
          apply hi
          have hsx : sx.initialized = false := hd
          rw [hf] at hsx
          have hs : s.initialized = false := hsx
          simp [hs]
        | fatal e sx =>
          simp only [hg, Outcome.bind, Outcome.fatal.injEq] at h
          obtain ⟨rfl, rfl⟩ := h
          exact (getNextThread_illegal P fuel _ sx hg).2
        | deadlock => simp [hg, Outcome.bind] at h
        | outOfFuel => simp [hg, Outcome.bind] at h

theorem block_illegal (P : ThreadPriority σ) (fuel : Nat) (s s1 : Scheduler σ)
    (h : block P fuel s = .fatal .ILLEGAL_STATE s1) :
    (isThreadWaiting s = false ∧ s1 = s) ∨
      (isThreadWaiting s = true ∧ s.initialized = false ∧
        ∃ next, getNextThread P fuel { s with lock := true } = .done next s1) := by
  unfold block at h
  split at h
  · rename_i hw
    simp only [Outcome.fatal.injEq, true_and] at h
    exact Or.inl ⟨by simpa using hw, h.symm⟩
  · rename_i hw
    have hw1 : isThreadWaiting s = true := by simpa using hw
    split at h
    · simp at h
    · cases hg : getNextThread P fuel { s with lock := true } with
      | done next sx =>
        have hf := (getNextThread_frame P fuel _ sx (by rw [hg]; rfl)).2.2.1
        simp only [hg, Outcome.bind] at h
        obtain ⟨hd, rfl⟩ := dispatch_illegal _ s1 next h
        exact Or.inr ⟨hw1, by rw [← hd, hf], next, rfl⟩
      | fatal e sx =>
        simp only [hg, Outcome.bind, Outcome.fatal.injEq] at h
        obtain ⟨rfl, rfl⟩ := h
        have := (getNextThread_illegal P fuel _ sx hg).1
        rw [isThreadWaiting_lock, hw1] at this
        exact absurd this (by simp)
      | deadlock => simp [hg, Outcome.bind] at h
      | outOfFuel => simp [hg, Outcome.bind] at h

theorem yield_illegal (P : ThreadPriority σ) (fuel : Nat) (s s1 : Scheduler σ)
    (h : yield P fuel s = .fatal .ILLEGAL_STATE s1) :
    isThreadWaiting s = true ∧ s.initialized = false ∧
      ∃ (next : ThreadRef) (sx : Scheduler σ) (q : List ThreadRef),
        getNextThread P fuel { s with lock := true } = .done next sx ∧
        sx.readyQueues[(s.threads s.currentThread).priority]? = some q ∧
        s1 = { sx with
               readyQueues := sx.readyQueues.set (s.threads s.currentThread).priority
                 (q ++ [s.currentThread]) } := by
  unfold yield at h
  split at h
  · simp at h
  · rename_i hw
    have hw1 : isThreadWaiting s = true := by simpa using hw
    split at h
    · simp at h
    · cases hg : getNextThread P fuel { s with lock := true } with
      | done next sx =>
        obtain ⟨_, hcur, hini, hthr⟩ := getNextThread_frame P fuel _ sx (by rw [hg]; rfl)
        simp only [hg, Outcome.bind, push] at h
        cases hq : sx.readyQueues[(sx.threads sx.currentThread).priority]? with
        | none => simp [hq] at h
        | some q =>
          simp only [hq] at h
          obtain ⟨hd, rfl⟩ := dispatch_illegal _ s1 next h
          rw [hthr, hcur] at hq
          refine ⟨hw1, by rw [← hini]; exact hd, next, sx, q, rfl, hq, ?_⟩
          simp only [hthr, hcur]
      | fatal e sx =>
        simp only [hg, Outcome.bind, Outcome.fatal.injEq] at h
        obtain ⟨rfl, rfl⟩ := h
        have := (getNextThread_illegal P fuel _ sx hg).1
        rw [isThreadWaiting_lock, hw1] at this
        exact absurd this (by simp)
      | deadlock => simp [hg, Outcome.bind] at h
      | outOfFuel => simp [hg, Outcome.bind] at h

end Scheduler

open Scheduler

/-- The scenario state `demoRunning` is the state the public operations
produce from the constructor: `ready` of `A`, `B`, `C`, then `startUp`, whose
dispatched thread releases the lock on resumption. -/
theorem demoRunning_reachable :
    ((ready demoBoot 1).bind fun _ s => (ready s 2).bind fun _ s => (ready s 3).bind fun _ s =>
      (startUp (roundRobin 3) 1 s).bind fun _ s => .done () (releaseSchedulerLock s))
      = .done () demoRunning := by
  have hthreads : Function.update (Function.update (Function.update bootThreads 1
        { bootThreads 1 with started := true }) 2 { bootThreads 2 with started := true }) 3
        { bootThreads 3 with started := true } = demoThreads := by
    funext r
    by_cases h1 : r = 1
    · subst h1; rfl
    · by_cases h2 : r = 2
      · subst h2; rfl
      · by_cases h3 : r = 3
        · subst h3; rfl
        · simp [Function.update, h1, h2, h3, bootThreads, demoThreads]
  have hrun : ((ready demoBoot 1).bind fun _ s => (ready s 2).bind fun _ s =>
      (ready s 3).bind fun _ s => (startUp (roundRobin 3) 1 s).bind fun _ s =>
        Outcome.done () (releaseSchedulerLock s))
      = .done () { demoRunning with
          threads := Function.update (Function.update (Function.update bootThreads 1
            { bootThreads 1 with started := true }) 2 { bootThreads 2 with started := true }) 3
            { bootThreads 3 with started := true } } := rfl
  rw [hrun, hthreads]
  rfl

/-! ## The claims about `yield`, `block`, `startUp`, `ready`, `deblock` and `exit` -/

/-- C1: from an initialized state with a waiting thread and a free lock,
`yield` takes the thread `getNextThread` returns on the state before the call,
appends the caller at the tail of the queue of the caller's class (in the
queues left by that selection) and makes the selected thread current; the
selected thread differs from the caller when the caller was in no queue. -/
theorem yield_selects_then_requeues {σ : Type} (P : ThreadPriority σ) (fuel : Nat)
    (s s1 : Scheduler σ) (next : ThreadRef)
    (hinit : s.initialized = true)
    (hwait : ∃ q ∈ s.readyQueues, q ≠ [])
    (hlock : s.lock = false)
    (hprio : (s.threads s.currentThread).priority < s.readyQueues.length)
    (hnext : getNextThread P fuel s = .done next s1) :
    ∃ q, s1.readyQueues[(s.threads s.currentThread).priority]? = some q ∧
      yield P fuel s = .done ()
        { s1 with
          readyQueues :=
            s1.readyQueues.set (s.threads s.currentThread).priority (q ++ [s.currentThread])
          currentThread := next
          lock := true } ∧
      (isQueued s s.currentThread = false → next ≠ s.currentThread) := by
  obtain ⟨c, rest, hc, hq1, hcur, hini, _, hthr⟩ := getNextThread_done P fuel s s1 next hnext
  have hlen : (s.threads s.currentThread).priority < s1.readyQueues.length := by
    rw [hq1, List.length_set]; exact hprio
  refine ⟨s1.readyQueues[(s.threads s.currentThread).priority], ?_, ?_, ?_⟩
  · exact List.getElem?_eq_getElem hlen
  · have hw : isThreadWaiting s = true := (isThreadWaiting_true_iff s).mpr hwait
    have h2 := getNextThread_lock P true fuel s s1 next hnext
    unfold yield
    rw [if_neg (by simp [hw]), if_neg (by simp [hlock]), h2]
    simp [Outcome.bind, push, hthr, hcur, List.getElem?_eq_getElem hlen, dispatch, hini, hinit]
  · intro hnq heq
    rw [← heq, isQueued_of_head s c next rest hc] at hnq
    exact Bool.noConfusion hnq

/-- Evaluation of C1 on the scenario: `A` (address 1, class 0) yields while
`C` and `B` wait; the policy answers class 1, so `B` (address 2) runs next and
`A` joins class 0 behind `C`. -/
theorem yield_selects_then_requeues_witness :
    yield (roundRobin 3) 1 demoRunning = .done ()
        { demoRunning with
          priority := 2, readyQueues := [[3, 1], [], []], currentThread := 2, lock := true } ∧
      (2 : ThreadRef) ≠ demoRunning.currentThread := by
  obtain ⟨q, hq, hy, hne⟩ := yield_selects_then_requeues (roundRobin 3) 1 demoRunning
    demoSelected 2
    rfl ⟨[3], by decide, by decide⟩ rfl (by decide) rfl
  have hq3 : q = [3] := (Option.some.inj hq).symm
  subst hq3
  exact ⟨hy, hne (by decide)⟩

/-- C2: when every ready queue is empty, `yield` returns at once and the state
(current thread, queues, lock, policy state, thread flags) is the one before
the call. -/
theorem yield_nothing_ready {σ : Type} (P : ThreadPriority σ) (fuel : Nat) (s : Scheduler σ)
    (hempty : ∀ q ∈ s.readyQueues, q = []) :
    yield P fuel s = .done () s := by
  have hw : isThreadWaiting s = false := (isThreadWaiting_false_iff s).mpr hempty
  simp [yield, hw]

/-- Evaluation of C2 on a freshly constructed scheduler with three classes. -/
theorem yield_nothing_ready_witness :
    yield (roundRobin 3) 0 demoBoot
      = .done () demoBoot :=
  yield_nothing_ready (roundRobin 3) 0 demoBoot (by decide)

/-- C3: when a thread is waiting but the lock is held, `yield` returns
normally (no exception) and the state, the held lock included, is the one
before the call. -/
theorem yield_lock_busy {σ : Type} (P : ThreadPriority σ) (fuel : Nat) (s : Scheduler σ)
    (hwait : ∃ q ∈ s.readyQueues, q ≠ [])
    (hlock : s.lock = true) :
    yield P fuel s = .done () s := by
  have hw : isThreadWaiting s = true := (isThreadWaiting_true_iff s).mpr hwait
  simp [yield, hw, hlock]

/-- Evaluation of C3 on the scenario with the lock held. -/
theorem yield_lock_busy_witness :
    yield (roundRobin 3) 5 { demoRunning with lock := true }
      = .done () { demoRunning with lock := true } :=
  yield_lock_busy (roundRobin 3) 5 { demoRunning with lock := true }
    ⟨[3], by decide, by decide⟩ rfl

/-- C4 (as amended): from an initialized state with a waiting thread, a free
lock and fewer than 2^32 queued threads, `block` makes the thread
`getNextThread` returns current and enqueues nothing: the queues afterwards
are the queues before with that one head popped, so every other queue is
unchanged, a thread that was in no queue (the caller, when it was not queued)
is in none afterwards, and `getThreadCount` is one lower. -/
theorem block_switches_without_enqueue {σ : Type} (P : ThreadPriority σ) (fuel : Nat)
    (s s1 : Scheduler σ) (next : ThreadRef)
    (hinit : s.initialized = true)
    (hwait : ∃ q ∈ s.readyQueues, q ≠ [])
    (hlock : s.lock = false)
    (hfit : queuedTotal s < 2 ^ 32)
    (hnext : getNextThread P fuel s = .done next s1) :
    block P fuel s = .done () { s1 with currentThread := next, lock := true } ∧
      (∃ c rest, s.readyQueues[c]? = some (next :: rest) ∧
        s1.readyQueues = s.readyQueues.set c rest ∧
        ∀ i, i ≠ c → s1.readyQueues[i]? = s.readyQueues[i]?) ∧
      (isQueued s s.currentThread = false →
        isQueued ({ s1 with currentThread := next, lock := true } : Scheduler σ)
          s.currentThread = false) ∧
      getThreadCount ({ s1 with currentThread := next, lock := true } : Scheduler σ) + 1
        = getThreadCount s := by
  obtain ⟨c, rest, hc, hq1, _, hini, _, _⟩ := getNextThread_done P fuel s s1 next hnext
  have hw : isThreadWaiting s = true := (isThreadWaiting_true_iff s).mpr hwait
  have h2 := getNextThread_lock P true fuel s s1 next hnext
  refine ⟨?_, ⟨c, rest, hc, hq1, ?_⟩, ?_, ?_⟩
  · unfold block
    rw [if_neg (by simp [hw]), if_neg (by simp [hlock]), h2]
    simp [Outcome.bind, dispatch, hini, hinit]
  · intro i hi
    rw [hq1]
    exact List.getElem?_set_ne (Ne.symm hi)
  · exact isQueued_pop s _ c next s.currentThread rest hc hq1
  · exact getThreadCount_pop s _ c next rest hc hq1 hfit

/-- Evaluation of C4 (as amended) on the scenario: `A` blocks, `B` is popped
from class 1 and runs, `A` is in no queue. -/
theorem block_switches_without_enqueue_witness :
    block (roundRobin 3) 1 demoRunning
        = .done () { demoSelected with currentThread := 2, lock := true } ∧
      isQueued ({ demoSelected with currentThread := 2, lock := true } : Scheduler Nat) 1
        = false ∧
      getThreadCount ({ demoSelected with currentThread := 2, lock := true } : Scheduler Nat) + 1
        = getThreadCount demoRunning := by
  obtain ⟨hb, _, hq, hn⟩ := block_switches_without_enqueue (roundRobin 3) 1 demoRunning
    demoSelected 2 rfl ⟨[3], by decide, by decide⟩ rfl (by decide) rfl
  exact ⟨hb, hq (by decide), hn⟩

/-- C4 as stated fails: thread `A` (address 1) is running and has passed
itself to `deblock`; when it then calls `block`, `B` becomes current and `A`,
the caller, is still in the queue of class 0. -/
theorem block_caller_still_queued :
    deblock demoRunning 1 = .done () demoSelfDeblocked ∧
      demoSelfDeblocked.initialized = true ∧
      isThreadWaiting demoSelfDeblocked = true ∧
      block (roundRobin 3) 1 demoSelfDeblocked
        = .done () { demoSelfDeblocked with
                     priority := 2, readyQueues := [[3, 1], [], []], currentThread := 2,
                     lock := true } ∧
      isQueued ({ demoSelfDeblocked with
                  priority := 2, readyQueues := [[3, 1], [], []], currentThread := 2,
                  lock := true } : Scheduler Nat) demoSelfDeblocked.currentThread = true :=
  ⟨rfl, rfl, by decide, rfl, by decide⟩

/-- C5: when every ready queue is empty (and the lock is free, for the two
operations that take it first), `startUp`, `exit` and `block` each enter
`Cpu::throwException` with `ILLEGAL_STATE`; none returns or dispatches. -/
theorem no_thread_waiting_is_fatal {σ : Type} (P : ThreadPriority σ) (fuel : Nat)
    (s : Scheduler σ)
    (hempty : ∀ q ∈ s.readyQueues, q = [])
    (hlock : s.lock = false) :
    startUp P fuel s = .fatal .ILLEGAL_STATE { s with lock := true } ∧
      exit P fuel s = .fatal .ILLEGAL_STATE { s with lock := true } ∧
      block P fuel s = .fatal .ILLEGAL_STATE s := by
  have hw : isThreadWaiting s = false := (isThreadWaiting_false_iff s).mpr hempty
  have hw1 : isThreadWaiting ({ s with lock := true } : Scheduler σ) = false := hw
  refine ⟨?_, ?_, ?_⟩
  · simp [startUp, hw1, hlock]
  · unfold exit
    simp only [hlock, hw1]
    cases s.initialized <;> simp
  · simp [block, hw]

/-- Evaluation of C5 on the scenario with all queues emptied. -/
theorem no_thread_waiting_is_fatal_witness :
    startUp (roundRobin 3) 5 demoIdle
        = .fatal .ILLEGAL_STATE { demoIdle with lock := true } ∧
      exit (roundRobin 3) 5 demoIdle
        = .fatal .ILLEGAL_STATE { demoIdle with lock := true } ∧
      block (roundRobin 3) 5 demoIdle
        = .fatal .ILLEGAL_STATE demoIdle :=
  no_thread_waiting_is_fatal (roundRobin 3) 5 demoIdle
    (by decide) rfl

/-- C6: for a thread `that` not yet started whose priority is at most
`getMaxPriority()` (scheduler with at least one class, lock free, initialized
or not), `ready` appends it at the tail of the queue of its class, sets its
`started` flag and returns with the lock free; every other queue, the
elements already in that queue and their order, the other thread objects,
`currentThread`, `initialized` and the policy state are as before. -/
theorem ready_enqueues_at_tail {σ : Type} (s : Scheduler σ) (that : ThreadRef)
    (hstarted : (s.threads that).started = false)
    (hclass : s.readyQueues ≠ [])
    (hprio : (s.threads that).priority ≤ getMaxPriority s)
    (hlock : s.lock = false) :
    ∃ q, s.readyQueues[(s.threads that).priority]? = some q ∧
      ready s that = .done ()
        { s with
          readyQueues := s.readyQueues.set (s.threads that).priority (q ++ [that])
          threads := Function.update s.threads that { s.threads that with started := true }
          lock := false } := by
  have hlen := lt_length_of_le_getMaxPriority s _ hclass hprio
  refine ⟨s.readyQueues[(s.threads that).priority], List.getElem?_eq_getElem hlen, ?_⟩
  simp [ready, hstarted, hlock, push, List.getElem?_eq_getElem hlen]

/-- Evaluation of C6 on the freshly constructed scheduler: `ready(A)` puts
address 1 into class 0 and marks it started. -/
theorem ready_enqueues_at_tail_witness :
    ready demoBoot 1 = .done ()
      { demoBoot with
        readyQueues := [[1], [], []]
        threads := Function.update bootThreads 1 { bootThreads 1 with started := true } } := by
  obtain ⟨q, hq, hr⟩ := ready_enqueues_at_tail demoBoot 1 rfl (by decide) (by decide) rfl
  have hq0 : q = [] := (Option.some.inj hq).symm
  subst hq0
  exact hr

/-- C7: for a thread whose `started` flag is set, in particular one that an
earlier `ready` call returned for, `ready` enters `Cpu::throwException` with
`ILLEGAL_STATE` before it touches the lock or a queue: the state at the fatal
exit is the state before the call. -/
theorem ready_twice_is_fatal {σ : Type} (s : Scheduler σ) (that : ThreadRef)
    (hstarted : (s.threads that).started = true ∨ ∃ s0, ready s0 that = .done () s) :
    ready s that = .fatal .ILLEGAL_STATE s := by
  have h : (s.threads that).started = true := by
    rcases hstarted with h | ⟨s0, h0⟩
    · exact h
    · exact ready_done_started s0 s that h0
  simp [ready, h]

/-- Evaluation of C7: `A` is passed to `ready` a second time. -/
theorem ready_twice_is_fatal_witness :
    ready { demoBoot with
            readyQueues := [[1], [], []]
            threads := Function.update bootThreads 1 { bootThreads 1 with started := true } } 1
      = .fatal .ILLEGAL_STATE
          { demoBoot with
            readyQueues := [[1], [], []]
            threads := Function.update bootThreads 1 { bootThreads 1 with started := true } } :=
  ready_twice_is_fatal _ 1 (Or.inr ⟨demoBoot, rfl⟩)

/-- C8: with a waiting thread and a free lock, `startUp` makes the thread
`getNextThread` returns on the state before the call current, leaves the
queues as that selection left them (the queues before with that one head
popped) and sets `initialized`. -/
theorem startUp_runs_selected {σ : Type} (P : ThreadPriority σ) (fuel : Nat)
    (s s1 : Scheduler σ) (next : ThreadRef)
    (hwait : ∃ q ∈ s.readyQueues, q ≠ [])
    (hlock : s.lock = false)
    (hnext : getNextThread P fuel s = .done next s1) :
    startUp P fuel s
        = .done () { s1 with currentThread := next, initialized := true, lock := true } ∧
      ∃ c rest, s.readyQueues[c]? = some (next :: rest) ∧
        s1.readyQueues = s.readyQueues.set c rest := by
  obtain ⟨c, rest, hc, hq1, _⟩ := getNextThread_done P fuel s s1 next hnext
  have hw : isThreadWaiting ({ s with lock := true } : Scheduler σ) = true :=
    (isThreadWaiting_true_iff s).mpr hwait
  have h2 := getNextThread_lock P true fuel s s1 next hnext
  refine ⟨?_, c, rest, hc, hq1⟩
  unfold startUp
  rw [if_neg (by simp [hlock])]
  simp only [hw, h2, Outcome.bind]
  simp

/-- Evaluation of C8: after `ready` of `A`, `B`, `C` on the fresh scheduler the
policy answers class 0 and `startUp` runs `A`. -/
theorem startUp_runs_selected_witness :
    startUp (roundRobin 3) 1
        { demoBoot with readyQueues := [[1, 3], [2], []], threads := demoThreads }
      = .done () { demoRunning with currentThread := 1, initialized := true, lock := true } :=
  (startUp_runs_selected (roundRobin 3) 1
    { demoBoot with readyQueues := [[1, 3], [2], []], threads := demoThreads }
    { demoBoot with priority := 1, readyQueues := [[3], [2], []], threads := demoThreads } 1
    ⟨[2], by decide, by decide⟩ rfl rfl).1

/-- C9: in an initialized state (at least one class, lock free, the counter
not at its 32-bit limit), for a thread whose priority is at most
`getMaxPriority()`, `deblock` appends the thread at the tail of the queue of
its class whatever its flags are, changes no thread object, no other queue and
not `currentThread`, and `getThreadCount` rises by one. -/
theorem deblock_enqueues_at_tail {σ : Type} (s : Scheduler σ) (that : ThreadRef)
    (hinit : s.initialized = true)
    (hclass : s.readyQueues ≠ [])
    (hprio : (s.threads that).priority ≤ getMaxPriority s)
    (hlock : s.lock = false)
    (hfit : queuedTotal s + 1 < 2 ^ 32) :
    ∃ q, s.readyQueues[(s.threads that).priority]? = some q ∧
      deblock s that = .done ()
        { s with
          readyQueues := s.readyQueues.set (s.threads that).priority (q ++ [that])
          lock := false } ∧
      getThreadCount ({ s with
          readyQueues := s.readyQueues.set (s.threads that).priority (q ++ [that])
          lock := false } : Scheduler σ) = getThreadCount s + 1 := by
  have hlen := lt_length_of_le_getMaxPriority s _ hclass hprio
  refine ⟨s.readyQueues[(s.threads that).priority], List.getElem?_eq_getElem hlen, ?_, ?_⟩
  · simp [deblock, hinit, hlock, push, List.getElem?_eq_getElem hlen]
  · exact getThreadCount_push s _ _ that _ (List.getElem?_eq_getElem hlen) rfl hfit

/-- Evaluation of C9: a thread at address 4 (class 0, never started) is
deblocked and joins class 0 behind `C`. -/
theorem deblock_enqueues_at_tail_witness :
    deblock demoRunning 4 = .done () { demoRunning with readyQueues := [[3, 4], [2], []] } ∧
      getThreadCount ({ demoRunning with readyQueues := [[3, 4], [2], []] } : Scheduler Nat)
        = getThreadCount demoRunning + 1 := by
  obtain ⟨q, hq, hd, hn⟩ :=
    deblock_enqueues_at_tail demoRunning 4 rfl (by decide) (by decide) rfl (by decide)
  have hq3 : q = [3] := (Option.some.inj hq).symm
  subst hq3
  exact ⟨hd, hn⟩

/-- C10: with the lock free, `exit` on a scheduler that is not initialized
enters `Cpu::throwException` with `ILLEGAL_STATE`; on an initialized scheduler
with a waiting thread it sets `finished` on the thread that was current, makes
the thread `getNextThread` returns current and pushes nothing: the queues are
the queues before with that one head popped. -/
theorem exit_finishes_caller {σ : Type} (P : ThreadPriority σ) (fuel : Nat) (s : Scheduler σ)
    (hlock : s.lock = false) :
    (s.initialized = false → exit P fuel s = .fatal .ILLEGAL_STATE { s with lock := true }) ∧
      (∀ next s1, s.initialized = true → (∃ q ∈ s.readyQueues, q ≠ []) →
        getNextThread P fuel s = .done next s1 →
        exit P fuel s = .done ()
            { s1 with
              threads := Function.update s.threads s.currentThread
                { s.threads s.currentThread with finished := true }
              currentThread := next
              lock := true } ∧
          ∃ c rest, s.readyQueues[c]? = some (next :: rest) ∧
            s1.readyQueues = s.readyQueues.set c rest) := by
  constructor
  · intro hinit
    simp [exit, hlock, hinit]
  · intro next s1 hinit hwait hnext
    obtain ⟨c, rest, hc, hq1, hcur, hini, _, hthr⟩ := getNextThread_done P fuel s s1 next hnext
    have hw : isThreadWaiting ({ s with lock := true } : Scheduler σ) = true :=
      (isThreadWaiting_true_iff s).mpr hwait
    have h2 := getNextThread_lock P true fuel s s1 next hnext
    refine ⟨?_, c, rest, hc, hq1⟩
    unfold exit
    rw [if_neg (by simp [hlock])]
    dsimp only
    rw [if_neg (by simp [hinit]), if_neg (by simp [hw]), h2]
    simp [Outcome.bind, dispatch, hini, hinit, hthr, hcur]

/-- Evaluation of C10: `exit` before `startUp` is fatal; in the scenario `A`
exits, is marked finished, and `B` runs. -/
theorem exit_finishes_caller_witness :
    exit (roundRobin 3) 1 demoBoot = .fatal .ILLEGAL_STATE { demoBoot with lock := true } ∧
      exit (roundRobin 3) 1 demoRunning = .done ()
        { demoSelected with
          threads := Function.update demoThreads 1 { demoThreads 1 with finished := true }
          currentThread := 2
          lock := true } :=
  ⟨(exit_finishes_caller (roundRobin 3) 1 demoBoot rfl).1 rfl,
   ((exit_finishes_caller (roundRobin 3) 1 demoRunning rfl).2 2 demoSelected rfl
      ⟨[3], by decide, by decide⟩ rfl).1⟩

/-! ## The claims about `kill`, `changePriority`, the selection and whole runs -/

/-- C11: in an initialized state (lock free), `kill` of a thread that carries
the id of the current thread, the current thread itself in particular, enters
`Cpu::throwException` with `ILLEGAL_STATE`; at that point the lock is taken
and nothing else has changed: no `finished` flag, no ready queue. -/
theorem kill_self_is_fatal {σ : Type} (s : Scheduler σ) (that : ThreadRef)
    (hinit : s.initialized = true)
    (hlock : s.lock = false)
    (hself : (s.threads that).id = (s.threads s.currentThread).id) :
    kill s that = .fatal .ILLEGAL_STATE { s with lock := true } := by
  simp [kill, hlock, hinit, hself]

/-- Evaluation of C11 on the scenario: the running thread `A` kills itself. -/
theorem kill_self_is_fatal_witness :
    kill demoRunning demoRunning.currentThread = .fatal .ILLEGAL_STATE { demoRunning with lock := true } :=
  kill_self_is_fatal demoRunning demoRunning.currentThread rfl rfl rfl

/-- C13: for an 8-bit value `p` (lock free), `changePriority` of the current
thread returns `min p getMaxPriority()` and the state after the call is the
state before it: every ready queue and `currentThread` are unchanged. -/
theorem changePriority_current_is_noop {σ : Type} (s : Scheduler σ) (p : Nat)
    (hp : p < 2 ^ 8)
    (hlock : s.lock = false) :
    changePriority s s.currentThread p = .done (min p (getMaxPriority s)) s := by
  have hmax : getMaxPriority s < 2 ^ 8 := by
    unfold getMaxPriority
    exact Nat.mod_lt _ (by norm_num)
  have hval : (if p % 2 ^ 8 > getMaxPriority s then getMaxPriority s else p % 2 ^ 8) % 2 ^ 8
      = min p (getMaxPriority s) := by
    rw [Nat.mod_eq_of_lt hp]
    split
    · rw [Nat.mod_eq_of_lt hmax]; omega
    · rw [Nat.mod_eq_of_lt hp]; omega
  have hs : ({ s with lock := false } : Scheduler σ) = s := by
    cases s
    simp only at hlock
    simp [hlock]
  unfold changePriority
  simp only [hval, hlock, hs]
  simp

/-- Evaluation of C13 on the scenario: the running thread `A` asks for class 7
of three. -/
theorem changePriority_current_is_noop_witness :
    changePriority demoRunning demoRunning.currentThread 7
      = .done (min 7 (getMaxPriority demoRunning)) demoRunning :=
  changePriority_current_is_noop demoRunning 7 (by decide) rfl

/-- C12: in an initialized state (lock free, fewer than 2^32 queued threads),
for a thread `that` whose id is not the current thread's and which is queued
at most once and only in the queue of its priority class, `kill` takes it out
of that queue and sets `finished`: afterwards it is in no ready queue, no
sequence of `getNextThread` calls returns it, `getThreadCount` has dropped by
the number of entries it had, and the other threads keep their queues and
their order. -/
theorem kill_removes_thread {σ : Type} (P : ThreadPriority σ) (s : Scheduler σ)
    (that : ThreadRef)
    (hinit : s.initialized = true)
    (hlock : s.lock = false)
    (hother : (s.threads that).id ≠ (s.threads s.currentThread).id)
    (hprio : (s.threads that).priority < s.readyQueues.length)
    (honce : occurrences s that ≤ 1)
    (hclass : ∀ (i : Nat) (q : List ThreadRef),
      s.readyQueues[i]? = some q → that ∈ q → i = (s.threads that).priority)
    (hfit : queuedTotal s < 2 ^ 32) :
    ∃ q s2, s.readyQueues[(s.threads that).priority]? = some q ∧
      s2 = { s with
             readyQueues := s.readyQueues.set (s.threads that).priority (q.erase that)
             threads := Function.update s.threads that { s.threads that with finished := true }
             lock := false } ∧
      kill s that = .done () s2 ∧
      (s2.threads that).finished = true ∧
      isQueued s2 that = false ∧
      (∀ fuel n, that ∉ drain P fuel n s2) ∧
      getThreadCount s2 + occurrences s that = getThreadCount s ∧
      s2.readyQueues.map (List.filter (fun x => x != that))
        = s.readyQueues.map (List.filter (fun x => x != that)) := by
  have hq := List.getElem?_eq_getElem hprio
  refine ⟨s.readyQueues[(s.threads that).priority], _, hq, rfl, ?_, ?_, ?_, ?_, ?_, ?_⟩
  · simp [kill, hlock, hinit, hother, remove, hq]
  · simp
  · exact (isQueued_eq_false_iff _ _).mpr
      (occurrences_after_erase s _ that _ _ hq rfl honce hclass)
  · intro fuel n
    exact not_mem_drain P fuel that n _
      (occurrences_after_erase s _ that _ _ hq rfl honce hclass)
  · exact getThreadCount_after_erase s _ that _ _ hq rfl honce hclass hfit
  · exact map_set_same _ _ _ _ _ hq (filter_erase_ne _ _)

/-- Evaluation of C12 on the scenario: `A` kills `C` (address 3), which waits
in class 0. -/
theorem kill_removes_thread_witness :
    kill demoRunning 3 = .done ()
        { demoRunning with
          readyQueues := [[], [2], []]
          threads := Function.update demoThreads 3 { demoThreads 3 with finished := true } } ∧
      (3 : ThreadRef) ∉ drain (roundRobin 3) 3 4
        { demoRunning with
          readyQueues := [[], [2], []]
          threads := Function.update demoThreads 3 { demoThreads 3 with finished := true } } := by
  obtain ⟨q, s2, hq, hs2, hk, _, _, hd, _, _⟩ :=
    kill_removes_thread (roundRobin 3) demoRunning 3 rfl rfl (by decide) (by decide)
      (by decide) (by
        intro i q hi hm
        match i, hi with
        | 0, _ => rfl
        | 1, hi => simp [demoRunning] at hi; subst hi; simp at hm
        | 2, hi => simp [demoRunning] at hi; subst hi; simp at hm
        | n + 3, hi => simp [demoRunning] at hi) (by decide)
  have hq3 : q = [3] := (Option.some.inj hq).symm
  subst hq3
  subst hs2
  exact ⟨hk, hd 3 4⟩

/-- C14, evaluation at the failing input: `A` (address 1) has called `block`
and is in no ready queue while `B` runs; `changePriority(A, 2)` finds nothing
to remove in class 0 and still appends `A` to class 2, so `getThreadCount`
goes from 1 to 2 and the blocked thread is ready again. -/
theorem changePriority_enqueues_blocked_thread :
    ((block (roundRobin 3) 1 demoRunning).bind fun _ s => .done () (releaseSchedulerLock s))
        = .done () demoBlocked ∧
      isQueued demoBlocked 1 = false ∧
      changePriority demoBlocked 1 2
        = .done 2 { demoBlocked with readyQueues := [[3], [], [1]] } ∧
      getThreadCount demoBlocked = 1 ∧
      getThreadCount ({ demoBlocked with readyQueues := [[3], [], [1]] } : Scheduler Nat) = 2 :=
  ⟨rfl, by decide, rfl, by decide, by decide⟩

/-- C16: when the first `k` answers of the policy name empty queues and
answer number `k` names a queue with head `ret`, `getNextThread` (given more
than `k` policy calls) returns `ret`, replaces that one queue by its tail,
leaves every other queue and every other part of the state as it was, and
leaves the policy in the state after exactly `k + 1` calls. -/
theorem getNextThread_first_nonempty {σ : Type} (P : ThreadPriority σ) (s : Scheduler σ)
    (k fuel : Nat) (ret : ThreadRef) (rest : List ThreadRef)
    (hskip : ∀ j, j < k → s.readyQueues[P.answer s.priority j]? = some [])
    (hhit : s.readyQueues[P.answer s.priority k]? = some (ret :: rest))
    (hfuel : k < fuel) :
    getNextThread P fuel s = .done ret
      { s with
        priority := P.stateAfter s.priority (k + 1)
        readyQueues := s.readyQueues.set (P.answer s.priority k) rest } := by
  have hw : isThreadWaiting s = true :=
    (isThreadWaiting_true_iff s).mpr ⟨ret :: rest, List.getElem?_mem hhit, by simp⟩
  unfold getNextThread
  rw [if_neg (by simp [hw])]
  exact getNextThreadLoop_first_nonempty P k s fuel ret rest hskip hhit hfuel

/-- Evaluation of C16: in the scenario after `B` was popped the policy stands
at class 2; it answers 2 (empty), then 0, whose head `C` is returned after two
calls. -/
theorem getNextThread_first_nonempty_witness :
    getNextThread (roundRobin 3) 2 demoSelected
      = .done 3 { demoSelected with priority := 1, readyQueues := [[], [], []] } :=
  getNextThread_first_nonempty (roundRobin 3) demoSelected 1 2 3 []
    (by
      intro j hj
      have hj0 : j = 0 := by omega
      subst hj0
      rfl)
    rfl (by decide)

/-- C15: FIFO within a class, for every policy.  When thread `b` is appended
to a class in which thread `a` is queued (and `b` has no other entry), `a`
stands in front of `b`; and from any state in which `a` stands in front of
`b`, in every sequence of `getNextThread` calls each return of `b` comes
after a return of `a`. -/
theorem fifo_within_class {σ : Type} (P : ThreadPriority σ) (s : Scheduler σ) (c : Nat)
    (a b : ThreadRef) (hab : a ≠ b) :
    (∀ (q : List ThreadRef) (qs1 : List (List ThreadRef)),
        s.readyQueues[c]? = some q → a ∈ q → occurrences s b = 0 →
        push s.readyQueues c b = some qs1 → queuedAhead qs1 c a b) ∧
      (queuedAhead s.readyQueues c a b →
        ∀ (fuel n k : Nat), (drain P fuel n s)[k]? = some b →
          ∃ j : Nat, j < k ∧ (drain P fuel n s)[j]? = some a) := by
  constructor
  · intro q qs1 hq ha hb hpush
    refine queuedAhead_push s.readyQueues qs1 c a b q hq ha ?_ hpush
    intro i q1 hi hm
    have := occurrences_pos_of_mem s b i q1 hi hm
    omega
  · intro h fuel n k hk
    exact drain_order P fuel c a b hab n s h k hk

/-- Evaluation of C15 on the scenario of the specification: `ready` of `A`,
`B`, `C` puts `C` behind `A` in class 0; three selections return `A`, `B`,
`C`, so `A` (position 0) comes before `C` (position 2); and with `startUp`
followed by `yield` calls `A` runs first, then `B`, then `C`. -/
theorem fifo_within_class_witness :
    queuedAhead demoReadied.readyQueues 0 1 3 ∧
      drain (roundRobin 3) 3 3 demoReadied = [1, 2, 3] ∧
      (∃ j : Nat, j < 2 ∧ (drain (roundRobin 3) 3 3 demoReadied)[j]? = some 1) ∧
      startUp (roundRobin 3) 1 demoReadied = .done () { demoRunning with lock := true } ∧
      yield (roundRobin 3) 1 demoRunning = .done ()
        { demoRunning with
          priority := 2, readyQueues := [[3, 1], [], []], currentThread := 2, lock := true } ∧
      yield (roundRobin 3) 2
          { demoRunning with priority := 2, readyQueues := [[3, 1], [], []], currentThread := 2 }
        = .done ()
          { demoRunning with
            priority := 1, readyQueues := [[1], [2], []], currentThread := 3, lock := true } := by
  have hahead : queuedAhead demoReadied.readyQueues 0 1 3 :=
    (fifo_within_class (roundRobin 3)
      ({ demoBoot with readyQueues := [[1], [2], []], threads := demoThreads } : Scheduler Nat)
      0 1 3 (by decide)).1 [1] _ rfl (by decide) (by decide) rfl
  exact ⟨hahead, rfl,
    (fifo_within_class (roundRobin 3) demoReadied 0 1 3 (by decide)).2 hahead 3 3 2 rfl,
    rfl, rfl, rfl⟩

/-- C17 (as amended): in a run of `ready`, `startUp`, `yield`, `block`, `exit`
and `kill` calls that starts with empty queues and in which every call reaches
its end, `getThreadCount` plus the number of `startUp`, `block` and `exit`
calls plus the number of `kill` calls that found their target in the queue of
its priority class equals the number of `ready` calls (fewer than 2^32 of
them); `yield` and a `kill` that finds nothing to remove do not count. -/
theorem thread_count_accounting {σ : Type} (P : ThreadPriority σ) (fuel : Nat)
    (ops : List Op) (s0 s : Scheduler σ)
    (hempty : ∀ q ∈ s0.readyQueues, q = [])
    (hops : ∀ op ∈ ops, counted op = true)
    (hrun : run P fuel ops s0 = some s)
    (hfit : ops.countP isReadyCall < 2 ^ 32) :
    getThreadCount s + ops.countP isHandOver + killHits P fuel ops s0
      = ops.countP isReadyCall := by
  have h := run_tally P fuel ops s0 s hops hrun
  rw [queuedTotal_of_empty s0 hempty] at h
  rw [getThreadCount_eq, Nat.mod_eq_of_lt (by omega)]
  omega

/-- Evaluation of C17 (as amended): `A`, `B`, `C` are readied, `A` is started
and blocks, then `B` kills the blocked `A` (nothing to remove) and the queued
`C` (one entry removed): 0 queued + 2 hand-overs + 1 removal = 3 `ready`
calls. -/
theorem thread_count_accounting_witness :
    (run (roundRobin 3) 3
        [.ready 1, .ready 2, .ready 3, .startUp, .block, .kill 1, .kill 3] demoBoot).map
        (fun s => getThreadCount s + 2 + 1) = some 3 := by
  cases h : run (roundRobin 3) 3
      [.ready 1, .ready 2, .ready 3, .startUp, .block, .kill 1, .kill 3] demoBoot with
  | none =>
    have hs : (run (roundRobin 3) 3
      [.ready 1, .ready 2, .ready 3, .startUp, .block, .kill 1, .kill 3] demoBoot).isSome
        = true := by decide
    rw [h] at hs
    exact Bool.noConfusion hs
  | some s =>
    have hacc := thread_count_accounting (roundRobin 3) 3
      [.ready 1, .ready 2, .ready 3, .startUp, .block, .kill 1, .kill 3] demoBoot s
      (by decide) (by decide) h (by decide)
    have hh : List.countP isHandOver
        [Op.ready 1, .ready 2, .ready 3, .startUp, .block, .kill 1, .kill 3] = 2 := by decide
    have hr : List.countP isReadyCall
        [Op.ready 1, .ready 2, .ready 3, .startUp, .block, .kill 1, .kill 3] = 3 := by decide
    have hk : killHits (roundRobin 3) 3
        [.ready 1, .ready 2, .ready 3, .startUp, .block, .kill 1, .kill 3] demoBoot = 1 := by
      decide
    rw [hh, hr, hk] at hacc
    simp only [Option.map_some', hacc]

/-- C17 as stated fails: after `ready` of `A`, `B`, `C`, `startUp` and `block`
(which leaves `A` blocked, in no queue), `B` kills `A`; no call took the fatal
path, `getThreadCount` is 1 (`C` is still queued), whereas the number of
`ready` calls minus the hand-overs minus the killed threads is 3 - 2 - 1 = 0. -/
theorem thread_count_kill_of_blocked_thread :
    (run (roundRobin 3) 3 [.ready 1, .ready 2, .ready 3, .startUp, .block, .kill 1]
        demoBoot).map getThreadCount = some 1 ∧
      List.countP isReadyCall [Op.ready 1, .ready 2, .ready 3, .startUp, .block, .kill 1]
        - List.countP isHandOver [Op.ready 1, .ready 2, .ready 3, .startUp, .block, .kill 1]
        - List.countP isKillCall [Op.ready 1, .ready 2, .ready 3, .startUp, .block, .kill 1]
        = 0 := by
  decide

/-- C18 (as amended): in every state reached from the constructed scheduler
by a run of public operations that keeps the discipline `orderly` (no
`deblock` of a thread that is running, queued or never started; no
`changePriority` of a thread with an entry outside its own class), once
`initialized` is set the current thread has no entry in any ready queue. -/
theorem current_thread_not_queued {σ : Type} (P : ThreadPriority σ) (p0 : σ)
    (threads : ThreadRef → Thread) (fuel : Nat) (ops : List Op) (s : Scheduler σ)
    (hrun : run P fuel ops (create P p0 threads) = some s)
    (hok : follows orderly P fuel ops (create P p0 threads) = true)
    (hinit : s.initialized = true) :
    isQueued s s.currentThread = false := by
  have h := run_orderly P fuel ops _ s (orderly_create P p0 threads).1 hrun hok
  exact (isQueued_eq_false_iff s _).mpr (h.currentOut hinit)

/-- Evaluation of C18 (as amended): the scenario with `startUp`, two `yield`
calls, a `block` and the `deblock` of the blocked thread. -/
theorem current_thread_not_queued_witness :
    (run (roundRobin 3) 3
        [.ready 1, .ready 2, .ready 3, .startUp, .yield, .yield, .block, .deblock 3]
        demoBoot).map (fun s => isQueued s s.currentThread) = some false := by
  cases h : run (roundRobin 3) 3
      [.ready 1, .ready 2, .ready 3, .startUp, .yield, .yield, .block, .deblock 3] demoBoot with
  | none =>
    have hs : (run (roundRobin 3) 3
      [.ready 1, .ready 2, .ready 3, .startUp, .yield, .yield, .block, .deblock 3]
      demoBoot).isSome = true := by decide
    rw [h] at hs
    exact Bool.noConfusion hs
  | some s =>
    have hi : (run (roundRobin 3) 3
      [.ready 1, .ready 2, .ready 3, .startUp, .yield, .yield, .block, .deblock 3]
      demoBoot).map (fun s => s.initialized) = some true := by decide
    rw [h] at hi
    have hq := current_thread_not_queued (roundRobin 3) 0 bootThreads 3
      [.ready 1, .ready 2, .ready 3, .startUp, .yield, .yield, .block, .deblock 3] s h
      (by decide) (Option.some.inj hi)
    simp only [Option.map_some', hq]

/-- C18 as stated fails: after `ready` of `A`, `B`, `C` and `startUp` the
running thread `A` is passed to `deblock`; the scheduler is initialized and
its current thread is in a ready queue. -/
theorem current_thread_queued_after_deblock :
    (run (roundRobin 3) 3 [.ready 1, .ready 2, .ready 3, .startUp, .deblock 1] demoBoot).map
      (fun s => (s.initialized, s.currentThread, s.readyQueues, isQueued s s.currentThread))
      = some (true, 1, [[3, 1], [2], []], true) := by
  decide

/-- C19 (as amended): in every state reached from the constructed scheduler
by a run of public operations that keeps the discipline `orderly`, every
thread has at most one entry in the whole array of ready queues. -/
theorem at_most_one_entry {σ : Type} (P : ThreadPriority σ) (p0 : σ)
    (threads : ThreadRef → Thread) (fuel : Nat) (ops : List Op) (s : Scheduler σ)
    (hrun : run P fuel ops (create P p0 threads) = some s)
    (hok : follows orderly P fuel ops (create P p0 threads) = true) :
    ∀ t, occurrences s t ≤ 1 :=
  (run_orderly P fuel ops _ s (orderly_create P p0 threads).1 hrun hok).once

/-- Evaluation of C19 (as amended): the scenario with a `changePriority` of
the queued thread `C` to class 2 and a `kill` of the requeued `A`. -/
theorem at_most_one_entry_witness :
    (run (roundRobin 3) 3
        [.ready 1, .ready 2, .ready 3, .startUp, .changePriority 3 2, .yield, .kill 1]
        demoBoot).map (fun s => decide (occurrences s 3 ≤ 1)) = some true := by
  cases h : run (roundRobin 3) 3
      [.ready 1, .ready 2, .ready 3, .startUp, .changePriority 3 2, .yield, .kill 1]
      demoBoot with
  | none =>
    have hs : (run (roundRobin 3) 3
      [.ready 1, .ready 2, .ready 3, .startUp, .changePriority 3 2, .yield, .kill 1]
      demoBoot).isSome = true := by decide
    rw [h] at hs
    exact Bool.noConfusion hs
  | some s =>
    have hq := at_most_one_entry (roundRobin 3) 0 bootThreads 3
      [.ready 1, .ready 2, .ready 3, .startUp, .changePriority 3 2, .yield, .kill 1] s h
      (by decide) 3
    simp only [Option.map_some', hq, decide_True]

/-- C19 as stated fails: after `ready` of `A`, `B`, `C` and `startUp` the
queued thread `C` is passed to `deblock`; it then has two entries in the queue
of class 0. -/
theorem two_entries_after_deblock :
    (run (roundRobin 3) 3 [.ready 1, .ready 2, .ready 3, .startUp, .deblock 3] demoBoot).map
      (fun s => (s.readyQueues, occurrences s 3)) = some ([[3, 3], [2], []], 2) := by
  decide

/-- C20 (as amended): in a run from the constructed scheduler that keeps the
discipline `careful` (the discipline `orderly`; no `ready`, `deblock` or
`changePriority` of a finished thread; `kill` only of a thread without an
entry outside its own class), a thread that has `finished = true` keeps the
flag in every later state, has no entry in a ready queue there, is not the
current thread (once initialized) and is not returned by `getNextThread`. -/
theorem finished_thread_never_dispatched {σ : Type} (P : ThreadPriority σ) (p0 : σ)
    (threads : ThreadRef → Thread) (fuel : Nat) (ops : List Op) (s : Scheduler σ)
    (t : ThreadRef)
    (hrun : run P fuel ops (create P p0 threads) = some s)
    (hok : follows careful P fuel ops (create P p0 threads) = true)
    (hfin : (s.threads t).finished = true) :
    ∀ (fuel2 : Nat) (ops2 : List Op) (s2 : Scheduler σ),
      run P fuel2 ops2 s = some s2 → follows careful P fuel2 ops2 s = true →
        (s2.threads t).finished = true ∧ isQueued s2 t = false ∧
          (s2.initialized = true → s2.currentThread ≠ t) ∧
          ∀ (fuel3 : Nat) (s3 : Scheduler σ), getNextThread P fuel3 s2 ≠ .done t s3 := by
  intro fuel2 ops2 s2 hrun2 hok2
  obtain ⟨ho, hf, _⟩ := run_careful P fuel ops t _ s (orderly_create P p0 threads).1
    (orderly_create P p0 threads).2 hrun hok
  obtain ⟨_, hf2, hkeep⟩ := run_careful P fuel2 ops2 t s s2 ho hf hrun2 hok2
  have hfin2 := hkeep hfin
  have hzero : occurrences s2 t = 0 := by
    rcases Nat.eq_zero_or_pos (occurrences s2 t) with h0 | hpos
    · exact h0
    · have := hf2.queuedLive t hpos
      rw [hfin2] at this
      exact Bool.noConfusion this
  refine ⟨hfin2, (isQueued_eq_false_iff s2 t).mpr hzero, ?_, ?_⟩
  · intro hi e
    have := hf2.currentLive hi
    rw [e, hfin2] at this
    exact Bool.noConfusion this
  · intro fuel3 s3 hn
    obtain ⟨c, rest, hc, _⟩ := getNextThread_done P fuel3 s2 s3 t hn
    have := occurrences_pos_of_mem s2 t c (t :: rest) hc (List.mem_cons_self _ _)
    omega

/-- Evaluation of C20 (as amended): in the scenario `A` kills `C`; then `A`
yields to `B`, `B` exits, a thread at address 4 is readied and `A` blocks.
In the state reached `C` is still finished, in no queue and not running. -/
theorem finished_thread_never_dispatched_witness :
    ((run (roundRobin 3) 3 [.ready 1, .ready 2, .ready 3, .startUp, .kill 3] demoBoot).bind
        (run (roundRobin 3) 3 [.yield, .exit, .ready 4, .block])).map
      (fun s => ((s.threads 3).finished, isQueued s 3, decide (s.currentThread ≠ 3)))
      = some (true, false, true) := by
  have hb : ((run (roundRobin 3) 3 [.ready 1, .ready 2, .ready 3, .startUp, .kill 3]
      demoBoot).bind (run (roundRobin 3) 3 [.yield, .exit, .ready 4, .block])).map
      (fun s => s.initialized) = some true := by decide
  have hf : (run (roundRobin 3) 3 [.ready 1, .ready 2, .ready 3, .startUp, .kill 3]
      demoBoot).map (fun s => ((s.threads 3).finished,
        follows careful (roundRobin 3) 3 [.yield, .exit, .ready 4, .block] s))
      = some (true, true) := by decide
  cases h1 : run (roundRobin 3) 3 [.ready 1, .ready 2, .ready 3, .startUp, .kill 3] demoBoot with
  | none =>
    rw [h1] at hf
    exact Option.noConfusion hf
  | some s =>
    rw [h1] at hb hf
    simp only [Option.some_bind] at hb ⊢
    simp only [Option.map_some', Option.some.injEq, Prod.mk.injEq] at hf
    cases h2 : run (roundRobin 3) 3 [.yield, .exit, .ready 4, .block] s with
    | none =>
      rw [h2] at hb
      exact Option.noConfusion hb
    | some s2 =>
      rw [h2] at hb
      simp only [Option.map_some', Option.some.injEq] at hb
      obtain ⟨hfin, hq, hcur, _⟩ := finished_thread_never_dispatched (roundRobin 3) 0
        bootThreads 3 [.ready 1, .ready 2, .ready 3, .startUp, .kill 3] s 3 h1 (by decide)
        hf.1 3 [.yield, .exit, .ready 4, .block] s2 h2 hf.2
      simp only [Option.map_some', hfin, hq, hcur hb, ne_eq, not_false_eq_true, decide_True]

/-- C20 as stated fails: `A` kills the queued thread `C`, which sets
`finished` on it, and `C` is then passed to `deblock`; two `block` calls
later the finished thread `C` is the current thread. -/
theorem finished_thread_runs_after_deblock :
    (run (roundRobin 3) 3 [.ready 1, .ready 2, .ready 3, .startUp, .kill 3] demoBoot).map
        (fun s => (s.threads 3).finished) = some true ∧
      (run (roundRobin 3) 3
        [.ready 1, .ready 2, .ready 3, .startUp, .kill 3, .deblock 3, .block, .block]
        demoBoot).map (fun s => (s.currentThread, (s.threads s.currentThread).finished))
        = some (3, true) := by
  decide

/-! ## The claims about the system-call handlers, the initialization gate and the lock -/

/-- C21: on a scheduler that is not initialized the handlers of
`SCHEDULER_YIELD` and `SCHEDULER_BLOCK` return normally with the state
unchanged, whatever the queues hold; on an initialized scheduler they are
`yield` and `block`. -/
theorem syscall_handlers_gate {σ : Type} (P : ThreadPriority σ) (fuel : Nat)
    (s : Scheduler σ) :
    (s.initialized = false →
        sysYield P fuel s = .done () s ∧ sysBlock P fuel s = .done () s) ∧
      (s.initialized = true →
        sysYield P fuel s = yield P fuel s ∧ sysBlock P fuel s = block P fuel s) := by
  constructor
  · intro h
    simp [sysYield, sysBlock, isInitialized, h]
  · intro h
    simp [sysYield, sysBlock, isInitialized, h]

/-- Evaluation of C21: before `startUp`, with `A`, `B`, `C` queued, both
handlers leave the state as it is; in the running scenario the handlers are
`yield` and `block`. -/
theorem syscall_handlers_gate_witness :
    (sysYield (roundRobin 3) 1 demoReadied = .done () demoReadied ∧
        sysBlock (roundRobin 3) 1 demoReadied = .done () demoReadied) ∧
      (sysYield (roundRobin 3) 1 demoRunning = yield (roundRobin 3) 1 demoRunning ∧
        sysBlock (roundRobin 3) 1 demoRunning = block (roundRobin 3) 1 demoRunning) :=
  ⟨(syscall_handlers_gate (roundRobin 3) 1 demoReadied).1 rfl,
   (syscall_handlers_gate (roundRobin 3) 1 demoRunning).2 rfl⟩

/-- C22 (as amended): on a scheduler that is not initialized (lock free)
`deblock`, `exit` and `kill` enter `Cpu::throwException` with `ILLEGAL_STATE`
right after taking the lock; `block` is fatal too, at once when no thread
waits and in `dispatch` otherwise; `yield` returns without effect when no
thread waits and is fatal in `dispatch` otherwise; `ready` and
`changePriority` have no initialization check and complete. -/
theorem initialization_gate {σ : Type} (P : ThreadPriority σ) (fuel : Nat)
    (s : Scheduler σ) (that : ThreadRef)
    (hinit : s.initialized = false)
    (hlock : s.lock = false) :
    deblock s that = .fatal .ILLEGAL_STATE { s with lock := true } ∧
      exit P fuel s = .fatal .ILLEGAL_STATE { s with lock := true } ∧
      kill s that = .fatal .ILLEGAL_STATE { s with lock := true } ∧
      (isThreadWaiting s = false →
        block P fuel s = .fatal .ILLEGAL_STATE s ∧ yield P fuel s = .done () s) ∧
      (∀ next s1, getNextThread P fuel s = .done next s1 →
        block P fuel s = .fatal .ILLEGAL_STATE { s1 with lock := true } ∧
          ((s.threads s.currentThread).priority < s.readyQueues.length →
            ∃ q, s1.readyQueues[(s.threads s.currentThread).priority]? = some q ∧
              yield P fuel s = .fatal .ILLEGAL_STATE
                { s1 with
                  readyQueues := s1.readyQueues.set (s.threads s.currentThread).priority
                    (q ++ [s.currentThread])
                  lock := true })) ∧
      ((s.threads that).started = false →
        (s.threads that).priority < s.readyQueues.length →
        ∃ q, s.readyQueues[(s.threads that).priority]? = some q ∧
          ready s that = .done ()
            { s with
              readyQueues := s.readyQueues.set (s.threads that).priority (q ++ [that])
              threads := Function.update s.threads that { s.threads that with started := true }
              lock := false }) ∧
      (∀ p, p < 2 ^ 8 → (s.threads that).priority < s.readyQueues.length →
        ∃ v s1, changePriority s that p = .done v s1) := by
  refine ⟨?_, ?_, ?_, ?_, ?_, ?_, ?_⟩
  · simp [deblock, hlock, hinit]
  · simp [exit, hlock, hinit]
  · simp [kill, hlock, hinit]
  · intro hw
    simp [block, yield, hw]
  · intro next s1 hnext
    obtain ⟨c, rest, hc, hq1, hcur, hini, _, hthr⟩ := getNextThread_done P fuel s s1 next hnext
    have hw : isThreadWaiting s = true :=
      (isThreadWaiting_true_iff s).mpr ⟨next :: rest, List.getElem?_mem hc, by simp⟩
    have h2 := getNextThread_lock P true fuel s s1 next hnext
    have hi1 : s1.initialized = false := by rw [hini]; exact hinit
    constructor
    · unfold block
      rw [if_neg (by simp [hw]), if_neg (by simp [hlock]), h2]
      simp [Outcome.bind, dispatch, hi1]
    · intro hprio
      have hlen : (s.threads s.currentThread).priority < s1.readyQueues.length := by
        rw [hq1, List.length_set]; exact hprio
      obtain ⟨q, hq⟩ : ∃ q, s1.readyQueues[(s.threads s.currentThread).priority]? = some q :=
        ⟨_, List.getElem?_eq_getElem hlen⟩
      refine ⟨q, hq, ?_⟩
      unfold yield
      rw [if_neg (by simp [hw]), if_neg (by simp [hlock]), h2]
      simp [Outcome.bind, push, hthr, hcur, hq, dispatch, hi1]
  · intro hst hprio
    obtain ⟨q, hq⟩ : ∃ q, s.readyQueues[(s.threads that).priority]? = some q :=
      ⟨_, List.getElem?_eq_getElem hprio⟩
    exact ⟨q, hq, by simp [ready, hst, hlock, push, hq]⟩
  · intro p hp hprio
    by_cases hcur : that = s.currentThread
    · refine ⟨(if p % 2 ^ 8 > getMaxPriority s then getMaxPriority s else p % 2 ^ 8) % 2 ^ 8,
        { s with lock := false }, ?_⟩
      unfold changePriority
      simp [hlock, hcur]
    · have hne : s.readyQueues ≠ [] := by
        intro e
        rw [e] at hprio
        exact Nat.not_lt_zero _ hprio
      obtain ⟨q, q1, _, _, hdone, _⟩ := changePriority_moves s that p hcur hp hlock hne hprio
      exact ⟨_, _, hdone⟩

/-- Evaluation of C22 (as amended) on the scheduler before `startUp` with `A`,
`B`, `C` queued: `deblock`, `exit` and `kill` are fatal. -/
theorem initialization_gate_witness :
    deblock demoReadied 1 = .fatal .ILLEGAL_STATE { demoReadied with lock := true } ∧
      exit (roundRobin 3) 1 demoReadied
        = .fatal .ILLEGAL_STATE { demoReadied with lock := true } ∧
      kill demoReadied 1 = .fatal .ILLEGAL_STATE { demoReadied with lock := true } :=
  have h := initialization_gate (roundRobin 3) 1 demoReadied 1 rfl rfl
  ⟨h.1, h.2.1, h.2.2.1⟩

/-- C22 as stated fails: on the freshly constructed scheduler (not
initialized) `ready` completes and queues the thread, `yield` returns without
effect, and `changePriority` completes and queues the thread; none takes the
fatal path. -/
theorem uninitialized_calls_complete :
    demoBoot.initialized = false ∧
      ready demoBoot 1 = .done ()
        { demoBoot with
          readyQueues := [[1], [], []]
          threads := Function.update bootThreads 1 { bootThreads 1 with started := true } } ∧
      yield (roundRobin 3) 1 demoBoot = .done () demoBoot ∧
      changePriority demoBoot 1 2 = .done 2 { demoBoot with readyQueues := [[], [], [1]] } :=
  ⟨rfl, rfl, rfl, rfl⟩

/-- C23: the lock protocol.  With the lock free before the call, `ready`,
`deblock`, `kill` and `changePriority` end a completed call with the lock
free, and `startUp`, `block`, `exit` and a `yield` that finds a thread waiting
end the call, at the switch of `currentThread`, with the lock held.  `ready`,
`deblock`, `kill` and `changePriority` never change `currentThread`, however
they end.  With the lock held before the call, no operation ends in a state
with the lock free; `releaseSchedulerLock` frees it and changes nothing
else. -/
theorem lock_protocol {σ : Type} (P : ThreadPriority σ) (fuel : Nat) (s : Scheduler σ)
    (that : ThreadRef) (p : Nat) :
    (s.lock = false →
      (∀ s1, ready s that = .done () s1 → s1.lock = false) ∧
        (∀ s1, deblock s that = .done () s1 → s1.lock = false) ∧
        (∀ s1, kill s that = .done () s1 → s1.lock = false) ∧
        (∀ v s1, changePriority s that p = .done v s1 → s1.lock = false) ∧
        (∀ s1, startUp P fuel s = .done () s1 → s1.lock = true) ∧
        (∀ s1, block P fuel s = .done () s1 → s1.lock = true) ∧
        (∀ s1, exit P fuel s = .done () s1 → s1.lock = true) ∧
        (∀ s1, isThreadWaiting s = true → yield P fuel s = .done () s1 → s1.lock = true)) ∧
      ((∀ s1, (ready s that).state? = some s1 → s1.currentThread = s.currentThread) ∧
        (∀ s1, (deblock s that).state? = some s1 → s1.currentThread = s.currentThread) ∧
        (∀ s1, (kill s that).state? = some s1 → s1.currentThread = s.currentThread) ∧
        (∀ s1, (changePriority s that p).state? = some s1 →
          s1.currentThread = s.currentThread)) ∧
      (s.lock = true →
        ∀ s1, ((ready s that).state? = some s1 ∨ (deblock s that).state? = some s1 ∨
            (kill s that).state? = some s1 ∨ (changePriority s that p).state? = some s1 ∨
            (startUp P fuel s).state? = some s1 ∨ (block P fuel s).state? = some s1 ∨
            (exit P fuel s).state? = some s1 ∨ (yield P fuel s).state? = some s1) →
          s1.lock = true) ∧
      ((releaseSchedulerLock s).lock = false ∧ sameSchedule s (releaseSchedulerLock s) ∧
        (releaseSchedulerLock s).initialized = s.initialized) := by
  refine ⟨?_, ⟨?_, ?_, ?_, ?_⟩, ?_, ⟨rfl, ⟨rfl, rfl, rfl, rfl⟩, rfl⟩⟩
  · intro hl
    refine ⟨?_, ?_, ?_, ?_, ?_, ?_, ?_, ?_⟩
    · exact fun s1 h => ready_done_lock s s1 that h
    · exact fun s1 h => deblock_done_lock s s1 that h
    · exact fun s1 h => kill_done_lock s s1 that h
    · exact fun v s1 h => changePriority_done_lock s s1 that p v h
    · exact fun s1 h => startUp_state P fuel s s1 (by rw [h]; rfl)
    · exact fun s1 h =>
        (block_state P fuel s s1 (by rw [h]; rfl)).2 (block_done_waiting P fuel s s1 h)
    · exact fun s1 h => exit_state P fuel s s1 (by rw [h]; rfl)
    · exact fun s1 hw h => (yield_state P fuel s s1 (by rw [h]; rfl)).2 hl hw
  · exact fun s1 h => (ready_state s s1 that h).1
  · exact fun s1 h => (deblock_state s s1 that h).1
  · exact fun s1 h => (kill_state s s1 that h).1
  · exact fun s1 h => (changePriority_state s s1 that p h).1
  · intro hl s1 h
    rcases h with h | h | h | h | h | h | h | h
    · exact (ready_state s s1 that h).2 hl
    · exact (deblock_state s s1 that h).2 hl
    · exact (kill_state s s1 that h).2 hl
    · exact (changePriority_state s s1 that p h).2 hl
    · exact startUp_state P fuel s s1 h
    · exact (block_state P fuel s s1 h).1 hl
    · exact exit_state P fuel s s1 h
    · exact (yield_state P fuel s s1 h).1 hl

/-- Evaluation of C23 on the scenario: `deblock` of a thread at address 4
returns with the lock free, `block` hands over with the lock held, and with
the lock held a `yield` leaves it held. -/
theorem lock_protocol_witness :
    (deblock demoRunning 4 = .done () { demoRunning with readyQueues := [[3, 4], [2], []] } ∧
        ({ demoRunning with readyQueues := [[3, 4], [2], []] } : Scheduler Nat).lock = false) ∧
      (block (roundRobin 3) 1 demoRunning
          = .done () { demoSelected with currentThread := 2, lock := true } ∧
        ({ demoSelected with currentThread := 2, lock := true } : Scheduler Nat).lock = true) ∧
      ((yield (roundRobin 3) 1 { demoRunning with lock := true }).state?
          = some { demoRunning with lock := true } ∧
        ({ demoRunning with lock := true } : Scheduler Nat).lock = true) :=
  ⟨⟨rfl, ((lock_protocol (roundRobin 3) 1 demoRunning 4 0).1 rfl).2.1 _ rfl⟩,
   ⟨rfl, ((lock_protocol (roundRobin 3) 1 demoRunning 4 0).1 rfl).2.2.2.2.2.1 _ rfl⟩,
   ⟨rfl, (lock_protocol (roundRobin 3) 1 { demoRunning with lock := true } 4 0).2.2.1 rfl _
     (Or.inr (Or.inr (Or.inr (Or.inr (Or.inr (Or.inr (Or.inr rfl)))))))⟩⟩

/-! ## The claims about termination, the fatal path and the priority range -/

/-- C25: when each of the first `B` answers of the policy is an index of the
queue array and one of them names a non-empty queue, `getNextThread` returns a
thread for every fuel of at least `B` policy calls; it stops at the first such
answer, number `k < B`, after `k + 1` calls of `getNextPriority`.  When every
queue is empty it enters `Cpu::throwException` with `ILLEGAL_STATE` in the
unchanged state (the policy was not called), whatever the fuel. -/
theorem getNextThread_terminates {σ : Type} (P : ThreadPriority σ) (s : Scheduler σ)
    (B : Nat) :
    ((∃ q ∈ s.readyQueues, q ≠ []) →
      (∀ j, j < B → P.answer s.priority j < s.readyQueues.length) →
      (∃ j, j < B ∧ ∃ q, s.readyQueues[P.answer s.priority j]? = some q ∧ q ≠ []) →
      ∃ (k : Nat) (ret : ThreadRef) (rest : List ThreadRef), k < B ∧
        s.readyQueues[P.answer s.priority k]? = some (ret :: rest) ∧
        ∀ fuel, B ≤ fuel →
          getNextThread P fuel s = .done ret
            { s with
              priority := P.stateAfter s.priority (k + 1)
              readyQueues := s.readyQueues.set (P.answer s.priority k) rest }) ∧
      ((∀ q ∈ s.readyQueues, q = []) →
        ∀ fuel, getNextThread P fuel s = .fatal .ILLEGAL_STATE s) := by
  constructor
  · intro hwait hrange hhit
    obtain ⟨k, ret, rest, hk, hskip, hq⟩ := getNextThreadLoop_hits P B s hrange hhit
    refine ⟨k, ret, rest, hk, hq, ?_⟩
    intro fuel hfuel
    have hw : isThreadWaiting s = true := (isThreadWaiting_true_iff s).mpr hwait
    unfold getNextThread
    rw [if_neg (by simp [hw])]
    exact getNextThreadLoop_first_nonempty P k s fuel ret rest hskip hq (by omega)
  · intro hempty fuel
    exact getNextThread_empty P fuel s ((isThreadWaiting_false_iff s).mpr hempty)

/-- Evaluation of C25: in the scenario after `B` was popped only class 0 is
populated and the rotation stands at class 2; within three answers it names
class 0, and `getNextThread` returns `C` after two calls.  With all queues
empty the call is fatal with no fuel at all. -/
theorem getNextThread_terminates_witness :
    (∃ (k : Nat) (ret : ThreadRef) (rest : List ThreadRef), k < 3 ∧
        demoSelected.readyQueues[(roundRobin 3).answer demoSelected.priority k]?
          = some (ret :: rest) ∧
        ∀ fuel, 3 ≤ fuel →
          getNextThread (roundRobin 3) fuel demoSelected = .done ret
            { demoSelected with
              priority := (roundRobin 3).stateAfter demoSelected.priority (k + 1)
              readyQueues :=
                demoSelected.readyQueues.set ((roundRobin 3).answer demoSelected.priority k)
                  rest }) ∧
      getNextThread (roundRobin 3) 0 demoIdle = .fatal .ILLEGAL_STATE demoIdle :=
  ⟨(getNextThread_terminates (roundRobin 3) demoSelected 3).1 ⟨[3], by decide, by decide⟩
      (by
        intro j _
        show (roundRobin 3).answer demoSelected.priority j < 3
        unfold ThreadPriority.answer roundRobin
        exact Nat.mod_lt _ (by decide))
      ⟨1, by decide, [3], rfl, by decide⟩,
   (getNextThread_terminates (roundRobin 3) demoIdle 0).2 (by decide) 0⟩

/-- C26 (as amended): where a call ends in the fatal illegal-state path.  For
`startUp`, `ready`, `deblock`, `exit` and `kill`, and for `block` on an
initialized scheduler or with no thread waiting, the ready queues, the current
thread, the thread objects and the policy state at the throw are those before
the call.  `yield` throws only, and `block` otherwise, on a scheduler that is
not initialized while a thread waits: the throw then comes from `dispatch`, in
the state `getNextThread` left (for `yield` with the caller appended to its
class). -/
theorem fatal_path_state {σ : Type} (P : ThreadPriority σ) (fuel : Nat) (s s1 : Scheduler σ)
    (that : ThreadRef) :
    (startUp P fuel s = .fatal .ILLEGAL_STATE s1 → sameSchedule s s1) ∧
      (ready s that = .fatal .ILLEGAL_STATE s1 → sameSchedule s s1) ∧
      (deblock s that = .fatal .ILLEGAL_STATE s1 → sameSchedule s s1) ∧
      (exit P fuel s = .fatal .ILLEGAL_STATE s1 → sameSchedule s s1) ∧
      (kill s that = .fatal .ILLEGAL_STATE s1 → sameSchedule s s1) ∧
      (block P fuel s = .fatal .ILLEGAL_STATE s1 →
        (s.initialized = true ∨ isThreadWaiting s = false) → sameSchedule s s1) ∧
      (block P fuel s = .fatal .ILLEGAL_STATE s1 →
        s.initialized = false → isThreadWaiting s = true →
        ∃ next, getNextThread P fuel { s with lock := true } = .done next s1) ∧
      (yield P fuel s = .fatal .ILLEGAL_STATE s1 →
        isThreadWaiting s = true ∧ s.initialized = false ∧
          ∃ (next : ThreadRef) (sx : Scheduler σ) (q : List ThreadRef),
            getNextThread P fuel { s with lock := true } = .done next sx ∧
            sx.readyQueues[(s.threads s.currentThread).priority]? = some q ∧
            s1 = { sx with
                   readyQueues := sx.readyQueues.set (s.threads s.currentThread).priority
                     (q ++ [s.currentThread]) }) := by
  refine ⟨?_, ?_, ?_, ?_, ?_, ?_, ?_, ?_⟩
  · intro h
    rw [startUp_illegal P fuel s s1 h]
    exact ⟨rfl, rfl, rfl, rfl⟩
  · intro h
    rw [ready_illegal s s1 that h]
    exact ⟨rfl, rfl, rfl, rfl⟩
  · intro h
    rw [deblock_illegal s s1 that h]
    exact ⟨rfl, rfl, rfl, rfl⟩
  · intro h
    rw [exit_illegal P fuel s s1 h]
    exact ⟨rfl, rfl, rfl, rfl⟩
  · intro h
    rw [kill_illegal s s1 that h]
    exact ⟨rfl, rfl, rfl, rfl⟩
  · intro h hor
    rcases block_illegal P fuel s s1 h with ⟨_, rfl⟩ | ⟨hw, hi, _⟩
    · exact ⟨rfl, rfl, rfl, rfl⟩
    · rcases hor with h1 | h1
      · rw [hi] at h1
        exact Bool.noConfusion h1
      · rw [hw] at h1
        exact Bool.noConfusion h1
  · intro h _ hw
    rcases block_illegal P fuel s s1 h with ⟨hw0, _⟩ | ⟨_, _, hex⟩
    · rw [hw] at hw0
      exact Bool.noConfusion hw0
    · exact hex
  · exact yield_illegal P fuel s s1

/-- Evaluation of C26 (as amended): `exit` before `startUp` throws in the
state before the call with the lock taken; `block` before `startUp` with `A`,
`B`, `C` queued throws in the state `getNextThread` left. -/
theorem fatal_path_state_witness :
    sameSchedule demoReadied { demoReadied with lock := true } ∧
      (∃ next, getNextThread (roundRobin 3) 1 { demoReadied with lock := true }
        = .done next
            { demoReadied with priority := 1, readyQueues := [[3], [2], []], lock := true }) :=
  ⟨(fatal_path_state (roundRobin 3) 1 demoReadied { demoReadied with lock := true } 1).2.2.2.1
      rfl,
   (fatal_path_state (roundRobin 3) 1 demoReadied
      { demoReadied with priority := 1, readyQueues := [[3], [2], []], lock := true }
      1).2.2.2.2.2.2.1 rfl rfl (by decide)⟩

/-- C26 as stated fails: `block` called before `startUp` while `A`, `B`, `C`
wait takes the fatal illegal-state path in `dispatch`; at the throw the head
of class 0 is already popped and the policy has advanced. -/
theorem block_before_startUp_not_atomic :
    demoReadied.initialized = false ∧
      block (roundRobin 3) 1 demoReadied
        = .fatal .ILLEGAL_STATE
            { demoReadied with priority := 1, readyQueues := [[3], [2], []], lock := true } ∧
      ({ demoReadied with priority := 1, readyQueues := [[3], [2], []], lock := true } :
          Scheduler Nat).readyQueues ≠ demoReadied.readyQueues ∧
      ({ demoReadied with priority := 1, readyQueues := [[3], [2], []], lock := true } :
          Scheduler Nat).priority ≠ demoReadied.priority :=
  ⟨rfl, rfl, by decide, by decide⟩

/-- C27: for a scheduler with `n` ready queues, `1 ≤ n ≤ 256`,
`getMaxPriority()` is `n - 1`; for every 8-bit `p` the value `changePriority`
clamps to is `min p (n - 1) < n`, a completed call returns that value, and
(lock free, thread not running, its own class in range) the call completes
with the thread appended to the queue at that index: the enqueue stays inside
the array. -/
theorem max_priority_in_range {σ : Type} (s : Scheduler σ)
    (hn1 : 1 ≤ s.readyQueues.length)
    (hn2 : s.readyQueues.length ≤ 256) :
    getMaxPriority s = s.readyQueues.length - 1 ∧
      (∀ p, p < 2 ^ 8 →
        min p (getMaxPriority s) = min p (s.readyQueues.length - 1) ∧
          min p (s.readyQueues.length - 1) < s.readyQueues.length) ∧
      (∀ (t : ThreadRef) (p v : Nat) (s1 : Scheduler σ), p < 2 ^ 8 →
        changePriority s t p = .done v s1 → v = min p (s.readyQueues.length - 1)) ∧
      (∀ (t : ThreadRef) (p : Nat), p < 2 ^ 8 → t ≠ s.currentThread → s.lock = false →
        (s.threads t).priority < s.readyQueues.length →
        ∃ q q1 : List ThreadRef,
          (s.readyQueues.set (s.threads t).priority (q.erase t))[
              min p (s.readyQueues.length - 1)]? = some q1 ∧
          changePriority s t p = .done (min p (s.readyQueues.length - 1))
            { s with
              readyQueues := (s.readyQueues.set (s.threads t).priority (q.erase t)).set
                (min p (s.readyQueues.length - 1)) (q1 ++ [t])
              lock := false }) := by
  have hmax : getMaxPriority s = s.readyQueues.length - 1 := by
    unfold getMaxPriority
    omega
  have hne : s.readyQueues ≠ [] := by
    intro e
    rw [e] at hn1
    exact Nat.not_succ_le_zero 0 hn1
  refine ⟨hmax, ?_, ?_, ?_⟩
  · intro p _
    rw [hmax]
    exact ⟨rfl, by omega⟩
  · intro t p v s1 hp h
    rw [changePriority_done_value s s1 t p v h, clamp_eq_min s p hp, hmax]
  · intro t p hp ht hl hprio
    obtain ⟨q, q1, _, hq1, hdone, _⟩ := changePriority_moves s t p ht hp hl hne hprio
    rw [hmax] at hq1 hdone
    exact ⟨q, q1, hq1, hdone⟩

/-- Evaluation of C27 on the default instance with five classes:
`getMaxPriority()` is 4. -/
theorem max_priority_in_range_witness :
    getMaxPriority demoDefault = 4 :=
  (max_priority_in_range demoDefault (by decide) (by decide)).1

/-! ## The claims about the interrupt numbers, the ELF header and the panic screen -/

/-- C24: the interrupt numbers of `IntDispatcher` are the fixed vector table:
`PAGEFAULT = 14`, `PIT = 32`, `KEYBOARD = 33`, `COM2`, `COM1`, `LPT2`,
`FLOPPY`, `LPT1` = 35..39, `RTC = 40`, `FREE1`..`FREE3` = 41..43,
`MOUSE = 44`, `FPU = 45`, `PRIMARY_ATA = 46`, `SECONDARY_ATA = 47`.  The
sixteen values are pairwise distinct, and each is below 256, so the conversion
to the `uint8_t slot` parameter of `assign` leaves it as it is. -/
theorem interrupt_vector_table :
    IntDispatcher.interruptNumbers =
        [14, 32, 33, 35, 36, 37, 38, 39, 40, 41, 42, 43, 44, 45, 46, 47] ∧
      (IntDispatcher.PAGEFAULT = 14 ∧ IntDispatcher.PIT = 32 ∧
        IntDispatcher.KEYBOARD = 33 ∧ IntDispatcher.COM2 = 35 ∧
        IntDispatcher.COM1 = 36 ∧ IntDispatcher.LPT2 = 37 ∧
        IntDispatcher.FLOPPY = 38 ∧ IntDispatcher.LPT1 = 39 ∧
        IntDispatcher.RTC = 40 ∧ IntDispatcher.FREE1 = 41 ∧
        IntDispatcher.FREE2 = 42 ∧ IntDispatcher.FREE3 = 43 ∧
        IntDispatcher.MOUSE = 44 ∧ IntDispatcher.FPU = 45 ∧
        IntDispatcher.PRIMARY_ATA = 46 ∧ IntDispatcher.SECONDARY_ATA = 47) ∧
      IntDispatcher.interruptNumbers.length = 16 ∧
      IntDispatcher.interruptNumbers.Nodup ∧
      ∀ n ∈ IntDispatcher.interruptNumbers, n < 2 ^ 8 ∧ IntDispatcher.slot n = n := by
  decide

/-- The header check passes exactly for the magic bytes `0x7F 'E' 'L' 'F'`, the
three fixed format fields and one of the two admitted types. -/
theorem FileHeader.isValid_iff (K : ElfConstants) (h : FileHeader) :
    h.isValid K = true ↔
      h.magic = ![0x7F, 0x45, 0x4C, 0x46] ∧ h.architecture = K.BIT_32 ∧
        h.byteOrder = K.LITTLE_ENDIAN ∧ h.machine = K.X86 ∧
        (h.type = K.RELOCATABLE ∨ h.type = K.EXECUTABLE) := by
  have hE : 'E'.toNat = 0x45 := rfl
  have hL : 'L'.toNat = 0x4C := rfl
  have hF : 'F'.toNat = 0x46 := rfl
  have hm : h.magic = ![0x7F, 0x45, 0x4C, 0x46] ↔
      h.magic 0 = 0x7F ∧ h.magic 1 = 0x45 ∧ h.magic 2 = 0x4C ∧ h.magic 3 = 0x46 := by
    constructor
    · intro e
      rw [e]
      exact ⟨rfl, rfl, rfl, rfl⟩
    · rintro ⟨h0, h1, h2, h3⟩
      funext i
      fin_cases i
      · exact h0
      · exact h1
      · exact h2
      · exact h3
  rw [hm]
  unfold FileHeader.isValid
  rw [hE, hL, hF]
  by_cases h0 : h.magic 0 = 0x7F <;> by_cases h1 : h.magic 1 = 0x45 <;>
    by_cases h2 : h.magic 2 = 0x4C <;> by_cases h3 : h.magic 3 = 0x46 <;>
    by_cases ha : h.architecture = K.BIT_32 <;>
    by_cases hb : h.byteOrder = K.LITTLE_ENDIAN <;>
    by_cases hx : h.machine = K.X86 <;>
    by_cases hr : h.type = K.RELOCATABLE <;>
    by_cases he : h.type = K.EXECUTABLE <;>
    simp [h0, h1, h2, h3, ha, hb, hx, hr, he]

/-- C29: `FileHeader::isValid` returns true exactly when `magic` is the four
bytes `0x7F 'E' 'L' 'F'`, `architecture` is `BIT_32`, `byteOrder` is
`LITTLE_ENDIAN`, `machine` is `X86` and `type` is `RELOCATABLE` or
`EXECUTABLE`; `ElfModule::isValid` returns true exactly when the check of its
file header holds and `type` is `RELOCATABLE`.  The two enumerators of
`ElfType` being different, every header of type `EXECUTABLE` is rejected as a
module. -/
theorem elf_header_validation (K : ElfConstants) (h : FileHeader) (m : ElfModule)
    (hK : K.RELOCATABLE ≠ K.EXECUTABLE) :
    (h.isValid K = true ↔
      h.magic = ![0x7F, 0x45, 0x4C, 0x46] ∧ h.architecture = K.BIT_32 ∧
        h.byteOrder = K.LITTLE_ENDIAN ∧ h.machine = K.X86 ∧
        (h.type = K.RELOCATABLE ∨ h.type = K.EXECUTABLE)) ∧
      (m.isValid K = true ↔
        m.fileHeader.isValid K = true ∧ m.fileHeader.type = K.RELOCATABLE) ∧
      (m.isValid K = true ↔
        m.fileHeader.magic = ![0x7F, 0x45, 0x4C, 0x46] ∧
          m.fileHeader.architecture = K.BIT_32 ∧
          m.fileHeader.byteOrder = K.LITTLE_ENDIAN ∧ m.fileHeader.machine = K.X86 ∧
          m.fileHeader.type = K.RELOCATABLE) ∧
      (m.fileHeader.type = K.EXECUTABLE → m.isValid K = false) := by
  have hmod : m.isValid K = true ↔
      m.fileHeader.isValid K = true ∧ m.fileHeader.type = K.RELOCATABLE := by
    unfold ElfModule.isValid
    cases hv : m.fileHeader.isValid K <;> simp
  refine ⟨FileHeader.isValid_iff K h, hmod, ?_, ?_⟩
  · rw [hmod, FileHeader.isValid_iff]
    constructor
    · rintro ⟨⟨h1, h2, h3, h4, _⟩, h5⟩
      exact ⟨h1, h2, h3, h4, h5⟩
    · rintro ⟨h1, h2, h3, h4, h5⟩
      exact ⟨⟨h1, h2, h3, h4, Or.inl h5⟩, h5⟩
  · intro he
    cases hv : m.isValid K
    · rfl
    · have h5 := (hmod.mp hv).2
      rw [he] at h5
      exact absurd h5.symm hK

/-- Evaluation of C29 with the enumerator values of the ELF format: the
relocatable header is a valid file header and a valid module. -/
theorem elf_header_validation_witness :
    demoElfConstants.RELOCATABLE ≠ demoElfConstants.EXECUTABLE ∧
      demoRelocatable.isValid demoElfConstants = true ∧
      ElfModule.isValid demoElfConstants { fileHeader := demoRelocatable } = true :=
  ⟨by decide,
    (elf_header_validation demoElfConstants demoRelocatable
      { fileHeader := demoRelocatable } (by decide)).1.mpr
      ⟨rfl, rfl, rfl, rfl, Or.inl rfl⟩,
    (elf_header_validation demoElfConstants demoRelocatable
      { fileHeader := demoRelocatable } (by decide)).2.2.1.mpr
      ⟨rfl, rfl, rfl, rfl, rfl⟩⟩

/-- With the cursor inside the screen, `show` writes the character and the
attribute at the two bytes of the cell, and both lie inside the buffer. -/
theorem BlueScreen.show_inside (K : BlueScreenConstants) (s : BlueScreen)
    (x y c : Nat) (hx : x < K.COLUMNS) (hy : y < K.ROWS) :
    BlueScreen.show K s x y c =
        { s with
          cga := Function.update
            (Function.update s.cga (((y * K.COLUMNS + x) * 2) % 2 ^ 16) (c % 2 ^ 8))
            (((y * K.COLUMNS + x) * 2) % 2 ^ 16 + 1) K.ATTRIBUTE } ∧
      ((y * K.COLUMNS + x) * 2) % 2 ^ 16 + 1 < K.ROWS * K.COLUMNS * 2 ∧
      (K.ROWS * K.COLUMNS * 2 ≤ 2 ^ 16 →
        ((y * K.COLUMNS + x) * 2) % 2 ^ 16 = (y * K.COLUMNS + x) * 2) := by
  have hmul : (y + 1) * K.COLUMNS ≤ K.ROWS * K.COLUMNS :=
    Nat.mul_le_mul_right K.COLUMNS hy
  rw [Nat.add_mul, Nat.one_mul] at hmul
  have hshow : BlueScreen.show K s x y c =
      { s with
        cga := Function.update
          (Function.update s.cga (((y * K.COLUMNS + x) * 2) % 2 ^ 16) (c % 2 ^ 8))
          (((y * K.COLUMNS + x) * 2) % 2 ^ 16 + 1) K.ATTRIBUTE } := by
    unfold BlueScreen.show
    have h1 : ¬ (x < 0 ∨ x ≥ K.COLUMNS ∨ y < 0 ∨ y > K.ROWS) := by omega
    rw [if_neg h1]
  refine ⟨hshow, ?_, ?_⟩
  all_goals generalize y * K.COLUMNS = a at hmul ⊢
  all_goals generalize K.ROWS * K.COLUMNS = b at hmul ⊢
  · have := Nat.mod_le ((a + x) * 2) (2 ^ 16)
    omega
  · intro hb
    apply Nat.mod_eq_of_lt
    omega

/-- What one call of `putc` does to the cursor and to the buffer. -/
theorem BlueScreen.putc_step (K : BlueScreenConstants) (s : BlueScreen) (c : Nat)
    (hR : K.ROWS < 2 ^ 16) (hx : s.x < K.COLUMNS) :
    (BlueScreen.putc K s c).x < K.COLUMNS ∧
      s.y ≤ (BlueScreen.putc K s c).y ∧ (BlueScreen.putc K s c).y ≤ s.y + 1 ∧
      (BlueScreen.putc K s c).cga =
        (if s.y < K.ROWS ∧ c ≠ 10 then (BlueScreen.show K s s.x s.y c).cga
          else s.cga) := by
  unfold BlueScreen.putc
  by_cases hy : s.y ≥ K.ROWS
  · rw [if_pos hy]
    have : ¬ (s.y < K.ROWS ∧ c ≠ 10) := by omega
    rw [if_neg this]
    exact ⟨hx, le_refl _, Nat.le_succ _, rfl⟩
  · rw [if_neg hy]
    have hy1 : (s.y + 1) % 2 ^ 16 = s.y + 1 := Nat.mod_eq_of_lt (by omega)
    by_cases hc : c = 10
    · have : ¬ (s.y < K.ROWS ∧ c ≠ 10) := by omega
      rw [if_neg this]
      simp only [hc, if_true]
      have h0 : ¬ (0 ≥ K.COLUMNS) := by omega
      rw [if_neg h0]
      simp only [hy1]
      exact ⟨by omega, by omega, le_refl _, trivial⟩
    · have : s.y < K.ROWS ∧ c ≠ 10 := ⟨by omega, hc⟩
      rw [if_pos this]
      simp only [hc, if_false]
      have hsy : (BlueScreen.show K s s.x s.y c).y = s.y := by
        rw [(BlueScreen.show_inside K s s.x s.y c hx (by omega)).1]
      by_cases hw : (s.x + 1) % 2 ^ 16 ≥ K.COLUMNS
      · rw [if_pos hw]
        simp only [hsy, hy1]
        exact ⟨by omega, by omega, le_refl _, trivial⟩
      · rw [if_neg hw]
        simp only [hsy]
        exact ⟨by omega, le_refl _, by omega, trivial⟩

/-- A call of `putc` changes no byte outside the buffer of `ROWS * COLUMNS`
cells. -/
theorem BlueScreen.putc_frame (K : BlueScreenConstants) (s : BlueScreen) (c : Nat)
    (hR : K.ROWS < 2 ^ 16) (hx : s.x < K.COLUMNS) (a : Nat)
    (ha : K.ROWS * K.COLUMNS * 2 ≤ a) :
    (BlueScreen.putc K s c).cga a = s.cga a := by
  rw [(BlueScreen.putc_step K s c hR hx).2.2.2]
  by_cases h : s.y < K.ROWS ∧ c ≠ 10
  · rw [if_pos h]
    obtain ⟨he, hlt, _⟩ := BlueScreen.show_inside K s s.x s.y c hx h.1
    rw [he]
    show Function.update (Function.update s.cga _ _) _ _ a = s.cga a
    rw [Function.update_noteq (by omega), Function.update_noteq (by omega)]
  · rw [if_neg h]

/-- The cursor invariant and the frame of the buffer hold over `puts`. -/
theorem BlueScreen.puts_invariant (K : BlueScreenConstants) (str : Nat → Nat)
    (hR : K.ROWS < 2 ^ 16) (n : Nat) (s : BlueScreen) (hx : s.x < K.COLUMNS) :
    (BlueScreen.puts K s str n).x < K.COLUMNS ∧ s.y ≤ (BlueScreen.puts K s str n).y ∧
      ∀ a, K.ROWS * K.COLUMNS * 2 ≤ a → (BlueScreen.puts K s str n).cga a = s.cga a := by
  induction n with
  | zero => exact ⟨hx, le_refl _, fun _ _ => rfl⟩
  | succ n ih =>
    have e : BlueScreen.puts K s str (n + 1) =
        BlueScreen.putc K (BlueScreen.puts K s str n) (str n) := by
      unfold BlueScreen.puts
      rw [List.range_succ, List.foldl_append]
      rfl
    rw [e]
    obtain ⟨h1, h2, h3⟩ := ih
    obtain ⟨p1, p2, _, _⟩ := BlueScreen.putc_step K (BlueScreen.puts K s str n) (str n) hR h1
    refine ⟨p1, le_trans h2 p2, ?_⟩
    intro a ha
    rw [BlueScreen.putc_frame K _ (str n) hR h1 a ha, h3 a ha]

/-- C30: starting from a cursor with `x < COLUMNS` (the constant `ROWS` being
a 16-bit value), every call of `putc` keeps `x < COLUMNS` and never decreases
`y` (it grows by at most one).  The buffer changes only by the call of `show`
made for a character other than the line feed while `y < ROWS`; that call has
`x < COLUMNS` and `y < ROWS`, writes the character and the attribute at the
offsets `pos` and `pos + 1` of the cell, both inside the buffer of
`ROWS * COLUMNS` cells, with `pos = (y * COLUMNS + x) * 2` when the buffer
fits 16-bit offsets.  Once `y >= ROWS`, `putc` leaves the cursor and the
buffer as they are.  The same invariant holds over the calls made by
`puts`. -/
theorem putc_cursor_invariant (K : BlueScreenConstants) (s : BlueScreen) (c : Nat)
    (hR : K.ROWS < 2 ^ 16) (hx : s.x < K.COLUMNS) :
    (BlueScreen.putc K s c).x < K.COLUMNS ∧
      s.y ≤ (BlueScreen.putc K s c).y ∧ (BlueScreen.putc K s c).y ≤ s.y + 1 ∧
      (s.y < K.ROWS → c ≠ 10 →
        (BlueScreen.putc K s c).cga = (BlueScreen.show K s s.x s.y c).cga ∧
          (BlueScreen.show K s s.x s.y c).cga =
            Function.update
              (Function.update s.cga (((s.y * K.COLUMNS + s.x) * 2) % 2 ^ 16)
                (c % 2 ^ 8))
              (((s.y * K.COLUMNS + s.x) * 2) % 2 ^ 16 + 1) K.ATTRIBUTE ∧
          ((s.y * K.COLUMNS + s.x) * 2) % 2 ^ 16 + 1 < K.ROWS * K.COLUMNS * 2 ∧
          (K.ROWS * K.COLUMNS * 2 ≤ 2 ^ 16 →
            ((s.y * K.COLUMNS + s.x) * 2) % 2 ^ 16 = (s.y * K.COLUMNS + s.x) * 2)) ∧
      (c = 10 → (BlueScreen.putc K s c).cga = s.cga) ∧
      (∀ a, K.ROWS * K.COLUMNS * 2 ≤ a → (BlueScreen.putc K s c).cga a = s.cga a) ∧
      (K.ROWS ≤ s.y → BlueScreen.putc K s c = s) ∧
      (∀ (str : Nat → Nat) (n : Nat),
        (BlueScreen.puts K s str n).x < K.COLUMNS ∧
          s.y ≤ (BlueScreen.puts K s str n).y ∧
          ∀ a, K.ROWS * K.COLUMNS * 2 ≤ a →
            (BlueScreen.puts K s str n).cga a = s.cga a) := by
  obtain ⟨p1, p2, p3, p4⟩ := BlueScreen.putc_step K s c hR hx
  refine ⟨p1, p2, p3, ?_, ?_, ?_, ?_, ?_⟩
  · intro hy hc
    obtain ⟨he, hlt, hfit⟩ := BlueScreen.show_inside K s s.x s.y c hx hy
    refine ⟨?_, ?_, hlt, hfit⟩
    · rw [p4, if_pos ⟨hy, hc⟩]
    · rw [he]
  · intro hc
    rw [p4, if_neg (fun h => h.2 hc)]
  · intro a ha
    exact BlueScreen.putc_frame K s c hR hx a ha
  · intro hy
    unfold BlueScreen.putc
    rw [if_pos hy]
  · intro str n
    exact BlueScreen.puts_invariant K str hR n s hx

/-- Evaluation of C30 on the 80 x 25 screen with the cursor in the last
column of the first row: after `putc` of the letter `A` the cursor is at the
start of the second row, and the offsets 158 and 159 hold the letter and the
attribute. -/
theorem putc_cursor_invariant_witness :
    demoScreenConstants.ROWS < 2 ^ 16 ∧ demoScreen.x < demoScreenConstants.COLUMNS ∧
      (BlueScreen.putc demoScreenConstants demoScreen 65).x = 0 ∧
      (BlueScreen.putc demoScreenConstants demoScreen 65).y = 1 ∧
      (BlueScreen.putc demoScreenConstants demoScreen 65).cga 158 = 65 ∧
      (BlueScreen.putc demoScreenConstants demoScreen 65).cga 159 = 0x10 ∧
      (BlueScreen.putc demoScreenConstants demoScreen 65).x <
        demoScreenConstants.COLUMNS :=
  ⟨by decide, by decide, by decide, by decide, by decide, by decide,
    (putc_cursor_invariant demoScreenConstants demoScreen 65 (by decide) (by decide)).1⟩

/-! ## The claim about `IOMemoryManager::alloc` -/

/-- The state `demoIOReady` is the one `init` leaves. -/
theorem IOMemoryManager.init_demo :
    IOMemoryManager.init 0x1000 demoIOMemory = .done () demoIOReady := by
  rfl

/-- First fit: the walk passes the blocks with fewer than `pageCnt` pages
without changing anything and continues at the block `tmp` reached over `n`
such blocks. -/
theorem IOMemoryManager.allocLoop_skip (PAGESIZE pageCnt : Nat) (m : IOMemoryManager)
    (n : Nat) (p : Nat) (fuel : Nat)
    (hsmall : ∀ i, i < n →
      (fun a => (m.memory a).next)^[i] p ≠ 0 ∧
        (m.memory ((fun a => (m.memory a).next)^[i] p)).pageCount < pageCnt) :
    IOMemoryManager.allocLoop PAGESIZE pageCnt (n + fuel) p m =
      IOMemoryManager.allocLoop PAGESIZE pageCnt fuel
        ((fun a => (m.memory a).next)^[n] p) m := by
  induction n generalizing p with
  | zero => simp
  | succ n ih =>
    have h0 := hsmall 0 (Nat.succ_pos n)
    simp only [Function.iterate_zero, id_eq] at h0
    have e : n + 1 + fuel = (n + fuel) + 1 := by omega
    rw [e]
    conv_lhs => unfold IOMemoryManager.allocLoop
    rw [if_neg h0.1, if_neg (by omega)]
    rw [ih ((m.memory p).next)]
    · rw [Function.iterate_succ_apply]
    · intro i hi
      have := hsmall (i + 1) (by omega)
      rw [Function.iterate_succ_apply] at this
      exact this

/-- When the free list ends after `n` blocks which all have fewer than the
requested pages, `alloc` returns `nullptr` and changes nothing (the lock is
free again). -/
theorem IOMemoryManager.alloc_none (PAGESIZE size : Nat) (m : IOMemoryManager)
    (n fuel : Nat) (hlock : m.lock = false)
    (hsmall : ∀ i, i < n →
      (fun a => (m.memory a).next)^[i] m.anchor ≠ 0 ∧
        (m.memory ((fun a => (m.memory a).next)^[i] m.anchor)).pageCount <
          IOMemoryManager.pageCnt PAGESIZE size)
    (hend : (fun a => (m.memory a).next)^[n] m.anchor = 0) :
    IOMemoryManager.alloc PAGESIZE (n + (fuel + 1)) size m = .done 0 m := by
  unfold IOMemoryManager.alloc
  rw [hlock]
  simp only [Bool.false_eq_true, if_false]
  rw [IOMemoryManager.allocLoop_skip PAGESIZE _ { m with lock := true } n m.anchor
    (fuel + 1) hsmall]
  unfold IOMemoryManager.allocLoop
  rw [if_pos hend]
  cases m
  simp only at hlock
  rw [hlock]

/-- First fit in general: when `n` blocks with fewer than the requested pages
are followed by a block `tmp` with enough pages, `alloc` takes that block: it
ends as `takeBlock` at `tmp` ends, and when that completes it returns `tmp`,
records the page count for `tmp` in `ioMemoryMap`, lowers `freeMemory` by the
pages times `PAGESIZE` and releases the lock. -/
theorem IOMemoryManager.alloc_first_fit (PAGESIZE size : Nat) (m : IOMemoryManager)
    (n fuel : Nat) (hlock : m.lock = false)
    (hsmall : ∀ i, i < n →
      (fun a => (m.memory a).next)^[i] m.anchor ≠ 0 ∧
        (m.memory ((fun a => (m.memory a).next)^[i] m.anchor)).pageCount <
          IOMemoryManager.pageCnt PAGESIZE size)
    (hne : (fun a => (m.memory a).next)^[n] m.anchor ≠ 0)
    (hfit : IOMemoryManager.pageCnt PAGESIZE size ≤
      (m.memory ((fun a => (m.memory a).next)^[n] m.anchor)).pageCount) :
    IOMemoryManager.alloc PAGESIZE (n + (fuel + 1)) size m =
      match IOMemoryManager.takeBlock PAGESIZE (IOMemoryManager.pageCnt PAGESIZE size)
          ((fun a => (m.memory a).next)^[n] m.anchor) { m with lock := true } with
      | .error e => .nullAccess e
      | .ok m1 =>
        .done ((fun a => (m.memory a).next)^[n] m.anchor)
          { m1 with
            ioMemoryMap := Function.update m1.ioMemoryMap
              ((fun a => (m.memory a).next)^[n] m.anchor)
              (some (IOMemoryManager.pageCnt PAGESIZE size))
            freeMemory := (m1.freeMemory + 2 ^ 32 -
              (IOMemoryManager.pageCnt PAGESIZE size * PAGESIZE) % 2 ^ 32) % 2 ^ 32
            lock := false } := by
  unfold IOMemoryManager.alloc
  rw [hlock]
  simp only [Bool.false_eq_true, if_false]
  rw [IOMemoryManager.allocLoop_skip PAGESIZE _ { m with lock := true } n m.anchor
    (fuel + 1) hsmall]
  conv_lhs => unfold IOMemoryManager.allocLoop
  rw [if_neg hne, if_pos hfit]

/-- The exact fit of the anchor without a successor: `anchor` is set to
`tmp->next`, which is `nullptr`, and the next statement writes
`anchor->prev`. -/
theorem IOMemoryManager.alloc_last_block (PAGESIZE size fuel : Nat)
    (m : IOMemoryManager) (hlock : m.lock = false) (ha : m.anchor ≠ 0)
    (hnext : (m.memory m.anchor).next = 0)
    (hfit : (m.memory m.anchor).pageCount = IOMemoryManager.pageCnt PAGESIZE size) :
    IOMemoryManager.alloc PAGESIZE (fuel + 1) size m =
      .nullAccess { m with lock := true, anchor := 0 } := by
  unfold IOMemoryManager.alloc
  rw [hlock]
  simp only [Bool.false_eq_true, if_false]
  unfold IOMemoryManager.allocLoop
  rw [if_neg ha]
  simp only [hfit, ge_iff_le, le_refl, if_true]
  unfold IOMemoryManager.takeBlock IOMemoryManager.write
  simp [hfit, hnext]

/-- A write through a pointer other than `nullptr` completes and changes the
header at that address only. -/
theorem IOMemoryManager.write_spec (m : IOMemoryManager) (p : Nat)
    (f : IOMemFreeHeader → IOMemFreeHeader) (hp : p ≠ 0) :
    ∃ m1, m.write p f = .ok m1 ∧
      (m1.freeMemory = m.freeMemory ∧ m1.ioMemoryMap = m.ioMemoryMap ∧
        m1.lock = m.lock) ∧
      m1.memory = Function.update m.memory p (f (m.memory p)) := by
  unfold IOMemoryManager.write
  rw [if_neg hp]
  exact ⟨_, rfl, ⟨rfl, rfl, rfl⟩, rfl⟩

/-- Apart from the exact fit of an anchor without a successor, taking a block
of a well-formed list completes: for a block `tmp` that has a predecessor
unless it is the anchor, and a split position other than address 0,
`takeBlock` ends without a write through `nullptr` and leaves `freeMemory`,
`ioMemoryMap` and the lock as they are. -/
theorem IOMemoryManager.takeBlock_ok (PAGESIZE pageCnt tmp : Nat) (m : IOMemoryManager)
    (hprev : tmp ≠ m.anchor → (m.memory tmp).prev ≠ 0)
    (hnew : (m.memory tmp).pageCount ≠ pageCnt →
      (tmp + (pageCnt * PAGESIZE) % 2 ^ 32) % 2 ^ 32 ≠ 0)
    (hlast : ¬ ((m.memory tmp).pageCount = pageCnt ∧ tmp = m.anchor ∧
      (m.memory tmp).next = 0)) :
    ∃ m1, IOMemoryManager.takeBlock PAGESIZE pageCnt tmp m = .ok m1 ∧
      m1.freeMemory = m.freeMemory ∧ m1.ioMemoryMap = m.ioMemoryMap ∧
      m1.lock = m.lock := by
  unfold IOMemoryManager.takeBlock
  by_cases hfit : (m.memory tmp).pageCount = pageCnt
  · rw [if_pos hfit]
    by_cases ha : tmp = m.anchor
    · rw [if_pos ha]
      have hn : (m.memory tmp).next ≠ 0 := fun h => hlast ⟨hfit, ha, h⟩
      simp [IOMemoryManager.write, hn]
    · rw [if_neg ha]
      have hp := hprev ha
      by_cases hn : (m.memory tmp).next = 0
      · simp [IOMemoryManager.write, hn, hp, bind, Except.bind, pure, Except.pure]
      · by_cases hself : (m.memory tmp).next = tmp
        · have htmp : tmp ≠ 0 := fun h => hn (hself.trans h)
          simp [IOMemoryManager.write, hn, hp, hself, htmp, bind, Except.bind, pure,
            Except.pure]
        · simp [IOMemoryManager.write, hn, hp, hself, bind, Except.bind, pure, Except.pure,
            Function.update_noteq (Ne.symm hself)]
  · rw [if_neg hfit]
    have hh := hnew hfit
    generalize (tmp + (pageCnt * PAGESIZE) % 2 ^ 32) % 2 ^ 32 = nh at hh ⊢
    by_cases hp : (m.memory tmp).prev = 0
    · by_cases hs : nh = tmp
      · subst hs
        by_cases hn : (m.memory nh).next = 0
        · simp [IOMemoryManager.write, hn, hp, hh, bind, Except.bind, pure, Except.pure]
        · simp [IOMemoryManager.write, hn, hp, hh, bind, Except.bind, pure, Except.pure]
      · by_cases hn : (m.memory tmp).next = 0
        · simp [IOMemoryManager.write, hn, hp, hh, bind, Except.bind, pure, Except.pure,
            Function.update_noteq (Ne.symm hs)]
        · simp [IOMemoryManager.write, hn, hp, hh, bind, Except.bind, pure, Except.pure,
            Function.update_noteq (Ne.symm hs)]
    · simp only [hp, if_false]
      obtain ⟨m0, e0, f0, g0⟩ := IOMemoryManager.write_spec m nh
        (fun h => { h with prev := (m.memory tmp).prev }) hh
      have hp1 : (m0.memory tmp).prev ≠ 0 := by
        rw [g0]
        by_cases hs : nh = tmp
        · subst hs
          simpa using hp
        · rw [Function.update_noteq (Ne.symm hs)]
          exact hp
      obtain ⟨m1, e1, f1, _⟩ := IOMemoryManager.write_spec m0 (m0.memory tmp).prev
        (fun h => { h with next := nh }) hp1
      obtain ⟨m2, e2, f2, _⟩ := IOMemoryManager.write_spec m1 nh
        (fun h => { h with next := (m1.memory tmp).next }) hh
      obtain ⟨m3, e3, f3, _⟩ := IOMemoryManager.write_spec m2 nh
        (fun h => { h with
          pageCount := ((m2.memory tmp).pageCount + 2 ^ 32 - pageCnt) % 2 ^ 32 }) hh
      rw [e0]
      simp only [bind, Except.bind]
      rw [e1]
      simp only []
      rw [e2]
      simp only []
      rw [e3]
      simp only []
      by_cases hn : (m3.memory tmp).next = 0
      · simp only [hn, ne_eq, not_true, if_false, pure, Except.pure]
        exact ⟨m3, rfl, by rw [f3.1, f2.1, f1.1, f0.1], by rw [f3.2.1, f2.2.1, f1.2.1, f0.2.1],
          by rw [f3.2.2, f2.2.2, f1.2.2, f0.2.2]⟩
      · obtain ⟨m4, e4, f4, _⟩ := IOMemoryManager.write_spec m3 (m3.memory tmp).next
          (fun h => { h with prev := nh }) hn
        simp only [hn, ne_eq, not_false_eq_true, if_true]
        rw [e4]
        exact ⟨m4, rfl, by rw [f4.1, f3.1, f2.1, f1.1, f0.1],
          by rw [f4.2.1, f3.2.1, f2.2.1, f1.2.1, f0.2.1],
          by rw [f4.2.2, f3.2.2, f2.2.2, f1.2.2, f0.2.2]⟩

/-- Outside the exact fit of an anchor without a successor, `alloc` returns the
first block with enough pages: after `n` smaller blocks, for a block `tmp`
that has a predecessor unless it is the anchor and a split position other than
address 0, the call returns `tmp`, has recorded the page count for `tmp` in
`ioMemoryMap`, has lowered `freeMemory` by the pages times `PAGESIZE` and has
released the lock. -/
theorem IOMemoryManager.alloc_returns_first_fit (PAGESIZE size : Nat)
    (m : IOMemoryManager) (n fuel : Nat) (hlock : m.lock = false)
    (hsmall : ∀ i, i < n →
      (fun a => (m.memory a).next)^[i] m.anchor ≠ 0 ∧
        (m.memory ((fun a => (m.memory a).next)^[i] m.anchor)).pageCount <
          IOMemoryManager.pageCnt PAGESIZE size)
    (hne : (fun a => (m.memory a).next)^[n] m.anchor ≠ 0)
    (hfit : IOMemoryManager.pageCnt PAGESIZE size ≤
      (m.memory ((fun a => (m.memory a).next)^[n] m.anchor)).pageCount)
    (hprev : (fun a => (m.memory a).next)^[n] m.anchor ≠ m.anchor →
      (m.memory ((fun a => (m.memory a).next)^[n] m.anchor)).prev ≠ 0)
    (hnew : (m.memory ((fun a => (m.memory a).next)^[n] m.anchor)).pageCount ≠
        IOMemoryManager.pageCnt PAGESIZE size →
      ((fun a => (m.memory a).next)^[n] m.anchor +
        (IOMemoryManager.pageCnt PAGESIZE size * PAGESIZE) % 2 ^ 32) % 2 ^ 32 ≠ 0)
    (hlast : ¬ ((m.memory m.anchor).pageCount = IOMemoryManager.pageCnt PAGESIZE size ∧
      n = 0 ∧ (m.memory m.anchor).next = 0)) :
    ∃ m1, IOMemoryManager.alloc PAGESIZE (n + (fuel + 1)) size m =
        .done ((fun a => (m.memory a).next)^[n] m.anchor) m1 ∧
      m1.ioMemoryMap ((fun a => (m.memory a).next)^[n] m.anchor) =
        some (IOMemoryManager.pageCnt PAGESIZE size) ∧
      m1.freeMemory = (m.freeMemory + 2 ^ 32 -
        (IOMemoryManager.pageCnt PAGESIZE size * PAGESIZE) % 2 ^ 32) % 2 ^ 32 ∧
      m1.lock = false := by
  rw [IOMemoryManager.alloc_first_fit PAGESIZE size m n fuel hlock hsmall hne hfit]
  have hlast1 : ¬ ((m.memory ((fun a => (m.memory a).next)^[n] m.anchor)).pageCount =
        IOMemoryManager.pageCnt PAGESIZE size ∧
      (fun a => (m.memory a).next)^[n] m.anchor = m.anchor ∧
      (m.memory ((fun a => (m.memory a).next)^[n] m.anchor)).next = 0) := by
    rintro ⟨h1, h2, h3⟩
    rw [h2] at h1 h3
    cases n with
    | zero => exact hlast ⟨h1, rfl, h3⟩
    | succ k =>
      have h0 := (hsmall 0 (Nat.succ_pos k)).2
      simp only [Function.iterate_zero, id_eq] at h0
      omega
  obtain ⟨m1, e1, f1, f2, _⟩ := IOMemoryManager.takeBlock_ok PAGESIZE
    (IOMemoryManager.pageCnt PAGESIZE size) ((fun a => (m.memory a).next)^[n] m.anchor)
    { m with lock := true } hprev hnew hlast1
  rw [e1]
  refine ⟨_, rfl, ?_, ?_, rfl⟩
  · simp
  · show (m1.freeMemory + 2 ^ 32 - _) % 2 ^ 32 = _
    rw [f1]

/-- C28, evaluation at the failing input: the free list of `demoIOReady` is
well formed, it is the single block of four pages at `0x40000` left by `init`
(anchor, no predecessor, no successor).  A request of `0x4000` bytes needs
`k = 4` pages, the anchor fits exactly, and `alloc` does not return: it sets
`anchor` to `nullptr` and writes `anchor->prev`, the member of a header at
address 0, before `ioMemoryMap` and `freeMemory` are touched.  A request of one
page from the same state returns `0x40000`, records one page, leaves the block
of three pages at `0x41000` as the free list and lowers `freeMemory` by
`0x1000`; a request of five pages returns `nullptr` and changes nothing. -/
theorem alloc_last_block_writes_through_nullptr :
    IOMemoryManager.init 0x1000 demoIOMemory = .done () demoIOReady ∧
      IOMemoryManager.freeBlocks demoIOReady 2 demoIOReady.anchor = some [0x40000] ∧
      demoIOReady.memory 0x40000 = { prev := 0, next := 0, pageCount := 4 } ∧
      IOMemoryManager.pageCnt 0x1000 0x4000 = 4 ∧
      (∀ fuel, IOMemoryManager.alloc 0x1000 (fuel + 1) 0x4000 demoIOReady =
        .nullAccess { demoIOReady with lock := true, anchor := 0 }) ∧
      (∀ fuel, ∃ m1, IOMemoryManager.alloc 0x1000 (fuel + 1) 0x1000 demoIOReady =
          .done 0x40000 m1 ∧
        m1.ioMemoryMap 0x40000 = some 1 ∧ m1.freeMemory = 0x3000 ∧
        m1.anchor = 0x41000 ∧
        m1.memory 0x41000 = { prev := 0, next := 0, pageCount := 3 } ∧
        IOMemoryManager.freeBlocks m1 2 m1.anchor = some [0x41000] ∧ m1.lock = false) ∧
      (∀ fuel, IOMemoryManager.alloc 0x1000 (fuel + 2) 0x5000 demoIOReady =
        .done 0 demoIOReady) := by
  refine ⟨rfl, by decide, by decide, by decide, ?_, ?_, ?_⟩
  · intro fuel
    exact IOMemoryManager.alloc_last_block 0x1000 0x4000 fuel demoIOReady rfl
      (by decide) (by decide) (by decide)
  · intro fuel
    exact ⟨_, rfl, by decide, by decide, by decide, by decide, by decide, by decide⟩
  · intro fuel
    rw [show fuel + 2 = 1 + (fuel + 1) by omega]
    exact IOMemoryManager.alloc_none 0x1000 0x5000 demoIOReady 1 fuel rfl
      (by
        intro i hi
        have : i = 0 := by omega
        subst this
        decide)
      (by decide)

end HhuOS
